import Mathlib

/-!
Verification development for the `softOptimizationVRP` repository.

The Python sources are shallowly embedded: numbers are modelled as rationals
(`ℚ`), Python `None`/JSON values as an inductive `JVal`, dictionaries as
association lists with Python `dict` update semantics, and fallible code as
`Option`/`Except`.  Transcendental geometry (`math.sin`, `math.cos`,
`math.asin` inside the haversine / equirectangular helpers) is abstracted by
an explicit distance-function parameter wherever a claim does not depend on
the numeric value of a distance; every theorem quantifies over that
parameter, so it covers the concrete haversine instance.
-/

namespace VRP

/-! ## Python-style numeric helpers -/

/-- Python `round` to an integer: round-half-to-even on exact rationals
(`round(0.5) == 0`, `round(1.5) == 2`, `round(2.5) == 2`). Away from exact
ties this agrees with rounding to the nearest integer. -/
def pyRoundInt (q : ℚ) : ℤ :=
  if q - ⌊q⌋ = 1/2 ∧ (⌊q⌋ % 2 = 0) then ⌊q⌋ else round q

/-- Python `round(x, d)`: round to `d` decimal digits. -/
def pyRound (d : ℕ) (q : ℚ) : ℚ :=
  (pyRoundInt (q * (10 : ℚ) ^ d) : ℚ) / (10 : ℚ) ^ d

theorem pyRoundInt_le (q : ℚ) : |(pyRoundInt q : ℚ) - q| ≤ 1/2 := by
  unfold pyRoundInt
  split
  · rename_i h
    have h1 : (⌊q⌋ : ℚ) - q = -(1/2) := by linarith [h.1]
    rw [h1, abs_neg, abs_of_nonneg (by norm_num : (0:ℚ) ≤ 1/2)]
  · rw [abs_sub_comm]
    exact abs_sub_round q

theorem pyRoundInt_mono {x y : ℚ} (h : x ≤ y) : pyRoundInt x ≤ pyRoundInt y := by
  unfold pyRoundInt
  have hround : round x ≤ round y := by
    rw [round_eq, round_eq]
    exact Int.floor_mono (by linarith)
  have hfloor : ⌊x⌋ ≤ ⌊y⌋ := Int.floor_mono h
  have hfr : ∀ z : ℚ, (⌊z⌋ : ℤ) ≤ round z := by
    intro z
    rw [round_eq]
    exact Int.floor_mono (by linarith)
  split
  · rename_i hx
    split
    · rename_i hy
      exact hfloor
    · exact le_trans hfloor (hfr y)
  · rename_i hx
    split
    · rename_i hy
      -- y is an exact tie with even floor; show round x ≤ ⌊y⌋.
      rcases eq_or_lt_of_le h with heq | hlt
      · subst heq
        exact absurd hy hx
      · rw [round_eq]
        have h1 : x + 1/2 < (⌊y⌋ : ℚ) + 1 := by linarith [hy.1]
        have h2 : (⌊x + 1/2⌋ : ℚ) ≤ x + 1/2 := Int.floor_le _
        have h3 : (⌊x + 1/2⌋ : ℚ) < (⌊y⌋ : ℚ) + 1 := lt_of_le_of_lt h2 h1
        exact_mod_cast Int.lt_add_one_iff.mp (by exact_mod_cast h3)
    · exact hround

/-! ## Python-style string helpers -/

/-- Strip leading and trailing whitespace from a character list. -/
def stripL (l : List Char) : List Char :=
  ((l.dropWhile Char.isWhitespace).reverse.dropWhile Char.isWhitespace).reverse

/-- Python `str.strip()` (whitespace as recognised by `Char.isWhitespace`). -/
def pyStrip (s : String) : String :=
  String.mk (stripL s.data)

/-- Python `str.lower()` / `str.casefold()`, modelled as per-character
lowercasing (the sources only compare ASCII and Latin names). -/
def pyLower (s : String) : String :=
  String.mk (s.data.map Char.toLower)

/-- Does the second list start with the first one? -/
def startsWithL : List Char → List Char → Bool
  | [], _ => true
  | _ :: _, [] => false
  | a :: as, b :: bs => a == b && startsWithL as bs

/-- Substring test on character lists. -/
def containsSub (needle : List Char) : List Char → Bool
  | [] => needle.isEmpty
  | c :: cs => startsWithL needle (c :: cs) || containsSub needle cs

/-- Python `pat in hay` for strings. -/
def strHas (hay pat : String) : Bool :=
  containsSub pat.data hay.data

/-- Python `s.startswith(pre)`. -/
def pyStartsWith (s pre : String) : Bool :=
  startsWithL pre.data s.data

/-! ## JSON / Python values

`JVal` models the JSON payloads the Python code manipulates: `vnull` is both
JSON `null` and Python `None`;: dictionaries are association lists in
insertion order, exactly like Python 3 `dict`s. -/

inductive JVal where
  | vnull : JVal
  | vbool : Bool → JVal
  | vint : ℤ → JVal
  | vnum : ℚ → JVal
  | vstr : String → JVal
  | vlist : List JVal → JVal
  | vdict : List (String × JVal) → JVal

mutual

/-- Structural equality test for `JVal`. -/
def beqJ : JVal → JVal → Bool
  | .vnull, .vnull => true
  | .vbool a, .vbool b => a == b
  | .vint a, .vint b => a == b
  | .vnum a, .vnum b => a == b
  | .vstr a, .vstr b => a == b
  | .vlist a, .vlist b => beqJL a b
  | .vdict a, .vdict b => beqJD a b
  | _, _ => false

/-- Structural equality test for lists of `JVal`. -/
def beqJL : List JVal → List JVal → Bool
  | [], [] => true
  | a :: as, b :: bs => beqJ a b && beqJL as bs
  | _, _ => false

/-- Structural equality test for dict entry lists. -/
def beqJD : List (String × JVal) → List (String × JVal) → Bool
  | [], [] => true
  | (k, v) :: as, (k2, v2) :: bs => k == k2 && beqJ v v2 && beqJD as bs
  | _, _ => false

end

mutual

theorem beqJ_eq : ∀ (a b : JVal), beqJ a b = true ↔ a = b
  | .vnull, b => by cases b <;> simp [beqJ]
  | .vbool x, b => by cases b <;> simp [beqJ]
  | .vint x, b => by cases b <;> simp [beqJ]
  | .vnum x, b => by cases b <;> simp [beqJ]
  | .vstr x, b => by cases b <;> simp [beqJ]
  | .vlist xs, b => by
      cases b <;> simp [beqJ]
      exact beqJL_eq xs _
  | .vdict es, b => by
      cases b <;> simp [beqJ]
      exact beqJD_eq es _

theorem beqJL_eq : ∀ (as bs : List JVal), beqJL as bs = true ↔ as = bs
  | [], bs => by cases bs <;> simp [beqJL]
  | a :: as, [] => by simp [beqJL]
  | a :: as, b :: bs => by
      simp [beqJL, beqJ_eq a b, beqJL_eq as bs]

theorem beqJD_eq : ∀ (as bs : List (String × JVal)), beqJD as bs = true ↔ as = bs
  | [], bs => by cases bs <;> simp [beqJD]
  | a :: as, [] => by simp [beqJD]
  | (k, v) :: as, (k2, v2) :: bs => by
      simp [beqJD, beqJ_eq v v2, beqJD_eq as bs, and_assoc]

end

instance : DecidableEq JVal :=
  fun a b => decidable_of_iff (beqJ a b = true) (beqJ_eq a b)

/-- A Python dictionary with string keys. -/
abbrev JDict := List (String × JVal)

/-- `d.get(key)` semantics: value of the first matching key. -/
def dictGet : JDict → String → Option JVal
  | [], _ => none
  | (k, v) :: rest, key => if k = key then some v else dictGet rest key

/-- `d.get(key, default)`. -/
def dictGetD (d : JDict) (key : String) (default : JVal) : JVal :=
  (dictGet d key).getD default

/-- `key in d`. -/
def dictHasKey (d : JDict) (key : String) : Bool :=
  (dictGet d key).isSome

/-- `d[key] = v`: update in place if the key exists, append otherwise
(Python 3 dict insertion-order semantics). -/
def dictSet : JDict → String → JVal → JDict
  | [], key, val => [(key, val)]
  | (k, v) :: rest, key, val =>
      if k = key then (k, val) :: rest else (k, v) :: dictSet rest key val

/-- `x if isinstance(x, dict) else {}` on an optional lookup result. -/
def asDict : Option JVal → JDict
  | some (.vdict entries) => entries
  | _ => []

/-- `x if isinstance(x, list) else []` on an optional lookup result. -/
def asList : Option JVal → List JVal
  | some (.vlist xs) => xs
  | _ => []

/-- Python truthiness of a value. -/
def pyTruthy : JVal → Bool
  | .vnull => false
  | .vbool b => b
  | .vint n => n != 0
  | .vnum q => q != 0
  | .vstr s => s != ""
  | .vlist xs => !xs.isEmpty
  | .vdict entries => !entries.isEmpty

mutual

/-- Python `str(x)` (container rendering abstracted to a canonical form;
the sources only use it to build join keys). -/
def pyStr : JVal → String
  | .vnull => "None"
  | .vbool true => "True"
  | .vbool false => "False"
  | .vint n => toString n
  | .vnum q => toString q
  | .vstr s => s
  | .vlist xs => "[" ++ pyStrSeq xs ++ "]"
  | .vdict entries => "\x7b" ++ pyStrEntries entries ++ "\x7d"

/-- Comma-joined `repr`s of list elements. -/
def pyStrSeq : List JVal → String
  | [] => ""
  | [x] => pyReprV x
  | x :: xs => pyReprV x ++ ", " ++ pyStrSeq xs

/-- Comma-joined `repr`s of dict entries. -/
def pyStrEntries : List (String × JVal) → String
  | [] => ""
  | [(k, v)] => "\x27" ++ k ++ "\x27: " ++ pyReprV v
  | (k, v) :: rest => "\x27" ++ k ++ "\x27: " ++ pyReprV v ++ ", " ++ pyStrEntries rest

/-- Python `repr(x)` as used inside container rendering. -/
def pyReprV : JVal → String
  | .vstr s => "\x27" ++ s ++ "\x27"
  | v => pyStr v

end

/-- Python `int(x)`: `none` models a raised `TypeError`/`ValueError`. -/
def pyInt : JVal → Option ℤ
  | .vint n => some n
  | .vbool b => some (if b then 1 else 0)
  | .vnum q => some (if 0 ≤ q then ⌊q⌋ else ⌈q⌉)
  | .vstr s => (pyStrip s).toInt?
  | _ => none

/-! ## Route segments (`semantic_layer._build_route_segments`)

A stop record carries the fields the sources read: `id`, `lat`, `lng` and the
optional `demand`.  `eta_utc` is modelled as an optional timestamp in minutes
(`_to_iso_z` renders a non-`None` datetime to a string and maps `None` to
`None`, so nullness is preserved by the rendering we elide). -/

structure Pt where
  id : JVal
  lat : ℚ
  lng : ℚ
  demand : Option ℚ
  deriving DecidableEq

/-- One entry of the list `_build_route_segments` returns. -/
structure Segment where
  segmentIndex : ℕ
  fromStopId : JVal
  toStopId : JVal
  distanceKm : ℚ
  cumulativeDistanceKm : ℚ
  etaMinFromDeparture : ℚ
  etaUtc : Option ℚ
  midpoint : ℚ × ℚ
  startPt : ℚ × ℚ
  endPt : ℚ × ℚ

/-- The loop body of `_build_route_segments`, with the running accumulators
`elapsed_min` and `cumulative_km` made explicit.  `hav` abstracts
`_haversine_km` (a nonnegative transcendental function of two coordinates). -/
def buildSegmentsAux (hav : ℚ × ℚ → ℚ × ℚ → ℚ) (avgSpeedKmh : ℚ)
    (departureTimeUtc : Option ℚ) :
    List Pt → ℕ → ℚ → ℚ → List Segment
  | s :: e :: rest, index, elapsedMin, cumulativeKm =>
      let startPoint := (s.lat, s.lng)
      let endPoint := (e.lat, e.lng)
      let segmentDistanceKm := hav startPoint endPoint
      let cumulativeKm2 := cumulativeKm + segmentDistanceKm
      let elapsedMin2 :=
        if 0 < avgSpeedKmh then elapsedMin + segmentDistanceKm / avgSpeedKmh * 60
        else elapsedMin
      { segmentIndex := index
        fromStopId := s.id
        toStopId := e.id
        distanceKm := pyRound 3 segmentDistanceKm
        cumulativeDistanceKm := pyRound 3 cumulativeKm2
        etaMinFromDeparture := pyRound 1 elapsedMin2
        etaUtc := departureTimeUtc.map (fun t => t + elapsedMin2)
        midpoint := ((s.lat + e.lat) / 2, (s.lng + e.lng) / 2)
        startPt := startPoint
        endPt := endPoint } ::
        buildSegmentsAux hav avgSpeedKmh departureTimeUtc (e :: rest) (index + 1)
          elapsedMin2 cumulativeKm2
  | _, _, _, _ => []

/-- `_build_route_segments(stops, avg_speed_kmh, departure_time_utc)`. -/
def buildRouteSegments (hav : ℚ × ℚ → ℚ × ℚ → ℚ) (stops : List Pt)
    (avgSpeedKmh : ℚ) (departureTimeUtc : Option ℚ) : List Segment :=
  if stops.length < 2 then []
  else buildSegmentsAux hav avgSpeedKmh departureTimeUtc stops 0 0 0

theorem pyRound_err (d : ℕ) (q : ℚ) : |pyRound d q - q| ≤ 1 / (2 * 10 ^ d) := by
  have h10 : (0:ℚ) < (10 : ℚ) ^ d := by positivity
  have h := pyRoundInt_le (q * (10 : ℚ) ^ d)
  have key : pyRound d q - q =
      ((pyRoundInt (q * (10:ℚ) ^ d) : ℚ) - q * (10:ℚ) ^ d) / (10:ℚ) ^ d := by
    unfold pyRound
    field_simp
    ring
  rw [key, abs_div, abs_of_pos h10,
    div_le_div_iff₀ h10 (by positivity : (0:ℚ) < 2 * 10 ^ d)]
  calc |(pyRoundInt (q * 10 ^ d) : ℚ) - q * 10 ^ d| * (2 * 10 ^ d)
      ≤ (1/2) * (2 * 10 ^ d) := mul_le_mul_of_nonneg_right h (by positivity)
    _ = 1 * 10 ^ d := by ring

theorem pyRound_mono (d : ℕ) {x y : ℚ} (h : x ≤ y) : pyRound d x ≤ pyRound d y := by
  unfold pyRound
  have h10 : (0:ℚ) < (10 : ℚ) ^ d := by positivity
  have h2 := pyRoundInt_mono (mul_le_mul_of_nonneg_right h (le_of_lt h10))
  exact (div_le_div_iff_of_pos_right h10).mpr (by exact_mod_cast h2)

/-- The pairwise relation between consecutive segments used to state C2. -/
def SegRel (s t : Segment) : Prop :=
  (∃ c dk, 0 ≤ dk ∧ s.cumulativeDistanceKm = pyRound 3 c ∧
    t.distanceKm = pyRound 3 dk ∧
    t.cumulativeDistanceKm = pyRound 3 (c + dk)) ∧
  s.etaMinFromDeparture ≤ t.etaMinFromDeparture

/-- Every pair of consecutive segments emitted by the loop satisfies
`SegRel`, whatever accumulators the loop was entered with. -/
theorem buildSegmentsAux_chain (hav : ℚ × ℚ → ℚ × ℚ → ℚ) (avg : ℚ)
    (dep : Option ℚ) (hnn : ∀ a b, 0 ≤ hav a b) :
    ∀ (stops : List Pt) (index : ℕ) (E C : ℚ),
      List.Chain' SegRel (buildSegmentsAux hav avg dep stops index E C) := by
  intro stops
  induction stops with
  | nil => intro index E C; simp [buildSegmentsAux]
  | cons s rest ih =>
    cases rest with
    | nil => intro index E C; simp [buildSegmentsAux]
    | cons e rest2 =>
      intro index E C
      rw [buildSegmentsAux, List.chain'_cons']
      refine ⟨?_, ih (index + 1) _ _⟩
      intro seg2 hseg2
      cases rest2 with
      | nil => simp [buildSegmentsAux] at hseg2
      | cons f rest3 =>
        rw [buildSegmentsAux] at hseg2
        simp only [List.head?_cons, Option.mem_def, Option.some.injEq] at hseg2
        subst hseg2
        constructor
        · refine ⟨C + hav (s.lat, s.lng) (e.lat, e.lng),
            hav (e.lat, e.lng) (f.lat, f.lng), hnn _ _, rfl, rfl, rfl⟩
        · apply pyRound_mono
          split
          · rename_i havg
            have hnn2 := hnn (e.lat, e.lng) (f.lat, f.lng)
            have : 0 ≤ hav (e.lat, e.lng) (f.lat, f.lng) / avg * 60 := by positivity
            linarith
          · exact le_refl _

/-- `eta_utc` is `None` exactly when the departure time is `None`, for every
segment the loop emits. -/
theorem buildSegmentsAux_etaUtc (hav : ℚ × ℚ → ℚ × ℚ → ℚ) (avg : ℚ)
    (dep : Option ℚ) :
    ∀ (stops : List Pt) (index : ℕ) (E C : ℚ),
      ∀ seg ∈ buildSegmentsAux hav avg dep stops index E C,
        (seg.etaUtc = none ↔ dep = none) := by
  intro stops
  induction stops with
  | nil => intro index E C seg hseg; simp [buildSegmentsAux] at hseg
  | cons s rest ih =>
    cases rest with
    | nil => intro index E C seg hseg; simp [buildSegmentsAux] at hseg
    | cons e rest2 =>
      intro index E C seg hseg
      rw [buildSegmentsAux] at hseg
      simp only [List.mem_cons] at hseg
      rcases hseg with h | h
      · subst h
        simp only [Option.map_eq_none]
        cases dep <;> simp
      · exact ih (index + 1) _ _ seg h

/-- The `len(stops) < 2` guard in `_build_route_segments` is subsumed by the
loop itself (both yield no segments). -/
theorem buildRouteSegments_eq_aux (hav : ℚ × ℚ → ℚ × ℚ → ℚ) (stops : List Pt)
    (avg : ℚ) (dep : Option ℚ) :
    buildRouteSegments hav stops avg dep =
      buildSegmentsAux hav avg dep stops 0 0 0 := by
  unfold buildRouteSegments
  split
  · rename_i h
    rcases stops with _ | ⟨a, _ | ⟨b, t⟩⟩
    · simp [buildSegmentsAux]
    · simp [buildSegmentsAux]
    · simp only [List.length_cons] at h
      omega
  · rfl

/-- Segment 0 is emitted with `cumulative_distance_km = distance_km`
(both are the 3-decimal rounding of the first leg length). -/
theorem buildRouteSegments_head (hav : ℚ × ℚ → ℚ × ℚ → ℚ) (stops : List Pt)
    (avg : ℚ) (dep : Option ℚ) :
    ∀ seg0 : Segment, (buildRouteSegments hav stops avg dep).head? = some seg0 →
      seg0.cumulativeDistanceKm = seg0.distanceKm := by
  intro seg0 h0
  rw [buildRouteSegments_eq_aux] at h0
  rcases stops with _ | ⟨s, _ | ⟨e, rest⟩⟩
  · simp [buildSegmentsAux] at h0
  · simp [buildSegmentsAux] at h0
  · rw [buildSegmentsAux] at h0
    simp only [List.head?_cons, Option.some.injEq] at h0
    subst h0
    simp

theorem pyRound3_add_err (c dk : ℚ) :
    |pyRound 3 (c + dk) - (pyRound 3 c + pyRound 3 dk)| ≤ 3/2000 := by
  have h1 := pyRound_err 3 (c + dk)
  have h2 := pyRound_err 3 c
  have h3 := pyRound_err 3 dk
  have e : (1 : ℚ) / (2 * 10 ^ 3) = 1/2000 := by norm_num
  rw [e] at h1 h2 h3
  have ha := abs_le.mp h1
  have hb := abs_le.mp h2
  have hc := abs_le.mp h3
  rw [abs_le]
  exact ⟨by linarith [ha.1, hb.2, hc.2], by linarith [ha.2, hb.1, hc.1]⟩

/-- Claim C2, as stated, is false on the code: `distance_km` and
`cumulative_distance_km` are emitted rounded to 3 decimals, so the exact
equation `cumulative[i] == cumulative[i-1] + distance[i]` can fail.  With a
route of three stops whose two legs both measure 0.0006 km, the emitted
segments carry `(distance_km, cumulative_distance_km) = (0.001, 0.001)`
twice, and `0.001 ≠ 0.001 + 0.001`. -/
theorem claim2_counterexample :
    ((buildRouteSegments (fun _ _ => (3:ℚ)/5000)
        [⟨.vstr "d", 0, 0, none⟩, ⟨.vstr "a", 1, 0, none⟩, ⟨.vstr "d", 0, 0, none⟩]
        40 none).map (fun s => (s.distanceKm, s.cumulativeDistanceKm))) =
      [(1/1000, 1/1000), (1/1000, 1/1000)] ∧
    ¬ ((1:ℚ)/1000 = 1/1000 + 1/1000) := by
  constructor
  · with_unfolding_all rfl
  · norm_num

/-- Claim C2 (amended): for every route, segment 0's emitted cumulative
distance equals its own emitted distance exactly; for `i ≥ 1` the emitted
`cumulative_distance_km[i]` equals `cumulative_distance_km[i-1] +
distance_km[i]` up to the 3-decimal rounding of the emitted fields (absolute
error at most 0.0015); when `avg_speed > 0` the emitted
`eta_min_from_departure` values are non-decreasing in segment index; and
`eta_utc` is null iff the departure time is null.  Quantified over the
nonnegative distance function `hav` abstracting `_haversine_km`. -/
theorem claim2_segment_invariants
    (hav : ℚ × ℚ → ℚ × ℚ → ℚ) (stops : List Pt) (avg : ℚ) (dep : Option ℚ)
    (hnn : ∀ a b, 0 ≤ hav a b) :
    (∀ seg0 : Segment, (buildRouteSegments hav stops avg dep).head? = some seg0 →
      seg0.cumulativeDistanceKm = seg0.distanceKm) ∧
    (∀ (i : ℕ) (h : i < (buildRouteSegments hav stops avg dep).length - 1),
      |((buildRouteSegments hav stops avg dep).get ⟨i + 1, by omega⟩).cumulativeDistanceKm -
        (((buildRouteSegments hav stops avg dep).get ⟨i, by omega⟩).cumulativeDistanceKm +
          ((buildRouteSegments hav stops avg dep).get ⟨i + 1, by omega⟩).distanceKm)|
        ≤ 3/2000) ∧
    (0 < avg →
      ∀ (i : ℕ) (h : i < (buildRouteSegments hav stops avg dep).length - 1),
        ((buildRouteSegments hav stops avg dep).get ⟨i, by omega⟩).etaMinFromDeparture ≤
          ((buildRouteSegments hav stops avg dep).get ⟨i + 1, by omega⟩).etaMinFromDeparture) ∧
    (∀ seg ∈ buildRouteSegments hav stops avg dep, (seg.etaUtc = none ↔ dep = none)) := by
  have hch := buildSegmentsAux_chain hav avg dep hnn stops 0 0 0
  rw [← buildRouteSegments_eq_aux] at hch
  have hidx := List.chain'_iff_get.mp hch
  refine ⟨buildRouteSegments_head hav stops avg dep, ?_, ?_, ?_⟩
  · intro i h
    obtain ⟨⟨c, dk, _, hc1, hd2, hc2⟩, _⟩ := hidx i h
    rw [hc1, hd2, hc2]
    exact pyRound3_add_err c dk
  · intro _ i h
    exact (hidx i h).2
  · intro seg hseg
    rw [buildRouteSegments_eq_aux] at hseg
    exact buildSegmentsAux_etaUtc hav avg dep stops 0 0 0 seg hseg

/-- Concrete instance of `claim2_segment_invariants` (three stops, unit leg
distances, departure at minute 0). -/
theorem claim2_witness :
    |((buildRouteSegments (fun _ _ => (1:ℚ))
        [⟨.vstr "d", 0, 0, none⟩, ⟨.vstr "a", 1, 0, none⟩, ⟨.vstr "d", 0, 0, none⟩]
        40 (some 0)).get ⟨1, by with_unfolding_all decide⟩).cumulativeDistanceKm -
      (((buildRouteSegments (fun _ _ => (1:ℚ))
        [⟨.vstr "d", 0, 0, none⟩, ⟨.vstr "a", 1, 0, none⟩, ⟨.vstr "d", 0, 0, none⟩]
        40 (some 0)).get ⟨0, by with_unfolding_all decide⟩).cumulativeDistanceKm +
        ((buildRouteSegments (fun _ _ => (1:ℚ))
        [⟨.vstr "d", 0, 0, none⟩, ⟨.vstr "a", 1, 0, none⟩, ⟨.vstr "d", 0, 0, none⟩]
        40 (some 0)).get ⟨1, by with_unfolding_all decide⟩).distanceKm)| ≤ 3/2000 := by
  exact (claim2_segment_invariants (fun _ _ => (1:ℚ))
    [⟨.vstr "d", 0, 0, none⟩, ⟨.vstr "a", 1, 0, none⟩, ⟨.vstr "d", 0, 0, none⟩]
    40 (some 0) (fun _ _ => by norm_num)).2.1 0 (by with_unfolding_all decide)

/-! ## POI relevance scorer (`semantic_layer._score_location`,
`semantic_layer._semantic_locations_for_route`)

A candidate location after `_normalize_locations`; `semantic_category` is the
string `_infer_category` produced.  The requested category set is modelled as
a list (only membership and emptiness are used). -/

structure Loc where
  id : JVal
  name : JVal
  lat : ℚ
  lng : ℚ
  tags : JDict
  source : JVal
  semanticCategory : String

/-- One entry of the emitted `semantic_locations` list. -/
structure ScoredLoc where
  id : JVal
  name : JVal
  lat : ℚ
  lng : ℚ
  source : JVal
  semanticCategory : String
  distanceToRouteKm : ℚ
  estimatedDetourKm : ℚ
  nearestSegmentIndex : ℕ
  relevanceScore : ℚ
  tags : JDict

/-- `_score_location(distance_km, radius_km, category, semantic_categories)`. -/
def scoreLocation (distanceKm radiusKm : ℚ) (category : String)
    (semanticCategories : List String) : ℚ :=
  let proximityScore := max 0 (1 - distanceKm / radiusKm)
  let semanticScore : ℚ :=
    if semanticCategories.isEmpty then 1
    else if category ∈ semanticCategories then 1
    else 1/4
  (65/100) * proximityScore + (35/100) * semanticScore

/-- The loop body of `_semantic_locations_for_route`: score one candidate,
dropping it when `_distance_to_route_km` (abstracted as `d2r`, `none`
modelling an infinite distance) exceeds the corridor radius. -/
def keptLoc (d2r : Loc → Option (ℚ × ℕ)) (radiusKm : ℚ)
    (semanticCategories : List String) (loc : Loc) : Option ScoredLoc :=
  (d2r loc).bind (fun p =>
    if radiusKm < p.1 then none
    else some
      { id := loc.id
        name := loc.name
        lat := loc.lat
        lng := loc.lng
        source := loc.source
        semanticCategory := loc.semanticCategory
        distanceToRouteKm := pyRound 3 p.1
        estimatedDetourKm := pyRound 3 (p.1 * 2)
        nearestSegmentIndex := p.2
        relevanceScore :=
          pyRound 4 (scoreLocation p.1 radiusKm loc.semanticCategory
            semanticCategories)
        tags := loc.tags })

/-- The sort key order of `_semantic_locations_for_route`:
`(-relevance_score, distance_to_route_km, str(id))`, lexicographically. -/
def LocKeyLE (a b : ScoredLoc) : Prop :=
  b.relevanceScore < a.relevanceScore ∨
  (b.relevanceScore = a.relevanceScore ∧
    (a.distanceToRouteKm < b.distanceToRouteKm ∨
      (a.distanceToRouteKm = b.distanceToRouteKm ∧ pyStr a.id ≤ pyStr b.id)))

instance (a b : ScoredLoc) : Decidable (LocKeyLE a b) := by
  unfold LocKeyLE
  infer_instance

/-- `_semantic_locations_for_route(route, candidate_locations, radius_km,
semantic_categories, top_k)`; the stable sort is `List.mergeSort`, matching
Python `list.sort`. -/
def semanticLocationsForRoute (d2r : Loc → Option (ℚ × ℕ)) (stops : List Pt)
    (candidateLocations : List Loc) (radiusKm : ℚ)
    (semanticCategories : List String) (topK : ℕ) : List ScoredLoc :=
  if stops.length < 2 ∨ candidateLocations.isEmpty then []
  else
    ((candidateLocations.filterMap
      (keptLoc d2r radiusKm semanticCategories)).mergeSort
        (fun a b => decide (LocKeyLE a b))).take topK

theorem locKeyLE_total (a b : ScoredLoc) : LocKeyLE a b ∨ LocKeyLE b a := by
  unfold LocKeyLE
  rcases lt_trichotomy a.relevanceScore b.relevanceScore with h | h | h
  · right; left; exact h
  · rcases lt_trichotomy a.distanceToRouteKm b.distanceToRouteKm with h2 | h2 | h2
    · left; right; exact ⟨h.symm, Or.inl h2⟩
    · rcases le_total (pyStr a.id) (pyStr b.id) with h3 | h3
      · left; right; exact ⟨h.symm, Or.inr ⟨h2, h3⟩⟩
      · right; right; exact ⟨h, Or.inr ⟨h2.symm, h3⟩⟩
    · right; right; exact ⟨h, Or.inl h2⟩
  · left; left; exact h

theorem locKeyLE_trans (a b c : ScoredLoc) (hab : LocKeyLE a b)
    (hbc : LocKeyLE b c) : LocKeyLE a c := by
  unfold LocKeyLE at *
  rcases hab with h1 | ⟨e1, h1⟩
  · rcases hbc with h2 | ⟨e2, h2⟩
    · exact Or.inl (lt_trans h2 h1)
    · exact Or.inl (e2 ▸ h1)
  · rcases hbc with h2 | ⟨e2, h2⟩
    · exact Or.inl (lt_of_lt_of_le h2 (le_of_eq e1))
    · refine Or.inr ⟨e2.trans e1, ?_⟩
      rcases h1 with h1 | ⟨d1, s1⟩
      · rcases h2 with h2 | ⟨d2, s2⟩
        · exact Or.inl (lt_trans h1 h2)
        · exact Or.inl (d2 ▸ h1)
      · rcases h2 with h2 | ⟨d2, s2⟩
        · exact Or.inl (d1 ▸ h2)
        · exact Or.inr ⟨d1.trans d2, le_trans s1 s2⟩

/-- Claim C3, as stated, is false on the code: `relevance_score` is emitted
rounded to 4 decimals (`round(score, 4)`), so it can differ from the exact
formula value.  A candidate at distance 1 km with radius 3 km and no
requested categories has exact score `0.65·(2/3) + 0.35 = 47/60 =
0.78333…`, but the emitted `relevance_score` is `0.7833`. -/
theorem claim3_counterexample :
    ((semanticLocationsForRoute (fun _ => some (1, 0))
        [⟨.vstr "d", 0, 0, none⟩, ⟨.vstr "a", 1, 1, none⟩]
        [⟨.vstr "p1", .vnull, 0, 0, [], .vnull, "other"⟩]
        3 [] 8).map (fun x => x.relevanceScore)) = [7833/10000] ∧
    scoreLocation 1 3 "other" [] = 47/60 ∧
    ((7833:ℚ)/10000) ≠ 47/60 := by
  have hscore : scoreLocation 1 3 "other" ([] : List String) = 47/60 := by
    unfold scoreLocation
    rw [show (1:ℚ) - 1/3 = 2/3 by norm_num,
      max_eq_right (by norm_num : (0:ℚ) ≤ 2/3)]
    norm_num
  have hround : pyRound 4 ((47:ℚ)/60) = 7833/10000 := by
    unfold pyRound pyRoundInt
    rw [show ((47:ℚ)/60 * 10^4) = 23500/3 by norm_num]
    norm_num [round_eq]
  refine ⟨?_, hscore, by norm_num⟩
  simp only [semanticLocationsForRoute, keptLoc, List.filterMap]
  norm_num [List.mergeSort_singleton, hscore, hround]

/-- Claim C3 (amended): every entry of the returned `semantic_locations`
comes from a candidate whose (exact) distance to the route is at most the
corridor radius; its emitted `distance_to_route_km` is the 3-decimal rounding
of that distance and its emitted `relevance_score` is the 4-decimal rounding
of `0.65·max(0, 1-d/radius) + 0.35·(1.0 if the category is requested or the
requested set is empty, else 0.25)`; the returned list is sorted by
`(-relevance_score, distance_to_route_km, str(id))`; and its length is at
most `top_k`.  `d2r` abstracts `_distance_to_route_km` (`none` = infinite). -/
theorem claim3_semantic_locations (d2r : Loc → Option (ℚ × ℕ))
    (stops : List Pt) (candidateLocations : List Loc) (radiusKm : ℚ)
    (semanticCategories : List String) (topK : ℕ) :
    (∀ x ∈ semanticLocationsForRoute d2r stops candidateLocations radiusKm
        semanticCategories topK,
      ∃ loc ∈ candidateLocations, ∃ d seg, d2r loc = some (d, seg) ∧
        d ≤ radiusKm ∧ x.id = loc.id ∧
        x.distanceToRouteKm = pyRound 3 d ∧
        x.relevanceScore =
          pyRound 4 (scoreLocation d radiusKm loc.semanticCategory
            semanticCategories)) ∧
    List.Pairwise LocKeyLE
      (semanticLocationsForRoute d2r stops candidateLocations radiusKm
        semanticCategories topK) ∧
    (semanticLocationsForRoute d2r stops candidateLocations radiusKm
      semanticCategories topK).length ≤ topK := by
  unfold semanticLocationsForRoute
  split
  · exact ⟨fun x hx => absurd hx (List.not_mem_nil x), List.Pairwise.nil,
      by simp⟩
  · refine ⟨?_, ?_, ?_⟩
    · intro x hx
      have hx2 := List.mem_mergeSort.mp (List.take_subset _ _ hx)
      obtain ⟨loc, hloc, hkept⟩ := List.mem_filterMap.mp hx2
      refine ⟨loc, hloc, ?_⟩
      unfold keptLoc at hkept
      rcases hd : d2r loc with _ | ⟨d, seg⟩
      · rw [hd] at hkept; exact absurd hkept (by simp)
      · rw [hd] at hkept
        simp only [Option.some_bind] at hkept
        by_cases hlt : radiusKm < d
        · rw [if_pos hlt] at hkept; exact absurd hkept (by simp)
        · rw [if_neg hlt] at hkept
          simp only [Option.some.injEq] at hkept
          subst hkept
          exact ⟨d, seg, rfl, le_of_not_lt hlt, rfl, rfl, rfl⟩
    · have hs := @List.sorted_mergeSort ScoredLoc
        (fun a b : ScoredLoc => decide (LocKeyLE a b))
        (fun a b c h1 h2 => by
          simp only [decide_eq_true_eq] at *
          exact locKeyLE_trans a b c h1 h2)
        (fun a b => by
          simp only [Bool.or_eq_true, decide_eq_true_eq]
          exact locKeyLE_total a b)
        (candidateLocations.filterMap (keptLoc d2r radiusKm semanticCategories))
      have hp : List.Pairwise LocKeyLE
          ((candidateLocations.filterMap
            (keptLoc d2r radiusKm semanticCategories)).mergeSort
              (fun a b => decide (LocKeyLE a b))) := by
        refine hs.imp ?_
        intro a b h
        simpa using h
      exact hp.sublist (List.take_sublist _ _)
    · exact List.length_take_le _ _

/-! ## Admin vectors (`semantic_layer._append_unique_in_order`,
`_build_segment_admin_vectors`, and the route-level fold in
`build_semantic_layer`) -/

/-- Python `x or ""` as used in `str(value or "")`. -/
def pyOrEmpty (v : JVal) : JVal :=
  if pyTruthy v then v else .vstr ""

/-- `str(value or "").strip()`. -/
def pyCoerceStrip (v : JVal) : String :=
  pyStrip (pyStr (pyOrEmpty v))

/-- A Python `None`-or-string value. -/
def optJ : Option String → JVal
  | none => .vnull
  | some s => .vstr s

/-- `_append_unique_in_order(items, value)` (returns the updated list). -/
def appendUniqueInOrder (items : List String) (value : JVal) : List String :=
  let text := pyCoerceStrip value
  if text = "" then items
  else
    match items.getLast? with
    | some last => if pyLower last = pyLower text then items else items ++ [text]
    | none => items ++ [text]

/-- The ordered candidate keys for a province name
(`PROVINCE_ADDRESS_PRIORITY`). -/
def provinceAddressPriority : List String :=
  ["province", "state", "state_district", "region", "county"]

/-- The shared loop shape of `_extract_municipality_from_reverse_payload` and
`_extract_province_from_address`: first key whose value coerces to a
non-empty stripped string. -/
def pickFirstNonEmpty (address : JDict) : List String → Option (String × String)
  | [] => none
  | k :: ks =>
      let v := pyCoerceStrip (dictGetD address k .vnull)
      if v = "" then pickFirstNonEmpty address ks else some (v, k)

/-- `_extract_province_from_address(address)`. -/
def extractProvinceFromAddress (address : JVal) : Option String × Option String :=
  match address with
  | .vdict entries =>
      match pickFirstNonEmpty entries provinceAddressPriority with
      | some (v, k) => (some v, some k)
      | none => (none, none)
  | _ => (none, none)

/-- Python `str.upper()` on our character model. -/
def pyUpper (s : String) : String :=
  String.mk (s.data.map Char.toUpper)

/-- `_extract_country_code_from_address(address)`. -/
def extractCountryCodeFromAddress (address : JVal) : Option String :=
  match address with
  | .vdict entries =>
      let v := pyUpper (pyCoerceStrip (dictGetD entries "country_code" .vnull))
      if v = "" then none else some v
  | _ => none

/-- One iteration of the `for row in municipality_trace` loop of
`_build_segment_admin_vectors`.  `capitalLookup` abstracts
`_resolve_province_capital` (an HTTP lookup memoised in a cache; it is a
function of the province name and country code within one request). -/
def segVecStep (capitalLookup : String → Option String → JVal)
    (capitalEnabled : Bool) (book : JDict)
    (acc : List String × List String × List String) (row : JVal) :
    List String × List String × List String :=
  match row with
  | .vdict rowEntries =>
      let municipality := asDict (dictGet rowEntries "municipality")
      let mv2 := appendUniqueInOrder acc.1 (dictGetD municipality "name" .vnull)
      let addressRef := pyCoerceStrip (dictGetD municipality "address_ref" .vnull)
      if addressRef = "" then (mv2, acc.2.1, acc.2.2)
      else
        match dictGetD book addressRef (.vdict []) with
        | .vdict resolved =>
            let address := dictGetD resolved "address" (.vdict [])
            match (extractProvinceFromAddress address).1 with
            | some provinceName =>
                let pv2 := appendUniqueInOrder acc.2.1 (.vstr provinceName)
                if capitalEnabled then
                  match capitalLookup provinceName
                      (extractCountryCodeFromAddress address) with
                  | .vdict capEntries =>
                      (mv2, pv2, appendUniqueInOrder acc.2.2
                        (dictGetD capEntries "capital_name" .vnull))
                  | _ => (mv2, pv2, acc.2.2)
                else (mv2, pv2, acc.2.2)
            | none =>
                (mv2, appendUniqueInOrder acc.2.1 .vnull, acc.2.2)
        | _ => (mv2, acc.2.1, acc.2.2)
  | _ => acc

/-- `_build_segment_admin_vectors(municipality_trace, municipality_book, …)`:
the three per-segment admin vectors. -/
def buildSegmentAdminVectors (capitalLookup : String → Option String → JVal)
    (capitalEnabled : Bool) (municipalityTrace : List JVal) (book : JDict) :
    List String × List String × List String :=
  municipalityTrace.foldl (segVecStep capitalLookup capitalEnabled book)
    ([], [], [])

/-- The route-level accumulation in `build_semantic_layer`
(`for name in segment_vector: _append_unique_in_order(route_vector, name)`). -/
def extendRouteVector (routeVector : List String) (segmentVector : List String) :
    List String :=
  segmentVector.foldl (fun acc name => appendUniqueInOrder acc (.vstr name))
    routeVector

/-- A route-level admin vector: the fold of `extendRouteVector` over the
per-segment vectors, in segment order. -/
def routeAdminVector (segmentVectors : List (List String)) : List String :=
  segmentVectors.foldl extendRouteVector []

/-- Adjacent deduplication of a name sequence, case-insensitive
(`casefold`): the direct-recursion form used to state the amended C4. -/
def adjDedupCF : List String → List String
  | [] => []
  | [x] => [x]
  | x :: y :: rest =>
      if pyLower x = pyLower y then adjDedupCF (x :: rest)
      else x :: adjDedupCF (y :: rest)

/-- Adjacent deduplication with exact string equality: the rule as the claim
words it ("concatenation … with adjacent duplicates suppressed"). -/
def specConcatDedup : List String → List String
  | [] => []
  | [x] => [x]
  | x :: y :: rest =>
      if x = y then specConcatDedup (x :: rest)
      else x :: specConcatDedup (y :: rest)

/-- A well-formed admin vector: no two adjacent case-insensitively equal
entries, and every entry is a non-empty stripped string. -/
def VecGood (items : List String) : Prop :=
  List.Chain' (fun a b => pyLower a ≠ pyLower b) items ∧
  ∀ s ∈ items, pyStrip s = s ∧ s ≠ ""

theorem dropWhile_idem (p : Char → Bool) (l : List Char) :
    (l.dropWhile p).dropWhile p = l.dropWhile p := by
  induction l with
  | nil => rfl
  | cons c cs ih =>
    by_cases h : p c
    · simp [List.dropWhile_cons, h, ih]
    · simp [List.dropWhile_cons, h]

theorem head?_dropWhile_false (p : Char → Bool) (m : List Char) :
    ∀ c ∈ (m.dropWhile p).head?, p c = false := by
  induction m with
  | nil => intro c hc; simp at hc
  | cons a t ih =>
    intro c hc
    by_cases h : p a
    · rw [List.dropWhile_cons_of_pos h] at hc
      exact ih c hc
    · rw [List.dropWhile_cons_of_neg h] at hc
      simp only [List.head?_cons, Option.mem_def, Option.some.injEq] at hc
      subst hc
      simpa using h

theorem getLast?_dropWhile (p : Char → Bool) (m : List Char)
    (h : m.dropWhile p ≠ []) : (m.dropWhile p).getLast? = m.getLast? := by
  induction m with
  | nil => simp at h
  | cons a t ih =>
    by_cases hp : p a
    · rw [List.dropWhile_cons_of_pos hp] at h ⊢
      cases t with
      | nil => simp at h
      | cons b t2 => rw [ih h, List.getLast?_cons_cons]
    · rw [List.dropWhile_cons_of_neg hp]

theorem stripL_fixed (l : List Char)
    (h1 : ∀ c ∈ l.head?, Char.isWhitespace c = false)
    (h2 : ∀ c ∈ l.getLast?, Char.isWhitespace c = false) : stripL l = l := by
  unfold stripL
  have e1 : l.dropWhile Char.isWhitespace = l := by
    cases l with
    | nil => rfl
    | cons a t =>
      exact List.dropWhile_cons_of_neg (by simpa using h1 a (by simp))
  rw [e1]
  have e2 : l.reverse.dropWhile Char.isWhitespace = l.reverse := by
    rcases hrev : l.reverse with _ | ⟨a, t⟩
    · rfl
    · have ha : a ∈ l.getLast? := by
        rw [← List.head?_reverse, hrev]; simp
      exact List.dropWhile_cons_of_neg (by simpa using h2 a ha)
  rw [e2, List.reverse_reverse]

theorem stripL_noWs (l : List Char) :
    (∀ c ∈ (stripL l).head?, Char.isWhitespace c = false) ∧
    (∀ c ∈ (stripL l).getLast?, Char.isWhitespace c = false) := by
  unfold stripL
  constructor
  · intro c hc
    rw [List.head?_reverse] at hc
    by_cases hR : ((l.dropWhile Char.isWhitespace).reverse.dropWhile
        Char.isWhitespace) = []
    · rw [hR] at hc; simp at hc
    · rw [getLast?_dropWhile _ _ hR, List.getLast?_reverse] at hc
      exact head?_dropWhile_false Char.isWhitespace l c hc
  · intro c hc
    rw [List.getLast?_reverse] at hc
    exact head?_dropWhile_false Char.isWhitespace _ c hc

theorem stripL_idem (l : List Char) : stripL (stripL l) = stripL l :=
  stripL_fixed (stripL l) (stripL_noWs l).1 (stripL_noWs l).2

theorem pyStrip_idem (s : String) : pyStrip (pyStrip s) = pyStrip s := by
  unfold pyStrip
  rw [show (String.mk (stripL s.data)).data = stripL s.data from rfl,
    stripL_idem]

theorem appendUniqueInOrder_good (items : List String) (v : JVal)
    (h : VecGood items) : VecGood (appendUniqueInOrder items v) := by
  unfold appendUniqueInOrder
  by_cases he : pyCoerceStrip v = ""
  · rw [if_pos he]
    exact h
  · rw [if_neg he]
    have htextGood : pyStrip (pyCoerceStrip v) = pyCoerceStrip v ∧
        pyCoerceStrip v ≠ "" := ⟨pyStrip_idem _, he⟩
    rcases hlast : items.getLast? with _ | last
    · show VecGood (items ++ [pyCoerceStrip v])
      have : items = [] := by
        cases items with
        | nil => rfl
        | cons a t => simp [List.getLast?_eq_getLast] at hlast
      subst this
      refine ⟨by simp, ?_⟩
      intro s hs
      simp only [List.nil_append, List.mem_singleton] at hs
      subst hs
      exact htextGood
    · by_cases hcf : pyLower last = pyLower (pyCoerceStrip v)
      · show VecGood (if pyLower last = pyLower (pyCoerceStrip v) then items
          else items ++ [pyCoerceStrip v])
        rw [if_pos hcf]
        exact h
      · show VecGood (if pyLower last = pyLower (pyCoerceStrip v) then items
          else items ++ [pyCoerceStrip v])
        rw [if_neg hcf]
        constructor
        · rw [List.chain'_append]
          refine ⟨h.1, by simp, ?_⟩
          intro x hx y hy
          simp only [List.head?_cons, Option.mem_def, Option.some.injEq] at hy
          subst hy
          rw [hlast] at hx
          simp only [Option.mem_def, Option.some.injEq] at hx
          subst hx
          exact hcf
        · intro s hs
          rcases List.mem_append.mp hs with hs | hs
          · exact h.2 s hs
          · simp only [List.mem_singleton] at hs
            subst hs
            exact htextGood

theorem vecGood_nil : VecGood [] := ⟨List.chain'_nil, by simp⟩

theorem extendRouteVector_good (routeVector segmentVector : List String)
    (h : VecGood routeVector) :
    VecGood (extendRouteVector routeVector segmentVector) := by
  unfold extendRouteVector
  induction segmentVector generalizing routeVector with
  | nil => exact h
  | cons n rest ih => exact ih _ (appendUniqueInOrder_good _ _ h)

theorem routeAdminVector_good (segmentVectors : List (List String)) :
    VecGood (routeAdminVector segmentVectors) := by
  unfold routeAdminVector
  suffices h : ∀ rv, VecGood rv →
      VecGood (segmentVectors.foldl extendRouteVector rv) from h [] vecGood_nil
  induction segmentVectors with
  | nil => intro rv h; exact h
  | cons v rest ih => intro rv h; exact ih _ (extendRouteVector_good _ _ h)

theorem segVecStep_good (capitalLookup : String → Option String → JVal)
    (capitalEnabled : Bool) (book : JDict)
    (acc : List String × List String × List String) (row : JVal)
    (h1 : VecGood acc.1) (h2 : VecGood acc.2.1) (h3 : VecGood acc.2.2) :
    VecGood (segVecStep capitalLookup capitalEnabled book acc row).1 ∧
    VecGood (segVecStep capitalLookup capitalEnabled book acc row).2.1 ∧
    VecGood (segVecStep capitalLookup capitalEnabled book acc row).2.2 := by
  cases row with
  | vdict rowEntries =>
    simp only [segVecStep]
    split
    · exact ⟨appendUniqueInOrder_good _ _ h1, h2, h3⟩
    · split
      · split
        · split
          · split
            · exact ⟨appendUniqueInOrder_good _ _ h1,
                appendUniqueInOrder_good _ _ h2,
                appendUniqueInOrder_good _ _ h3⟩
            · exact ⟨appendUniqueInOrder_good _ _ h1,
                appendUniqueInOrder_good _ _ h2, h3⟩
          · exact ⟨appendUniqueInOrder_good _ _ h1,
              appendUniqueInOrder_good _ _ h2, h3⟩
        · exact ⟨appendUniqueInOrder_good _ _ h1,
            appendUniqueInOrder_good _ _ h2, h3⟩
      · exact ⟨appendUniqueInOrder_good _ _ h1, h2, h3⟩
  | vnull => exact ⟨h1, h2, h3⟩
  | vbool b => exact ⟨h1, h2, h3⟩
  | vint n => exact ⟨h1, h2, h3⟩
  | vnum q => exact ⟨h1, h2, h3⟩
  | vstr s => exact ⟨h1, h2, h3⟩
  | vlist xs => exact ⟨h1, h2, h3⟩

theorem pyStr_vstr (s : String) : pyStr (.vstr s) = s := by
  simp [pyStr]

theorem buildSegmentAdminVectors_good
    (capitalLookup : String → Option String → JVal) (capitalEnabled : Bool)
    (municipalityTrace : List JVal) (book : JDict) :
    VecGood (buildSegmentAdminVectors capitalLookup capitalEnabled
      municipalityTrace book).1 ∧
    VecGood (buildSegmentAdminVectors capitalLookup capitalEnabled
      municipalityTrace book).2.1 ∧
    VecGood (buildSegmentAdminVectors capitalLookup capitalEnabled
      municipalityTrace book).2.2 := by
  unfold buildSegmentAdminVectors
  suffices h : ∀ acc : List String × List String × List String,
      VecGood acc.1 → VecGood acc.2.1 → VecGood acc.2.2 →
      VecGood (municipalityTrace.foldl
        (segVecStep capitalLookup capitalEnabled book) acc).1 ∧
      VecGood (municipalityTrace.foldl
        (segVecStep capitalLookup capitalEnabled book) acc).2.1 ∧
      VecGood (municipalityTrace.foldl
        (segVecStep capitalLookup capitalEnabled book) acc).2.2 from
    h ([], [], []) vecGood_nil vecGood_nil vecGood_nil
  induction municipalityTrace with
  | nil => intro acc h1 h2 h3; exact ⟨h1, h2, h3⟩
  | cons row rest ih =>
    intro acc h1 h2 h3
    obtain ⟨g1, g2, g3⟩ :=
      segVecStep_good capitalLookup capitalEnabled book acc row h1 h2 h3
    exact ih _ g1 g2 g3

theorem appendUniqueInOrder_vstr (acc : List String) (last n : String)
    (hn : pyStrip n = n ∧ n ≠ "") :
    appendUniqueInOrder (acc ++ [last]) (.vstr n) =
      if pyLower last = pyLower n then acc ++ [last]
      else (acc ++ [last]) ++ [n] := by
  unfold appendUniqueInOrder pyCoerceStrip pyOrEmpty
  have ht : pyTruthy (.vstr n) = true := by
    unfold pyTruthy
    simpa using hn.2
  rw [if_pos ht]
  show (if pyStrip (pyStr (.vstr n)) = "" then acc ++ [last]
    else match (acc ++ [last]).getLast? with
      | some l2 => if pyLower l2 = pyLower (pyStrip (pyStr (.vstr n)))
          then acc ++ [last] else (acc ++ [last]) ++ [pyStrip (pyStr (.vstr n))]
      | none => (acc ++ [last]) ++ [pyStrip (pyStr (.vstr n))]) = _
  rw [pyStr_vstr, hn.1, if_neg hn.2, List.getLast?_concat]

theorem extendFold_eq (names : List String) (acc : List String) (last : String)
    (hn : ∀ n ∈ names, pyStrip n = n ∧ n ≠ "") :
    names.foldl (fun a name => appendUniqueInOrder a (.vstr name))
      (acc ++ [last]) = acc ++ adjDedupCF (last :: names) := by
  induction names generalizing acc last with
  | nil => simp [adjDedupCF]
  | cons n rest ih =>
    rw [List.foldl_cons, appendUniqueInOrder_vstr acc last n (hn n (by simp))]
    by_cases hcf : pyLower last = pyLower n
    · rw [if_pos hcf, ih acc last (fun x hx => hn x (by simp [hx]))]
      rw [show adjDedupCF (last :: n :: rest) = adjDedupCF (last :: rest) from
        by rw [adjDedupCF, if_pos hcf]]
    · rw [if_neg hcf, ih (acc ++ [last]) n (fun x hx => hn x (by simp [hx]))]
      rw [show adjDedupCF (last :: n :: rest) = last :: adjDedupCF (n :: rest)
        from by rw [adjDedupCF, if_neg hcf]]
      simp [List.append_assoc]

theorem routeAdminVector_eq_adjDedupCF (segmentVectors : List (List String))
    (hgood : ∀ v ∈ segmentVectors, ∀ s ∈ v, pyStrip s = s ∧ s ≠ "") :
    routeAdminVector segmentVectors = adjDedupCF segmentVectors.flatten := by
  unfold routeAdminVector extendRouteVector
  rw [← List.foldl_flatten]
  have hjoin : ∀ n ∈ segmentVectors.flatten, pyStrip n = n ∧ n ≠ "" := by
    intro n hnj
    obtain ⟨v, hv, hn⟩ := List.mem_flatten.mp hnj
    exact hgood v hv n hn
  rcases hj : segmentVectors.flatten with _ | ⟨n, rest⟩
  · simp [adjDedupCF]
  · rw [List.foldl_cons]
    have h1 : appendUniqueInOrder [] (.vstr n) = [] ++ [n] := by
      have := appendUniqueInOrder_vstr [] n n
        (hjoin n (by rw [hj]; simp))
      unfold appendUniqueInOrder pyCoerceStrip pyOrEmpty
      have hnn := hjoin n (by rw [hj]; simp)
      have ht : pyTruthy (.vstr n) = true := by
        unfold pyTruthy
        simpa using hnn.2
      rw [if_pos ht]
      show (if pyStrip (pyStr (.vstr n)) = "" then ([] : List String)
        else match ([] : List String).getLast? with
          | some l2 => if pyLower l2 = pyLower (pyStrip (pyStr (.vstr n)))
              then [] else [] ++ [pyStrip (pyStr (.vstr n))]
          | none => [] ++ [pyStrip (pyStr (.vstr n))]) = _
      rw [pyStr_vstr, hnn.1, if_neg hnn.2]
      rfl
    rw [h1, show ([] : List String) ++ [n] = [] ++ [n] from rfl,
      extendFold_eq rest [] n (fun x hx => hjoin x (by rw [hj]; simp [hx]))]
    simp

set_option maxRecDepth 4000 in
set_option maxHeartbeats 1000000 in
/-- Claim C4, as stated, is false on the code: route-level vectors suppress
adjacent duplicates case-insensitively (`casefold`), not by string equality.
With consecutive segment vectors `["Madrid"]` and `["MADRID"]` the code emits
`["Madrid"]`, while the order-preserving concatenation with (exact) adjacent
duplicates suppressed is `["Madrid", "MADRID"]` (shown here with the
one-letter names "A" and "a"). -/
theorem claim4_counterexample :
    routeAdminVector [["A"], ["a"]] = ["A"] ∧
    specConcatDedup (List.flatten [["A"], ["a"]]) = ["A", "a"] ∧
    (["A"] : List String) ≠ ["A", "a"] := by
  refine ⟨?_, ?_, by simp⟩
  · with_unfolding_all decide
  · with_unfolding_all decide

/-- Claim C4 (amended): every admin vector emitted in the semantic layer (the
three segment-level vectors built by `_build_segment_admin_vectors` and the
three route-level vectors) contains no two adjacent case-insensitively equal
strings (`casefold` comparison — in particular no two adjacent equal
strings); and each route-level vector is the order-preserving concatenation
of its segments' vectors with adjacent duplicates suppressed
*case-insensitively* (`casefold`), given that segment vector entries are
non-empty stripped strings (which `_build_segment_admin_vectors`
guarantees). -/
theorem claim4_admin_vectors
    (capitalLookup : String → Option String → JVal) (capitalEnabled : Bool)
    (municipalityTrace : List JVal) (book : JDict)
    (segmentVectors : List (List String))
    (hgood : ∀ v ∈ segmentVectors, ∀ s ∈ v, pyStrip s = s ∧ s ≠ "") :
    (List.Chain' (fun a b => pyLower a ≠ pyLower b)
        (buildSegmentAdminVectors capitalLookup capitalEnabled
          municipalityTrace book).1 ∧
      List.Chain' (fun a b => pyLower a ≠ pyLower b)
        (buildSegmentAdminVectors capitalLookup capitalEnabled
          municipalityTrace book).2.1 ∧
      List.Chain' (fun a b => pyLower a ≠ pyLower b)
        (buildSegmentAdminVectors capitalLookup capitalEnabled
          municipalityTrace book).2.2) ∧
    (∀ s ∈ (buildSegmentAdminVectors capitalLookup capitalEnabled
        municipalityTrace book).1, pyStrip s = s ∧ s ≠ "") ∧
    List.Chain' (fun a b => pyLower a ≠ pyLower b)
      (routeAdminVector segmentVectors) ∧
    routeAdminVector segmentVectors = adjDedupCF segmentVectors.flatten := by
  obtain ⟨g1, g2, g3⟩ := buildSegmentAdminVectors_good capitalLookup
    capitalEnabled municipalityTrace book
  exact ⟨⟨g1.1, g2.1, g3.1⟩, g1.2,
    (routeAdminVector_good segmentVectors).1,
    routeAdminVector_eq_adjDedupCF segmentVectors hgood⟩

/-- Concrete instance of `claim4_admin_vectors`. -/
theorem claim4_witness :
    (List.Chain' (fun a b => pyLower a ≠ pyLower b)
        (buildSegmentAdminVectors (fun _ _ => .vnull) false [] []).1 ∧
      List.Chain' (fun a b => pyLower a ≠ pyLower b)
        (buildSegmentAdminVectors (fun _ _ => .vnull) false [] []).2.1 ∧
      List.Chain' (fun a b => pyLower a ≠ pyLower b)
        (buildSegmentAdminVectors (fun _ _ => .vnull) false [] []).2.2) ∧
    (∀ s ∈ (buildSegmentAdminVectors (fun _ _ => .vnull) false [] []).1,
      pyStrip s = s ∧ s ≠ "") ∧
    List.Chain' (fun a b => pyLower a ≠ pyLower b)
      (routeAdminVector [["Aa"], ["Bb"]]) ∧
    routeAdminVector [["Aa"], ["Bb"]] = adjDedupCF [["Aa"], ["Bb"]].flatten :=
  claim4_admin_vectors (fun _ _ => .vnull) false [] [] [["Aa"], ["Bb"]]
    (by with_unfolding_all decide)

/-! ## Weather severity (`here_emulator._weather_severity_score`,
`here_platform._weather_severity_score`, and the worst-slot selection in
`HerePlatformEmulator.fetch_weather`) -/

/-- Python `any(token in normalized for token in tokens)`. -/
def hasAnyToken (normalized : String) (tokens : List String) : Bool :=
  tokens.any (fun t => strHas normalized t)

/-- The `precipitation_mm` contribution (`score += max(0.0,
precipitation_mm) * 1.8` when not `None`). -/
def sevPrecip : Option ℚ → ℚ
  | some p => max 0 p * (18/10)
  | none => 0

/-- The `precipitation_probability` contribution: `p /= 100` when `p > 1`,
clamp to `[0, 1]`, times 2.5. -/
def sevProb : Option ℚ → ℚ
  | some p0 => max 0 (min 1 (if 1 < p0 then p0 / 100 else p0)) * (5/2)
  | none => 0

/-- The wind contribution (`max(0.0, wind_kph - 25.0) / 8.0`). -/
def sevWind : Option ℚ → ℚ
  | some w => max 0 (w - 25) / 8
  | none => 0

/-- The condition bonus chain; `tokens8` is the 8-point token tuple, which
is the only difference between `here_emulator._weather_severity_score`
(thunder/hail/storm) and `here_platform._weather_severity_score`
(thunder/hail/tornado/storm). -/
def severityBonus (tokens8 : List String) (normalized : String) : ℚ :=
  if hasAnyToken normalized tokens8 then 8
  else if hasAnyToken normalized ["freezing", "blizzard", "sleet", "snow"]
    then 5
  else if strHas normalized "heavy rain" then 5
  else if strHas normalized "rain" then 3
  else if strHas normalized "fog" then 2
  else 0

/-- `_weather_severity_score(condition, precipitation_mm, wind_kph,
precipitation_probability)`, shared body of the two sources. -/
def severityScoreCore (tokens8 : List String) (condition : Option String)
    (precipitationMm windKph precipitationProbability : Option ℚ) : ℚ :=
  pyRound 3 (sevPrecip precipitationMm + sevProb precipitationProbability +
    sevWind windKph + severityBonus tokens8 (pyLower (condition.getD "")))

/-- `here_emulator._weather_severity_score`. -/
def weatherSeverityScore : Option String → Option ℚ → Option ℚ → Option ℚ → ℚ :=
  severityScoreCore ["thunder", "hail", "storm"]

/-- `here_platform._weather_severity_score`. -/
def weatherSeverityScorePlatform :
    Option String → Option ℚ → Option ℚ → Option ℚ → ℚ :=
  severityScoreCore ["thunder", "hail", "tornado", "storm"]

/-- The worst-slot computation of `HerePlatformEmulator.fetch_weather`
(lines 244-256), applied to the severity scores of the forecast entries:
`worst = max(scores)`, keep the slots within 0.05 of it, cap at 6, and emit
`worst_case_score = round(worst, 3)`.  `none` models the `max()` exception on
an empty slot list (the window always has ≥ 1 slot). -/
def worstSlotsOf (scores : List ℚ) : Option (ℚ × List ℚ) :=
  match scores.max? with
  | none => none
  | some worst =>
      some (pyRound 3 worst,
        (scores.filter (fun s => decide (|s - worst| ≤ 1/20))).take 6)

/-- The condition-bonus table as the *amended* claim words it ("5 for
freezing/blizzard/sleet/snow or heavy rain" is one clause). -/
def amendedBonus (tokens8 : List String) (normalized : String) : ℚ :=
  if hasAnyToken normalized tokens8 then 8
  else if hasAnyToken normalized ["freezing", "blizzard", "sleet", "snow"] ||
    strHas normalized "heavy rain" then 5
  else if strHas normalized "rain" then 3
  else if strHas normalized "fog" then 2
  else 0

/-- The severity formula as the *amended* claim words it. -/
def amendedSeverityFormula (tokens8 : List String) (condition : Option String)
    (precipitationMm windKph precipitationProbability : Option ℚ) : ℚ :=
  (18/10) * max 0 (precipitationMm.getD 0) +
    (5/2) * max 0 (min 1
      (if 1 < precipitationProbability.getD 0
        then precipitationProbability.getD 0 / 100
        else precipitationProbability.getD 0)) +
    max 0 (windKph.getD 0 - 25) / 8 +
    amendedBonus tokens8 (pyLower (condition.getD ""))

/-- The severity formula exactly as claim C6 words it: no "freezing" token,
no percentage normalisation of the probability, no final rounding. -/
def specSeverityScore (condition : Option String)
    (precipitationMm windKph precipitationProbability : Option ℚ) : ℚ :=
  let normalized := pyLower (condition.getD "")
  let bonus : ℚ :=
    if hasAnyToken normalized ["thunder", "hail", "storm"] then 8
    else if hasAnyToken normalized ["snow", "blizzard", "sleet"] ||
      strHas normalized "heavy rain" then 5
    else if strHas normalized "rain" then 3
    else if strHas normalized "fog" then 2
    else 0
  (18/10) * precipitationMm.getD 0 +
    (5/2) * max 0 (min 1 (precipitationProbability.getD 0)) +
    max 0 (windKph.getD 0 - 25) / 8 + bonus

theorem sevPrecip_eq (p : Option ℚ) :
    sevPrecip p = (18/10) * max 0 (p.getD 0) := by
  cases p with
  | none => simp [sevPrecip]
  | some v => unfold sevPrecip; dsimp only [Option.getD]; ring

theorem sevProb_eq (pr : Option ℚ) :
    sevProb pr = (5/2) * max 0 (min 1
      (if 1 < pr.getD 0 then pr.getD 0 / 100 else pr.getD 0)) := by
  cases pr with
  | none =>
    unfold sevProb
    dsimp only [Option.getD]
    rw [if_neg (by norm_num : ¬ (1:ℚ) < 0),
      min_eq_right (by norm_num : (0:ℚ) ≤ 1), max_self]
    ring
  | some v => unfold sevProb; dsimp only [Option.getD]; ring

theorem sevWind_eq (w : Option ℚ) :
    sevWind w = max 0 (w.getD 0 - 25) / 8 := by
  cases w with
  | none =>
    unfold sevWind
    dsimp only [Option.getD]
    rw [max_eq_left (by norm_num : (0:ℚ) - 25 ≤ 0)]
    norm_num
  | some v => rfl

theorem severityBonus_eq (tokens8 : List String) (n : String) :
    severityBonus tokens8 n = amendedBonus tokens8 n := by
  unfold severityBonus amendedBonus
  cases h1 : hasAnyToken n tokens8 <;>
    cases h2 : hasAnyToken n ["freezing", "blizzard", "sleet", "snow"] <;>
    cases h3 : strHas n "heavy rain" <;> simp

theorem severityCore_eq (tokens8 : List String) (condition : Option String)
    (p w pr : Option ℚ) :
    severityScoreCore tokens8 condition p w pr =
      pyRound 3 (amendedSeverityFormula tokens8 condition p w pr) := by
  unfold severityScoreCore amendedSeverityFormula
  rw [sevPrecip_eq, sevProb_eq, sevWind_eq, severityBonus_eq]

set_option maxRecDepth 4000 in
set_option maxHeartbeats 1000000 in
/-- Claim C6, as stated, is false on the code: both severity scorers give a
condition containing "freezing" (e.g. "freezing drizzle") the 5-point bonus,
while the claim's table ("8 for thunder/hail/storm, 5 for
snow/blizzard/sleet/heavy rain, 3 rain, 2 fog, else 0") gives it 0. -/
theorem claim6_counterexample :
    weatherSeverityScore (some "freezing drizzle") none none none = 5 ∧
    specSeverityScore (some "freezing drizzle") none none none = 0 ∧
    (5:ℚ) ≠ 0 := by
  refine ⟨?_, ?_, by norm_num⟩
  · with_unfolding_all decide
  · with_unfolding_all decide

/-- Claim C6 (amended): each severity scorer returns the 3-decimal rounding
of `1.8·max(0, precipitation_mm) + 2.5·clamp(p27, 0, 1) +
max(0, wind_kph − 25)/8 + condition_bonus`, where `p27` is the precipitation
probability divided by 100 when it exceeds 1, missing fields contribute 0,
and `condition_bonus` is 8 for thunder/hail/storm (the live parser also:
tornado), 5 for freezing/blizzard/sleet/snow or heavy rain, 3 for rain, 2
for fog, else 0; and the forecast window's `worst_slots` are exactly the
slots whose score is within ±0.05 of the maximum score, in order, capped at
6 entries (`worst_case_score` is the rounded maximum). -/
theorem claim6_weather_severity (condition : Option String)
    (precipitationMm windKph precipitationProbability : Option ℚ)
    (scores : List ℚ) (worstCase : ℚ) (slots : List ℚ)
    (hws : worstSlotsOf scores = some (worstCase, slots)) :
    weatherSeverityScore condition precipitationMm windKph
        precipitationProbability =
      pyRound 3 (amendedSeverityFormula ["thunder", "hail", "storm"] condition
        precipitationMm windKph precipitationProbability) ∧
    weatherSeverityScorePlatform condition precipitationMm windKph
        precipitationProbability =
      pyRound 3 (amendedSeverityFormula ["thunder", "hail", "tornado", "storm"]
        condition precipitationMm windKph precipitationProbability) ∧
    (∃ m, scores.max? = some m ∧ worstCase = pyRound 3 m ∧
      (∀ s ∈ slots, |s - m| ≤ 1/20) ∧ slots.length ≤ 6 ∧
      ((scores.filter (fun s => decide (|s - m| ≤ 1/20))).length ≤ 6 →
        slots = scores.filter (fun s => decide (|s - m| ≤ 1/20)))) := by
  refine ⟨severityCore_eq _ _ _ _ _, severityCore_eq _ _ _ _ _, ?_⟩
  unfold worstSlotsOf at hws
  rcases hmax : scores.max? with _ | m
  · rw [hmax] at hws; exact absurd hws (by simp)
  · rw [hmax] at hws
    simp only [Option.some.injEq, Prod.mk.injEq] at hws
    refine ⟨m, rfl, hws.1.symm, ?_, ?_, ?_⟩
    · intro s hs
      rw [← hws.2] at hs
      have h1 := List.mem_of_mem_take hs
      have h2 := List.of_mem_filter h1
      simpa using h2
    · rw [← hws.2]
      exact List.length_take_le _ _
    · intro hlen
      rw [← hws.2]
      exact List.take_of_length_le hlen

/-- Concrete instance of `claim6_weather_severity` (scores `[1, 2]`). -/
theorem claim6_witness :
    weatherSeverityScore (some "rain") (some 2) (some 30) (some (1/2)) =
      pyRound 3 (amendedSeverityFormula ["thunder", "hail", "storm"]
        (some "rain") (some 2) (some 30) (some (1/2))) ∧
    weatherSeverityScorePlatform (some "rain") (some 2) (some 30)
        (some (1/2)) =
      pyRound 3 (amendedSeverityFormula ["thunder", "hail", "tornado", "storm"]
        (some "rain") (some 2) (some 30) (some (1/2))) ∧
    (∃ m, ([1, 2] : List ℚ).max? = some m ∧ (2:ℚ) = pyRound 3 m ∧
      (∀ s ∈ ([2] : List ℚ), |s - m| ≤ 1/20) ∧ ([2] : List ℚ).length ≤ 6 ∧
      ((([1, 2] : List ℚ).filter (fun s => decide (|s - m| ≤ 1/20))).length ≤ 6 →
        ([2] : List ℚ) =
          ([1, 2] : List ℚ).filter (fun s => decide (|s - m| ≤ 1/20)))) :=
  claim6_weather_severity (some "rain") (some 2) (some 30) (some (1/2))
    [1, 2] 2 [2] (by with_unfolding_all decide)

/-! ## Polyline resampling (`semantic_layer._sample_polyline_points`) -/

/-- One emitted sample point. -/
structure Sample where
  sampleIndex : ℕ
  position : String
  distanceFromStartKm : ℚ
  lat : ℚ
  lng : ℚ

/-- The cumulative-arc-length loop body: running totals after the entry
point `prev`, starting from `acc`. -/
def cumAux (hav : ℚ × ℚ → ℚ × ℚ → ℚ) : ℚ × ℚ → List (ℚ × ℚ) → ℚ → List ℚ
  | _, [], _ => []
  | prev, c :: rest, acc => (acc + hav prev c) :: cumAux hav c rest (acc + hav prev c)

/-- `cumulative`: arc lengths along successive edges, starting with `0.0`. -/
def cumulativeOf (hav : ℚ × ℚ → ℚ × ℚ → ℚ) : List (ℚ × ℚ) → List ℚ
  | [] => [0]
  | p :: rest => 0 :: cumAux hav p rest 0

/-- `_interpolate_point(start, end, fraction)`: linear interpolation with the
fraction clamped to `[0, 1]`. -/
def interpolatePoint (a b : ℚ × ℚ) (fraction : ℚ) : ℚ × ℚ :=
  let clamped := max 0 (min 1 fraction)
  (a.1 + (b.1 - a.1) * clamped, a.2 + (b.2 - a.2) * clamped)

/-- The `while` walk over the cumulative table, with explicit fuel (the fuel
passed by `walkEdge` always suffices, so this equals the Python loop). -/
def walkAux (cum : List ℚ) (target : ℚ) : ℕ → ℕ → ℕ
  | 0, e => e
  | fuel + 1, e =>
      if e < cum.length - 2 ∧ cum.getD (e + 1) 0 < target then
        walkAux cum target fuel (e + 1)
      else e

/-- `while edge_idx < len(cumulative) - 2 and cumulative[edge_idx+1] <
target_km: edge_idx += 1`. -/
def walkEdge (cum : List ℚ) (target : ℚ) (e : ℕ) : ℕ :=
  walkAux cum target cum.length e

/-- The record built for sample `i`, given the post-walk edge index `e2`:
the interpolated point on edge `e2` at the target arc length. -/
def sampleMk (poly : List (ℚ × ℚ)) (cum : List ℚ) (total : ℚ) (steps : ℕ)
    (i e2 : ℕ) : Sample :=
  let target := total * ((i : ℚ) / (steps : ℚ))
  let edgeStart := cum.getD e2 0
  let edgeEnd := cum.getD (e2 + 1) 0
  let fraction :=
    if edgeEnd ≤ edgeStart then 0 else (target - edgeStart) / (edgeEnd - edgeStart)
  let pt := interpolatePoint (poly.getD e2 (0, 0)) (poly.getD (e2 + 1) (0, 0))
    fraction
  { sampleIndex := i
    position := if i = 0 then "start" else if i = steps then "end" else "along"
    distanceFromStartKm := pyRound 3 target
    lat := pt.1
    lng := pt.2 }

/-- The sampling loop (`for sample_index in range(steps + 1)`), with the
persistent `edge_idx` accumulator `e` and the number of remaining iterations
explicit. -/
def sampleAux (poly : List (ℚ × ℚ)) (cum : List ℚ) (total : ℚ) (steps : ℕ) :
    ℕ → ℕ → ℕ → List Sample
  | _, _, 0 => []
  | i, e, remaining + 1 =>
      sampleMk poly cum total steps i
          (walkEdge cum (total * ((i : ℚ) / (steps : ℚ))) e) ::
        sampleAux poly cum total steps (i + 1)
          (walkEdge cum (total * ((i : ℚ) / (steps : ℚ))) e) remaining

/-- `total_km`: the last cumulative arc length. -/
def polyTotal (hav : ℚ × ℚ → ℚ × ℚ → ℚ) (polyline : List (ℚ × ℚ)) : ℚ :=
  (((cumulativeOf hav polyline).getLast?).getD 0)

/-- `steps = max(1, int(math.ceil(total_km / max(step_km, 1.0))))`. -/
def polySteps (hav : ℚ × ℚ → ℚ × ℚ → ℚ) (polyline : List (ℚ × ℚ))
    (stepKm : ℚ) : ℕ :=
  (max 1 ⌈polyTotal hav polyline / max stepKm 1⌉).toNat

/-- `_sample_polyline_points(polyline, step_km)`. -/
def samplePolylinePoints (hav : ℚ × ℚ → ℚ × ℚ → ℚ) (polyline : List (ℚ × ℚ))
    (stepKm : ℚ) : List Sample :=
  if polyline.length < 2 then []
  else if polyTotal hav polyline ≤ 0 then
    [{ sampleIndex := 0, position := "start", distanceFromStartKm := 0,
       lat := (polyline.headD (0, 0)).1, lng := (polyline.headD (0, 0)).2 },
     { sampleIndex := 1, position := "end", distanceFromStartKm := 0,
       lat := (polyline.getLastD (0, 0)).1,
       lng := (polyline.getLastD (0, 0)).2 }]
  else
    sampleAux polyline (cumulativeOf hav polyline) (polyTotal hav polyline)
      (polySteps hav polyline stepKm) 0 0 (polySteps hav polyline stepKm + 1)

theorem sampleAux_indices (poly : List (ℚ × ℚ)) (cum : List ℚ) (total : ℚ)
    (steps : ℕ) :
    ∀ (r i e : ℕ),
      (sampleAux poly cum total steps i e r).map (fun s => s.sampleIndex) =
        List.range' i r := by
  intro r
  induction r with
  | zero => intro i e; rfl
  | succ n ih =>
    intro i e
    rw [sampleAux, List.map_cons, ih, List.range']
    rfl

theorem sampleAux_length (poly : List (ℚ × ℚ)) (cum : List ℚ) (total : ℚ)
    (steps : ℕ) (r i e : ℕ) :
    (sampleAux poly cum total steps i e r).length = r := by
  have h := sampleAux_indices poly cum total steps r i e
  have h2 := congrArg List.length h
  rw [List.length_map, List.length_range'] at h2
  exact h2

theorem walkAux_le (cum : List ℚ) (target : ℚ) :
    ∀ (fuel e : ℕ), e ≤ cum.length - 2 →
      walkAux cum target fuel e ≤ cum.length - 2 := by
  intro fuel
  induction fuel with
  | zero => intro e he; exact he
  | succ n ih =>
    intro e he
    rw [walkAux]
    split
    · rename_i h
      exact ih (e + 1) (by omega)
    · exact he

theorem walkAux_lower (cum : List ℚ) (target : ℚ) :
    ∀ (fuel e : ℕ), cum.getD e 0 ≤ target →
      cum.getD (walkAux cum target fuel e) 0 ≤ target := by
  intro fuel
  induction fuel with
  | zero => intro e he; exact he
  | succ n ih =>
    intro e he
    rw [walkAux]
    split
    · rename_i h
      exact ih (e + 1) (le_of_lt h.2)
    · exact he

theorem walkAux_exit (cum : List ℚ) (target : ℚ) :
    ∀ (fuel e : ℕ), cum.length - 2 ≤ e + fuel →
      ¬(walkAux cum target fuel e < cum.length - 2 ∧
        cum.getD (walkAux cum target fuel e + 1) 0 < target) := by
  intro fuel
  induction fuel with
  | zero =>
    intro e hfe
    rw [walkAux]
    intro hcon
    omega
  | succ n ih =>
    intro e hfe
    rw [walkAux]
    split
    · rename_i h
      exact ih (e + 1) (by omega)
    · rename_i h
      exact h

theorem walkEdge_le (cum : List ℚ) (target : ℚ) (e : ℕ)
    (he : e ≤ cum.length - 2) : walkEdge cum target e ≤ cum.length - 2 :=
  walkAux_le cum target cum.length e he

theorem walkEdge_lower (cum : List ℚ) (target : ℚ) (e : ℕ)
    (he : cum.getD e 0 ≤ target) :
    cum.getD (walkEdge cum target e) 0 ≤ target :=
  walkAux_lower cum target cum.length e he

theorem walkEdge_exit (cum : List ℚ) (target : ℚ) (e : ℕ) :
    ¬(walkEdge cum target e < cum.length - 2 ∧
      cum.getD (walkEdge cum target e + 1) 0 < target) :=
  walkAux_exit cum target cum.length e (by omega)

theorem cumAux_length (hav : ℚ × ℚ → ℚ × ℚ → ℚ) :
    ∀ (rest : List (ℚ × ℚ)) (prev : ℚ × ℚ) (acc : ℚ),
      (cumAux hav prev rest acc).length = rest.length := by
  intro rest
  induction rest with
  | nil => intro prev acc; rfl
  | cons c rest2 ih =>
    intro prev acc
    rw [cumAux, List.length_cons, ih]
    rfl

theorem cumulativeOf_length (hav : ℚ × ℚ → ℚ × ℚ → ℚ)
    (poly : List (ℚ × ℚ)) (h : poly ≠ []) :
    (cumulativeOf hav poly).length = poly.length := by
  cases poly with
  | nil => exact absurd rfl h
  | cons p rest =>
    rw [cumulativeOf, List.length_cons, cumAux_length, List.length_cons]

theorem cumAux_chain (hav : ℚ × ℚ → ℚ × ℚ → ℚ)
    (hpos : ∀ a b, 0 < hav a b) :
    ∀ (rest : List (ℚ × ℚ)) (prev : ℚ × ℚ) (acc : ℚ),
      List.Chain' (· < ·) (acc :: cumAux hav prev rest acc) := by
  intro rest
  induction rest with
  | nil => intro prev acc; simp [cumAux]
  | cons c rest2 ih =>
    intro prev acc
    rw [cumAux, List.chain'_cons]
    exact ⟨by linarith [hpos prev c], ih c (acc + hav prev c)⟩

theorem cumulativeOf_chain (hav : ℚ × ℚ → ℚ × ℚ → ℚ)
    (hpos : ∀ a b, 0 < hav a b) (poly : List (ℚ × ℚ)) :
    List.Chain' (· < ·) (cumulativeOf hav poly) := by
  cases poly with
  | nil => simp [cumulativeOf]
  | cons p rest => exact cumAux_chain hav hpos rest p 0

theorem cumAux_chain_le (hav : ℚ × ℚ → ℚ × ℚ → ℚ)
    (hnn : ∀ a b, 0 ≤ hav a b) :
    ∀ (rest : List (ℚ × ℚ)) (prev : ℚ × ℚ) (acc : ℚ),
      List.Chain' (· ≤ ·) (acc :: cumAux hav prev rest acc) := by
  intro rest
  induction rest with
  | nil => intro prev acc; simp [cumAux]
  | cons c rest2 ih =>
    intro prev acc
    rw [cumAux, List.chain'_cons]
    exact ⟨by linarith [hnn prev c], ih c (acc + hav prev c)⟩

theorem cumulativeOf_chain_le (hav : ℚ × ℚ → ℚ × ℚ → ℚ)
    (hnn : ∀ a b, 0 ≤ hav a b) (poly : List (ℚ × ℚ)) :
    List.Chain' (· ≤ ·) (cumulativeOf hav poly) := by
  cases poly with
  | nil => simp [cumulativeOf]
  | cons p rest => exact cumAux_chain_le hav hnn rest p 0

theorem cumAux_getD_succ (hav : ℚ × ℚ → ℚ × ℚ → ℚ) :
    ∀ (rest : List (ℚ × ℚ)) (prev : ℚ × ℚ) (acc : ℚ) (i : ℕ),
      i < rest.length →
      (acc :: cumAux hav prev rest acc).getD (i + 1) 0 =
        (acc :: cumAux hav prev rest acc).getD i 0 +
          hav ((prev :: rest).getD i (0, 0)) ((prev :: rest).getD (i + 1) (0, 0)) := by
  intro rest
  induction rest with
  | nil => intro prev acc i hi; simp at hi
  | cons c rest2 ih =>
    intro prev acc i hi
    cases i with
    | zero =>
      rw [cumAux]
      simp [List.getD_cons_succ, List.getD_cons_zero]
    | succ m =>
      rw [cumAux]
      simp only [List.getD_cons_succ]
      exact ih c (acc + hav prev c) m (by rw [List.length_cons] at hi; omega)

theorem cumulativeOf_getD_succ (hav : ℚ × ℚ → ℚ × ℚ → ℚ)
    (poly : List (ℚ × ℚ)) (i : ℕ) (hi : i + 1 < poly.length) :
    (cumulativeOf hav poly).getD (i + 1) 0 =
      (cumulativeOf hav poly).getD i 0 +
        hav (poly.getD i (0, 0)) (poly.getD (i + 1) (0, 0)) := by
  cases poly with
  | nil => simp at hi
  | cons p rest =>
    simp only [cumulativeOf]
    exact cumAux_getD_succ hav rest p 0 i (by rw [List.length_cons] at hi; omega)

theorem cumAux_nonneg (hav : ℚ × ℚ → ℚ × ℚ → ℚ)
    (hnn : ∀ a b, 0 ≤ hav a b) :
    ∀ (rest : List (ℚ × ℚ)) (prev : ℚ × ℚ) (acc : ℚ), 0 ≤ acc →
      ∀ x ∈ cumAux hav prev rest acc, 0 ≤ x := by
  intro rest
  induction rest with
  | nil => intro prev acc hacc x hx; simp [cumAux] at hx
  | cons c rest2 ih =>
    intro prev acc hacc x hx
    rw [cumAux] at hx
    rcases List.mem_cons.mp hx with hx | hx
    · subst hx; linarith [hnn prev c]
    · exact ih c (acc + hav prev c) (by linarith [hnn prev c]) x hx

theorem chain_getD_mono (l : List ℚ) (hch : List.Chain' (· < ·) l)
    (i j : ℕ) (hij : i < j) (hj : j < l.length) :
    l.getD i 0 < l.getD j 0 := by
  have hp := List.chain'_iff_pairwise.mp hch
  have hg := List.pairwise_iff_get.mp hp
  have hi : i < l.length := lt_trans hij hj
  have := hg ⟨i, hi⟩ ⟨j, hj⟩ hij
  rw [List.getD_eq_get l 0 hi, List.getD_eq_get l 0 hj]
  exact this

theorem chain_getD_mono_le (l : List ℚ) (hch : List.Chain' (· ≤ ·) l)
    (i j : ℕ) (hij : i ≤ j) (hj : j < l.length) :
    l.getD i 0 ≤ l.getD j 0 := by
  rcases Nat.lt_or_ge i j with h | h
  · have hp := List.chain'_iff_pairwise.mp hch
    have hg := List.pairwise_iff_get.mp hp
    have hi : i < l.length := lt_trans h hj
    have := hg ⟨i, hi⟩ ⟨j, hj⟩ h
    rw [List.getD_eq_get l 0 hi, List.getD_eq_get l 0 hj]
    exact this
  · rw [le_antisymm hij h]

theorem getLast_getD {α : Type} (l : List α) (d : α) :
    (l.getLast?).getD d = l.getD (l.length - 1) d := by
  rw [List.getLast?_eq_getElem?, List.getD_eq_getElem?_getD]

theorem pyRound_zero (d : ℕ) : pyRound d 0 = 0 := by
  unfold pyRound pyRoundInt
  norm_num [round_eq]

theorem targets_mono (total : ℚ) (steps : ℕ) (htot : 0 ≤ total) (i : ℕ) :
    total * ((i : ℚ) / steps) ≤ total * (((i + 1 : ℕ) : ℚ) / steps) := by
  apply mul_le_mul_of_nonneg_left _ htot
  rcases Nat.eq_zero_or_pos steps with h | h
  · subst h; simp
  · have hs : (0:ℚ) < steps := by exact_mod_cast h
    exact div_le_div_of_nonneg_right (by push_cast; linarith) (le_of_lt hs)

theorem sampleAux_mem_spec (poly : List (ℚ × ℚ)) (cum : List ℚ) (total : ℚ)
    (steps : ℕ) (htot : 0 ≤ total) :
    ∀ (r i e : ℕ), e ≤ cum.length - 2 →
      cum.getD e 0 ≤ total * ((i : ℚ) / steps) →
      ∀ s ∈ sampleAux poly cum total steps i e r,
        s.distanceFromStartKm =
          pyRound 3 (total * ((s.sampleIndex : ℚ) / steps)) ∧
        ∃ e2 t, e2 ≤ cum.length - 2 ∧
          cum.getD e2 0 ≤ total * ((s.sampleIndex : ℚ) / steps) ∧
          (total * ((s.sampleIndex : ℚ) / steps) ≤ cum.getD (e2 + 1) 0 ∨
            e2 = cum.length - 2) ∧
          (s.lat, s.lng) =
            interpolatePoint (poly.getD e2 (0, 0)) (poly.getD (e2 + 1) (0, 0))
              t := by
  intro r
  induction r with
  | zero => intro i e _ _ s hs; simp [sampleAux] at hs
  | succ n ih =>
    intro i e hin hlow s hs
    rw [sampleAux] at hs
    rcases List.mem_cons.mp hs with hs | hs
    · subst hs
      refine ⟨rfl, walkEdge cum (total * ((i : ℚ) / steps)) e, _,
        walkEdge_le cum _ e hin, walkEdge_lower cum _ e hlow, ?_, rfl⟩
      have hexit := walkEdge_exit cum (total * ((i : ℚ) / steps)) e
      by_cases hcase :
          walkEdge cum (total * ((i : ℚ) / steps)) e < cum.length - 2
      · left
        by_contra hlt
        exact hexit ⟨hcase, lt_of_not_le hlt⟩
      · right
        have := walkEdge_le cum (total * ((i : ℚ) / steps)) e hin
        omega
    · refine ih (i + 1) _ (walkEdge_le cum _ e hin) ?_ s hs
      exact le_trans (walkEdge_lower cum _ e hlow) (targets_mono total steps htot i)

theorem getLast?_cons_ne {α : Type} (a : α) (l : List α) (h : l ≠ []) :
    (a :: l).getLast? = l.getLast? := by
  cases l with
  | nil => exact absurd rfl h
  | cons b t => rw [List.getLast?_cons_cons]

theorem walkEdge_start (cum : List ℚ) (target : ℚ)
    (h1 : 0 ≤ cum.getD 1 0) (ht : target ≤ 0) : walkEdge cum target 0 = 0 := by
  unfold walkEdge
  cases hc : cum.length with
  | zero => rfl
  | succ m =>
    rw [walkAux, if_neg]
    intro hcon
    exact absurd hcon.2 (not_lt.mpr (le_trans ht h1))

theorem cumulativeOf_getD_nonneg (hav : ℚ × ℚ → ℚ × ℚ → ℚ)
    (hnn : ∀ a b, 0 ≤ hav a b) (poly : List (ℚ × ℚ)) (j : ℕ) :
    0 ≤ (cumulativeOf hav poly).getD j 0 := by
  by_cases hj : j < (cumulativeOf hav poly).length
  · have hm : (cumulativeOf hav poly).getD j 0 ∈ cumulativeOf hav poly := by
      rw [List.getD_eq_getElem _ _ hj]
      exact List.getElem_mem hj
    cases poly with
    | nil =>
      simp only [cumulativeOf, List.mem_singleton] at hm
      simp only [cumulativeOf]
      rw [hm]
    | cons p rest =>
      simp only [cumulativeOf, List.mem_cons] at hm
      simp only [cumulativeOf]
      rcases hm with hm | hm
      · rw [hm]
      · exact cumAux_nonneg hav hnn rest p 0 le_rfl _ hm
  · rw [List.getD_eq_default _ _ (by omega)]

theorem cum_flat_tail (hav : ℚ × ℚ → ℚ × ℚ → ℚ) (poly : List (ℚ × ℚ))
    (hnn : ∀ a b, 0 ≤ hav a b) (hsep : ∀ a b, hav a b = 0 → a = b)
    (hnil : poly ≠ []) :
    ∀ (d j : ℕ), j + d = poly.length - 1 →
      (cumulativeOf hav poly).getD (poly.length - 1) 0 ≤
        (cumulativeOf hav poly).getD j 0 →
      poly.getD j (0, 0) = poly.getD (poly.length - 1) (0, 0) := by
  intro d
  induction d with
  | zero =>
    intro j hj _
    rw [show j = poly.length - 1 by omega]
  | succ n ih =>
    intro j hj hle
    have hlen1 : 1 ≤ poly.length := by
      cases poly with
      | nil => exact absurd rfl hnil
      | cons p rest => simp
    have hj1 : j + 1 < poly.length := by omega
    have hsucc := cumulativeOf_getD_succ hav poly j hj1
    have hchle := cumulativeOf_chain_le hav hnn poly
    have hclen : (cumulativeOf hav poly).length = poly.length :=
      cumulativeOf_length hav poly hnil
    have hmono : (cumulativeOf hav poly).getD (j + 1) 0 ≤
        (cumulativeOf hav poly).getD (poly.length - 1) 0 :=
      chain_getD_mono_le _ hchle _ _ (by omega) (by omega)
    have h1 := hnn (poly.getD j (0, 0)) (poly.getD (j + 1) (0, 0))
    have hz : hav (poly.getD j (0, 0)) (poly.getD (j + 1) (0, 0)) = 0 := by
      linarith [hmono, hle, hsucc]
    rw [hsep _ _ hz]
    refine ih (j + 1) (by omega) ?_
    rw [hsucc, hz, add_zero]
    exact hle

theorem sampleAux_getLast (poly : List (ℚ × ℚ)) (cum : List ℚ) (total : ℚ)
    (steps : ℕ) :
    ∀ (r i e : ℕ), ∃ ein, (e ≤ cum.length - 2 → ein ≤ cum.length - 2) ∧
      (sampleAux poly cum total steps i e (r + 1)).getLast? =
        some (sampleMk poly cum total steps (i + r)
          (walkEdge cum (total * (((i + r : ℕ) : ℚ) / steps)) ein)) := by
  intro r
  induction r with
  | zero =>
    intro i e
    exact ⟨e, fun h => h, by rw [sampleAux, sampleAux]; rfl⟩
  | succ n ih =>
    intro i e
    obtain ⟨ein, hle, hlast⟩ :=
      ih (i + 1) (walkEdge cum (total * ((i : ℚ) / steps)) e)
    refine ⟨ein, fun h => hle (walkEdge_le cum _ e h), ?_⟩
    rw [sampleAux]
    have hne : sampleAux poly cum total steps (i + 1)
        (walkEdge cum (total * ((i : ℚ) / steps)) e) (n + 1) ≠ [] := by
      rw [sampleAux]
      exact List.cons_ne_nil _ _
    rw [getLast?_cons_ne _ _ hne, hlast]
    have hcomm : i + 1 + n = i + (n + 1) := by omega
    rw [hcomm]

theorem samplePolyline_head (hav : ℚ × ℚ → ℚ × ℚ → ℚ)
    (poly : List (ℚ × ℚ)) (stepKm : ℚ) (hnn : ∀ a b, 0 ≤ hav a b)
    (hlen : 2 ≤ poly.length) (hpt : ¬ polyTotal hav poly ≤ 0) :
    (samplePolylinePoints hav poly stepKm).head? =
      some { sampleIndex := 0, position := "start", distanceFromStartKm := 0,
             lat := (poly.headD (0, 0)).1, lng := (poly.headD (0, 0)).2 } := by
  unfold samplePolylinePoints
  rw [if_neg (by omega), if_neg hpt, sampleAux, List.head?_cons]
  have htarget : polyTotal hav poly *
      (((0 : ℕ) : ℚ) / (polySteps hav poly stepKm : ℚ)) = 0 := by
    push_cast
    simp
  have hwalk : walkEdge (cumulativeOf hav poly)
      (polyTotal hav poly * (((0 : ℕ) : ℚ) / (polySteps hav poly stepKm : ℚ)))
      0 = 0 :=
    walkEdge_start _ _ (cumulativeOf_getD_nonneg hav hnn poly 1)
      (le_of_eq htarget)
  rw [hwalk]
  rcases poly with _ | ⟨p, rest⟩
  · simp at hlen
  · congr 1
    unfold sampleMk
    rw [htarget]
    have hfrac : (if (cumulativeOf hav (p :: rest)).getD (0 + 1) 0 ≤
        (cumulativeOf hav (p :: rest)).getD 0 0 then (0:ℚ)
      else ((0 : ℚ) - (cumulativeOf hav (p :: rest)).getD 0 0) /
        ((cumulativeOf hav (p :: rest)).getD (0 + 1) 0 -
          (cumulativeOf hav (p :: rest)).getD 0 0)) = 0 := by
      split
      · rfl
      · simp [cumulativeOf]
    dsimp only
    rw [pyRound_zero]
    have hc0 : (cumulativeOf hav (p :: rest)).getD 0 0 = 0 := rfl
    simp only [hc0, zero_sub, sub_zero]
    have hfrac2 : (if (cumulativeOf hav (p :: rest)).getD (0 + 1) 0 ≤ (0:ℚ)
        then (0:ℚ)
        else (0 - 0) / ((cumulativeOf hav (p :: rest)).getD (0 + 1) 0)) = 0 := by
      split
      · rfl
      · simp
    simp only [interpolatePoint]
    have hz : (if (cumulativeOf hav (p :: rest)).getD (0 + 1) 0 ≤ (0:ℚ)
        then (0:ℚ)
        else 0 / (cumulativeOf hav (p :: rest)).getD (0 + 1) 0) = 0 := by
      split <;> simp
    rw [hz, min_eq_right (by norm_num : (0:ℚ) ≤ 1), max_self]
    simp

theorem samplePolyline_last (hav : ℚ × ℚ → ℚ × ℚ → ℚ)
    (poly : List (ℚ × ℚ)) (stepKm : ℚ) (hnn : ∀ a b, 0 ≤ hav a b)
    (hsep : ∀ a b, hav a b = 0 → a = b)
    (hlen : 2 ≤ poly.length) (hpt : ¬ polyTotal hav poly ≤ 0) :
    (samplePolylinePoints hav poly stepKm).getLast? =
      some { sampleIndex := polySteps hav poly stepKm, position := "end",
             distanceFromStartKm := pyRound 3 (polyTotal hav poly),
             lat := (poly.getLastD (0, 0)).1,
             lng := (poly.getLastD (0, 0)).2 } := by
  have hnil : poly ≠ [] := by
    intro h; rw [h] at hlen; simp at hlen
  have hclen : (cumulativeOf hav poly).length = poly.length :=
    cumulativeOf_length hav poly hnil
  have hchle := cumulativeOf_chain_le hav hnn poly
  have hsteps1 : 1 ≤ polySteps hav poly stepKm := by
    unfold polySteps
    have h1 : (1 : ℤ) ≤ max 1 ⌈polyTotal hav poly / max stepKm 1⌉ :=
      le_max_left _ _
    omega
  have hsQ : ((polySteps hav poly stepKm : ℕ) : ℚ) ≠ 0 := by
    exact_mod_cast Nat.one_le_iff_ne_zero.mp hsteps1
  have htarget : polyTotal hav poly *
      (((polySteps hav poly stepKm : ℕ) : ℚ) /
        ((polySteps hav poly stepKm : ℕ) : ℚ)) = polyTotal hav poly := by
    rw [div_self hsQ, mul_one]
  have htotD : polyTotal hav poly =
      (cumulativeOf hav poly).getD ((cumulativeOf hav poly).length - 1) 0 := by
    unfold polyTotal
    rw [getLast_getD]
  have htotP : polyTotal hav poly =
      (cumulativeOf hav poly).getD (poly.length - 1) 0 := by
    rw [htotD, hclen]
  have hflat : ∀ j : ℕ, j ≤ poly.length - 1 →
      polyTotal hav poly ≤ (cumulativeOf hav poly).getD j 0 →
      poly.getD j (0, 0) = poly.getD (poly.length - 1) (0, 0) := by
    intro j hj hcj
    refine cum_flat_tail hav poly hnn hsep hnil (poly.length - 1 - j) j
      (by omega) ?_
    rw [← htotP]
    exact hcj
  unfold samplePolylinePoints
  rw [if_neg (by omega), if_neg hpt]
  obtain ⟨ein, hle, hlast⟩ := sampleAux_getLast poly (cumulativeOf hav poly)
    (polyTotal hav poly) (polySteps hav poly stepKm)
    (polySteps hav poly stepKm) 0 0
  rw [Nat.zero_add] at hlast
  rw [htarget] at hlast
  rw [hlast]
  have heinle : ein ≤ (cumulativeOf hav poly).length - 2 := hle (Nat.zero_le _)
  have he2le : walkEdge (cumulativeOf hav poly) (polyTotal hav poly) ein ≤
      (cumulativeOf hav poly).length - 2 :=
    walkEdge_le _ _ _ heinle
  have hEend : (cumulativeOf hav poly).getD
      (walkEdge (cumulativeOf hav poly) (polyTotal hav poly) ein + 1) 0 =
      polyTotal hav poly := by
    by_cases hE : walkEdge (cumulativeOf hav poly) (polyTotal hav poly) ein =
        (cumulativeOf hav poly).length - 2
    · rw [hE, show (cumulativeOf hav poly).length - 2 + 1 =
        (cumulativeOf hav poly).length - 1 by omega, ← htotD]
    · have hlt : walkEdge (cumulativeOf hav poly) (polyTotal hav poly) ein <
          (cumulativeOf hav poly).length - 2 := lt_of_le_of_ne he2le hE
      have hexit :=
        walkEdge_exit (cumulativeOf hav poly) (polyTotal hav poly) ein
      have hge : polyTotal hav poly ≤ (cumulativeOf hav poly).getD
          (walkEdge (cumulativeOf hav poly) (polyTotal hav poly) ein + 1) 0 := by
        by_contra hcon
        exact hexit ⟨hlt, lt_of_not_le hcon⟩
      have hub : (cumulativeOf hav poly).getD
          (walkEdge (cumulativeOf hav poly) (polyTotal hav poly) ein + 1) 0 ≤
          (cumulativeOf hav poly).getD ((cumulativeOf hav poly).length - 1) 0 :=
        chain_getD_mono_le _ hchle _ _ (by omega) (by omega)
      rw [← htotD] at hub
      linarith
  have hpE1 : poly.getD
      (walkEdge (cumulativeOf hav poly) (polyTotal hav poly) ein + 1) (0, 0) =
      poly.getD (poly.length - 1) (0, 0) :=
    hflat _ (by omega) (le_of_eq hEend.symm)
  have hpidx : poly.getD (poly.length - 1) (0, 0) = poly.getLastD (0, 0) := by
    rw [List.getLastD_eq_getLast?, getLast_getD]
  have hne0 : ¬ polySteps hav poly stepKm = 0 := by omega
  congr 1
  unfold sampleMk
  dsimp only
  rw [htarget]
  by_cases hcase : (cumulativeOf hav poly).getD
      (walkEdge (cumulativeOf hav poly) (polyTotal hav poly) ein + 1) 0 ≤
      (cumulativeOf hav poly).getD
        (walkEdge (cumulativeOf hav poly) (polyTotal hav poly) ein) 0
  · have hmonoE : (cumulativeOf hav poly).getD
        (walkEdge (cumulativeOf hav poly) (polyTotal hav poly) ein) 0 ≤
        (cumulativeOf hav poly).getD
          (walkEdge (cumulativeOf hav poly) (polyTotal hav poly) ein + 1) 0 :=
      chain_getD_mono_le _ hchle _ _ (by omega) (by omega)
    have hEeq : (cumulativeOf hav poly).getD
        (walkEdge (cumulativeOf hav poly) (polyTotal hav poly) ein) 0 =
        polyTotal hav poly :=
      (le_antisymm hmonoE hcase).trans hEend
    have hpE : poly.getD
        (walkEdge (cumulativeOf hav poly) (polyTotal hav poly) ein) (0, 0) =
        poly.getD (poly.length - 1) (0, 0) :=
      hflat _ (by omega) (le_of_eq hEeq.symm)
    rw [if_pos hcase]
    simp only [interpolatePoint,
      min_eq_right (by norm_num : (0:ℚ) ≤ 1), max_self, mul_zero, add_zero]
    rw [hpE, hpidx]
    simp only [Sample.mk.injEq, if_neg hne0, if_true]
  · have hltE : (cumulativeOf hav poly).getD
        (walkEdge (cumulativeOf hav poly) (polyTotal hav poly) ein) 0 <
        (cumulativeOf hav poly).getD
          (walkEdge (cumulativeOf hav poly) (polyTotal hav poly) ein + 1) 0 :=
      lt_of_not_le hcase
    have hlt2 : (cumulativeOf hav poly).getD
        (walkEdge (cumulativeOf hav poly) (polyTotal hav poly) ein) 0 <
        polyTotal hav poly := by
      linarith [hEend]
    rw [if_neg hcase]
    have hfr : (polyTotal hav poly -
          (cumulativeOf hav poly).getD
            (walkEdge (cumulativeOf hav poly) (polyTotal hav poly) ein) 0) /
        ((cumulativeOf hav poly).getD
            (walkEdge (cumulativeOf hav poly) (polyTotal hav poly) ein + 1) 0 -
          (cumulativeOf hav poly).getD
            (walkEdge (cumulativeOf hav poly) (polyTotal hav poly) ein) 0) =
        1 := by
      rw [hEend]
      exact div_self (sub_ne_zero.mpr (ne_of_gt hlt2))
    rw [hfr]
    simp only [interpolatePoint, min_self,
      max_eq_right (by norm_num : (0:ℚ) ≤ 1), mul_one]
    rw [hpE1, hpidx]
    simp only [Sample.mk.injEq, if_neg hne0, if_true]
    exact ⟨trivial, trivial, trivial, by ring, by ring⟩

theorem cumulativeOf_getD_zero (hav : ℚ × ℚ → ℚ × ℚ → ℚ)
    (poly : List (ℚ × ℚ)) : (cumulativeOf hav poly).getD 0 0 = 0 := by
  cases poly <;> rfl

/-- The claim's sample count, read literally from the spec's words:
`max(1, ceil(total/step))` samples, with no clamp on the step width. -/
def specSampleCount (total step : ℚ) : ℕ := (max 1 ⌈total / step⌉).toNat

/-- C7, counterexample: for a 2-point polyline of total length 5 and
`step_km = 20`, the code emits 2 samples while the claim's count
`max(1, ceil(5/20)) = 1` says one: the loop runs `steps + 1` times, one more
than the claim's `N`. -/
theorem claim7_counterexample :
    (samplePolylinePoints (fun _ _ => (5:ℚ))
        [((0:ℚ), (0:ℚ)), ((1:ℚ), (1:ℚ))] 20).length ≠
      specSampleCount
        (polyTotal (fun _ _ => (5:ℚ)) [((0:ℚ), (0:ℚ)), ((1:ℚ), (1:ℚ))]) 20 := by
  with_unfolding_all decide

/-- C7, amended: for a polyline with at least two points,
`_sample_polyline_points` emits, when the total arc length is not positive,
exactly the two endpoints; when the total arc length is positive it emits
`steps + 1` samples (not `steps = max(1, ceil(total/max(step,1)))`, the step
clamped below by 1), indexed `0..steps`, the first at the polyline start, the
last at the polyline end, and each sample's distance is the rounded uniform
target `total * i / steps` with its point interpolated on an edge found by
walking the cumulative arc-length table. Stated for any edge distance that
is nonnegative and vanishes only between identical points, as the haversine
is; polylines with zero-length edges (repeated points) are covered. -/
theorem claim7_sample_polyline (hav : ℚ × ℚ → ℚ × ℚ → ℚ)
    (poly : List (ℚ × ℚ)) (stepKm : ℚ) (hlen : 2 ≤ poly.length)
    (hnn : ∀ a b, 0 ≤ hav a b) (hsep : ∀ a b, hav a b = 0 → a = b) :
    (polyTotal hav poly ≤ 0 →
      samplePolylinePoints hav poly stepKm =
        [{ sampleIndex := 0, position := "start", distanceFromStartKm := 0,
           lat := (poly.headD (0, 0)).1, lng := (poly.headD (0, 0)).2 },
         { sampleIndex := 1, position := "end", distanceFromStartKm := 0,
           lat := (poly.getLastD (0, 0)).1,
           lng := (poly.getLastD (0, 0)).2 }]) ∧
    (0 < polyTotal hav poly →
      (samplePolylinePoints hav poly stepKm).length =
          polySteps hav poly stepKm + 1 ∧
      (samplePolylinePoints hav poly stepKm).map (fun s => s.sampleIndex) =
          List.range (polySteps hav poly stepKm + 1) ∧
      (samplePolylinePoints hav poly stepKm).head? =
        some { sampleIndex := 0, position := "start",
               distanceFromStartKm := 0,
               lat := (poly.headD (0, 0)).1, lng := (poly.headD (0, 0)).2 } ∧
      (samplePolylinePoints hav poly stepKm).getLast? =
        some { sampleIndex := polySteps hav poly stepKm, position := "end",
               distanceFromStartKm := pyRound 3 (polyTotal hav poly),
               lat := (poly.getLastD (0, 0)).1,
               lng := (poly.getLastD (0, 0)).2 } ∧
      ∀ s ∈ samplePolylinePoints hav poly stepKm,
        s.distanceFromStartKm =
          pyRound 3 (polyTotal hav poly *
            ((s.sampleIndex : ℚ) / (polySteps hav poly stepKm : ℚ))) ∧
        ∃ e2 t, e2 ≤ (cumulativeOf hav poly).length - 2 ∧
          (cumulativeOf hav poly).getD e2 0 ≤
            polyTotal hav poly *
              ((s.sampleIndex : ℚ) / (polySteps hav poly stepKm : ℚ)) ∧
          (polyTotal hav poly *
              ((s.sampleIndex : ℚ) / (polySteps hav poly stepKm : ℚ)) ≤
              (cumulativeOf hav poly).getD (e2 + 1) 0 ∨
            e2 = (cumulativeOf hav poly).length - 2) ∧
          (s.lat, s.lng) =
            interpolatePoint (poly.getD e2 (0, 0)) (poly.getD (e2 + 1) (0, 0))
              t) := by
  constructor
  · intro hle0
    unfold samplePolylinePoints
    rw [if_neg (by omega), if_pos hle0]
  · intro htotpos
    have hpt : ¬ polyTotal hav poly ≤ 0 := not_le.mpr htotpos
    have heq : samplePolylinePoints hav poly stepKm =
        sampleAux poly (cumulativeOf hav poly) (polyTotal hav poly)
          (polySteps hav poly stepKm) 0 0 (polySteps hav poly stepKm + 1) := by
      unfold samplePolylinePoints
      rw [if_neg (by omega), if_neg hpt]
    refine ⟨?_, ?_, ?_, ?_, ?_⟩
    · rw [heq, sampleAux_length]
    · rw [heq, sampleAux_indices, List.range_eq_range']
    · exact samplePolyline_head hav poly stepKm hnn hlen hpt
    · exact samplePolyline_last hav poly stepKm hnn hsep hlen hpt
    · intro s hs
      rw [heq] at hs
      refine sampleAux_mem_spec poly (cumulativeOf hav poly)
        (polyTotal hav poly) (polySteps hav poly stepKm)
        (le_of_lt htotpos) (polySteps hav poly stepKm + 1) 0 0
        (Nat.zero_le _) ?_ s hs
      rw [cumulativeOf_getD_zero]
      push_cast
      simp

/-- C7, witness: the amended theorem at a concrete 2-point polyline with
constant edge length 5 and step 2: 3 + 1 samples are emitted. -/
theorem claim7_witness :
    (samplePolylinePoints (fun _ _ => (5:ℚ))
        [((0:ℚ), (0:ℚ)), ((1:ℚ), (1:ℚ))] 2).length =
      polySteps (fun _ _ => (5:ℚ)) [((0:ℚ), (0:ℚ)), ((1:ℚ), (1:ℚ))] 2 + 1 :=
  ((claim7_sample_polyline (fun _ _ => (5:ℚ))
      [((0:ℚ), (0:ℚ)), ((1:ℚ), (1:ℚ))] 2 (by decide)
      (fun a b => by norm_num)
      (fun a b h => absurd h (by norm_num))).2
    (by with_unfolding_all decide)).1

/-! ## Municipality extraction (`semantic_layer._extract_municipality_from_reverse_payload`) -/

/-- `MUNICIPALITY_ADDRESS_PRIORITY`: the ordered candidate keys for a
municipality name. -/
def municipalityAddressPriority : List String :=
  ["municipality", "city", "town", "village", "city_district", "district",
   "borough", "suburb", "quarter", "hamlet", "neighbourhood", "locality"]

/-- `address = payload.get("address", {})`, reset to `{}` when the value is
not a dict. -/
def addressOfPayload (payload : JDict) : JDict :=
  match dictGetD payload "address" (.vdict []) with
  | .vdict entries => entries
  | _ => []

/-- `_extract_municipality_from_reverse_payload(payload)`. -/
def extractMunicipalityFromReversePayload (payload : JDict) :
    Option String × Option String :=
  match pickFirstNonEmpty (addressOfPayload payload)
      municipalityAddressPriority with
  | some (v, k) => (some v, some k)
  | none => (none, none)

/-- The claim's key list, read literally: eleven keys, `neighbourhood`
missing. -/
def specMunicipalityPriority : List String :=
  ["municipality", "city", "town", "village", "city_district", "district",
   "borough", "suburb", "quarter", "hamlet", "locality"]

/-- The extraction as the claim words it. -/
def specExtractMunicipality (payload : JDict) :
    Option String × Option String :=
  match pickFirstNonEmpty (addressOfPayload payload)
      specMunicipalityPriority with
  | some (v, k) => (some v, some k)
  | none => (none, none)

theorem pickFirstNonEmpty_none (address : JDict) (ks : List String) :
    pickFirstNonEmpty address ks = none ↔
      ∀ k ∈ ks, pyCoerceStrip (dictGetD address k .vnull) = "" := by
  induction ks with
  | nil => simp [pickFirstNonEmpty]
  | cons k ks ih =>
    rw [pickFirstNonEmpty]
    split
    · rename_i h
      rw [ih]
      constructor
      · intro hall k2 hk2
        rcases List.mem_cons.mp hk2 with hk2 | hk2
        · rw [hk2]; exact h
        · exact hall k2 hk2
      · intro hall k2 hk2
        exact hall k2 (List.mem_cons_of_mem k hk2)
    · rename_i h
      refine iff_of_false (by simp) ?_
      intro hall
      exact h (hall k (List.mem_cons_self k ks))

theorem pickFirstNonEmpty_some (address : JDict) :
    ∀ (ks : List String) (v k : String),
      pickFirstNonEmpty address ks = some (v, k) →
      ∃ i < ks.length, ks.getD i "" = k ∧
        pyCoerceStrip (dictGetD address k .vnull) = v ∧ v ≠ "" ∧
        ∀ j < i, pyCoerceStrip (dictGetD address (ks.getD j "") .vnull) = "" := by
  intro ks
  induction ks with
  | nil => intro v k h; simp [pickFirstNonEmpty] at h
  | cons a ks ih =>
    intro v k h
    rw [pickFirstNonEmpty] at h
    by_cases ha : pyCoerceStrip (dictGetD address a .vnull) = ""
    · rw [if_pos ha] at h
      obtain ⟨i, hi, hk, hv, hne, hprev⟩ := ih v k h
      refine ⟨i + 1, by simpa using Nat.succ_lt_succ hi, by simpa using hk,
        hv, hne, ?_⟩
      intro j hj
      cases j with
      | zero => simpa using ha
      | succ m => simpa using hprev m (by omega)
    · rw [if_neg ha] at h
      simp only [Option.some.injEq, Prod.mk.injEq] at h
      obtain ⟨hv, hk⟩ := h
      refine ⟨0, by simp, by simpa using hk, ?_, ?_, ?_⟩
      · rw [← hk]; exact hv
      · rw [← hv]; exact ha
      · intro j hj; exact absurd hj (Nat.not_lt_zero j)

/-- C8, counterexample: an address carrying only `neighbourhood` yields a
municipality in the code but none under the claim's eleven-key list: the
code's priority list also holds `neighbourhood`, between `hamlet` and
`locality`. -/
theorem claim8_counterexample :
    extractMunicipalityFromReversePayload
        [("address", .vdict [("neighbourhood", .vstr "Foo")])] ≠
      specExtractMunicipality
        [("address", .vdict [("neighbourhood", .vstr "Foo")])] := by
  with_unfolding_all decide

/-- C8, amended: the municipality is chosen from `payload["address"]` (reset
to `{}` when not a dict) by trying, in order, the twelve keys municipality,
city, town, village, city_district, district, borough, suburb, quarter,
hamlet, neighbourhood, locality, and taking the first key whose value
coerced by `str(value or "").strip()` is non-empty (so truthy non-string
values are accepted too); when a value is found the key is returned with it,
and the result is `(None, None)` exactly when every key's coerced value is
empty. -/
theorem claim8_municipality_priority (payload : JDict) :
    (∀ v k, extractMunicipalityFromReversePayload payload = (some v, some k) →
      ∃ i < municipalityAddressPriority.length,
        municipalityAddressPriority.getD i "" = k ∧
        pyCoerceStrip (dictGetD (addressOfPayload payload) k .vnull) = v ∧
        v ≠ "" ∧
        ∀ j < i, pyCoerceStrip (dictGetD (addressOfPayload payload)
          (municipalityAddressPriority.getD j "") .vnull) = "") ∧
    (extractMunicipalityFromReversePayload payload = (none, none) ↔
      ∀ k ∈ municipalityAddressPriority,
        pyCoerceStrip (dictGetD (addressOfPayload payload) k .vnull) = "") := by
  constructor
  · intro v k h
    unfold extractMunicipalityFromReversePayload at h
    rcases hp : pickFirstNonEmpty (addressOfPayload payload)
        municipalityAddressPriority with _ | ⟨v2, k2⟩
    · rw [hp] at h
      simp at h
    · rw [hp] at h
      simp only [Prod.mk.injEq, Option.some.injEq] at h
      obtain ⟨hv, hk⟩ := h
      rw [← hv, ← hk]
      exact pickFirstNonEmpty_some (addressOfPayload payload)
        municipalityAddressPriority v2 k2 hp
  · constructor
    · intro h
      unfold extractMunicipalityFromReversePayload at h
      rcases hp : pickFirstNonEmpty (addressOfPayload payload)
          municipalityAddressPriority with _ | ⟨v2, k2⟩
      · exact (pickFirstNonEmpty_none (addressOfPayload payload)
          municipalityAddressPriority).mp hp
      · rw [hp] at h
        simp at h
    · intro hall
      unfold extractMunicipalityFromReversePayload
      rw [(pickFirstNonEmpty_none (addressOfPayload payload)
        municipalityAddressPriority).mpr hall]

/-- C8, witness: the amended theorem at a concrete payload whose address has
an empty `city` and a `town`: every key before `town` coerces to empty. -/
theorem claim8_witness :
    extractMunicipalityFromReversePayload
        [("address", .vdict [("city", .vstr "  "), ("town", .vnull)])] =
      (none, none) :=
  (claim8_municipality_priority
      [("address", .vdict [("city", .vstr "  "), ("town", .vnull)])]).2.mpr
    (by with_unfolding_all decide)

/-! ## Enrichment failure handling (`function_app._solve`, semantic-layer step) -/

theorem dictGet_dictSet_self (d : JDict) (k : String) (v : JVal) :
    dictGet (dictSet d k v) k = some v := by
  induction d with
  | nil => simp [dictSet, dictGet]
  | cons e rest ih =>
    obtain ⟨k2, v2⟩ := e
    rw [dictSet]
    by_cases h : k2 = k
    · rw [if_pos h, dictGet, if_pos h]
    · rw [if_neg h, dictGet, if_neg h, ih]

theorem dictGet_dictSet_ne (d : JDict) (k key : String) (v : JVal)
    (h : key ≠ k) : dictGet (dictSet d k v) key = dictGet d key := by
  induction d with
  | nil =>
    simp only [dictSet, dictGet]
    rw [if_neg (fun he : k = key => h he.symm)]
  | cons e rest ih =>
    obtain ⟨k2, v2⟩ := e
    rw [dictSet]
    by_cases h2 : k2 = k
    · rw [if_pos h2, dictGet, dictGet, if_neg (by rw [h2]; exact fun he => h he.symm),
        if_neg (by rw [h2]; exact fun he => h he.symm)]
    · rw [if_neg h2, dictGet, dictGet]
      by_cases h3 : k2 = key
      · rw [if_pos h3, if_pos h3]
      · rw [if_neg h3, if_neg h3, ih]

/-- The `semantic_layer` value stored when `build_semantic_layer` raises. -/
def failedSemanticLayer (msg pipelineMode dataSource : String) : JVal :=
  .vdict [("status", .vstr "failed"), ("error", .vstr msg),
          ("pipeline_mode", .vstr pipelineMode),
          ("here_data_source", .vstr dataSource)]

/-- The `if _as_bool(... include_semantic_layer ...)` block of `_solve`:
`enrich` abstracts `build_semantic_layer(result, semantic_payload)`, its
`Except.error` branch a raised exception with its rendered message. -/
def enrichStep (enrich : JDict → Except String JVal) (includeFlag : Bool)
    (pipelineMode dataSource : String) (result : JDict) : JDict :=
  if includeFlag then
    match enrich result with
    | .ok v => dictSet result "semantic_layer" v
    | .error msg =>
        dictSet
          (dictSet result "semantic_layer"
            (failedSemanticLayer msg pipelineMode dataSource))
          "semantic_layer_error"
          (.vstr "Semantic enrichment failed; VRP result remains valid.")
  else result

/-- The tail of `_solve` after a successful VRP solve: the enrichment step,
the optional `here_prefetch` copy, and the final
`func.HttpResponse(..., status_code=200)` (status paired with the body). -/
def solveTail (enrich : JDict → Except String JVal) (includeFlag : Bool)
    (pipelineMode dataSource : String) (prefetch : Option JVal)
    (result : JDict) : ℕ × JDict :=
  let r1 := enrichStep enrich includeFlag pipelineMode dataSource result
  let r2 :=
    match prefetch with
    | some v => dictSet r1 "here_prefetch" v
    | none => r1
  (200, r2)

/-- C1: when the VRP solve has succeeded and the semantic layer is enabled,
a `build_semantic_layer` exception still yields a 200 response whose `routes`
are unchanged, whose `semantic_layer` is the failed object carrying the error
string, and which has the top-level `semantic_layer_error` message: the
routing result is never dropped because of an enrichment failure. -/
theorem claim1_enrichment_failure (enrich : JDict → Except String JVal)
    (pipelineMode dataSource : String) (prefetch : Option JVal)
    (result : JDict) (msg : String) (herr : enrich result = .error msg) :
    (solveTail enrich true pipelineMode dataSource prefetch result).1 = 200 ∧
    dictGet (solveTail enrich true pipelineMode dataSource prefetch result).2
        "routes" = dictGet result "routes" ∧
    dictGet (solveTail enrich true pipelineMode dataSource prefetch result).2
        "semantic_layer" =
      some (failedSemanticLayer msg pipelineMode dataSource) ∧
    dictGet (solveTail enrich true pipelineMode dataSource prefetch result).2
        "semantic_layer_error" =
      some (.vstr "Semantic enrichment failed; VRP result remains valid.") := by
  unfold solveTail enrichStep
  rw [if_pos rfl, herr]
  cases prefetch with
  | none =>
    refine ⟨rfl, ?_, ?_, ?_⟩
    · rw [dictGet_dictSet_ne _ _ _ _ (by decide),
        dictGet_dictSet_ne _ _ _ _ (by decide)]
    · rw [dictGet_dictSet_ne _ _ _ _ (by decide), dictGet_dictSet_self]
    · rw [dictGet_dictSet_self]
  | some v =>
    refine ⟨rfl, ?_, ?_, ?_⟩
    · rw [dictGet_dictSet_ne _ _ _ _ (by decide),
        dictGet_dictSet_ne _ _ _ _ (by decide),
        dictGet_dictSet_ne _ _ _ _ (by decide)]
    · rw [dictGet_dictSet_ne _ _ _ _ (by decide),
        dictGet_dictSet_ne _ _ _ _ (by decide), dictGet_dictSet_self]
    · rw [dictGet_dictSet_ne _ _ _ _ (by decide), dictGet_dictSet_self]

/-- C1, witness: a concrete result whose enrichment always raises. -/
theorem claim1_witness :
    (solveTail (fun _ => .error "boom") true "after_vrp" "emulator" none
        [("routes", .vlist [])]).1 = 200 ∧
    dictGet (solveTail (fun _ => .error "boom") true "after_vrp" "emulator"
        none [("routes", .vlist [])]).2 "routes" =
      dictGet [("routes", .vlist [])] "routes" ∧
    dictGet (solveTail (fun _ => .error "boom") true "after_vrp" "emulator"
        none [("routes", .vlist [])]).2 "semantic_layer" =
      some (failedSemanticLayer "boom" "after_vrp" "emulator") ∧
    dictGet (solveTail (fun _ => .error "boom") true "after_vrp" "emulator"
        none [("routes", .vlist [])]).2 "semantic_layer_error" =
      some (.vstr "Semantic enrichment failed; VRP result remains valid.") :=
  claim1_enrichment_failure (fun _ => .error "boom") "after_vrp" "emulator"
    none [("routes", .vlist [])] "boom" rfl

/-! ## Municipality merge (`function_app._merge_municipality_semantic`) -/

/-- The keys of an association dict, in order. -/
def keysOf (d : JDict) : List String := d.map Prod.fst

/-- Keys of `municipality_config` taken into the base config. -/
def configKeyKept (k : String) : Bool :=
  pyStartsWith k "municipality_" || pyStartsWith k "province_" ||
    (k == "distance_mode" || k == "distance_source")

/-- Keys of `municipality_summary` taken into the base summary. -/
def summaryKeyKept (k : String) : Bool :=
  pyStartsWith k "municipality_" || pyStartsWith k "province_"

/-- `for key, value in src.items(): if pred(key): dst[key] = value`. -/
def overlayKept (pred : String → Bool) (dst src : JDict) : JDict :=
  src.foldl (fun acc kv => if pred kv.1 then dictSet acc kv.1 kv.2 else acc) dst

/-- Unconditional overlay: `for key, value in kvs: d[key] = value`. -/
def overlay (d : JDict) (kvs : List (String × JVal)) : JDict :=
  kvs.foldl (fun acc kv => dictSet acc kv.1 kv.2) d

/-- The last value an overlay of `kvs` writes under `k`, if any. -/
def lookupLast : List (String × JVal) → String → Option JVal
  | [], _ => none
  | (k2, v) :: rest, k =>
      (lookupLast rest k).or (if k2 = k then some v else none)

/-- The merged config of `mergedConfigOf base muni`. -/
def mergedConfigOf (base muni : JDict) : JDict :=
  overlayKept configKeyKept (asDict (dictGet base "config"))
    (asDict (dictGet muni "config"))

/-- The merged summary. -/
def mergedSummaryOf (base muni : JDict) : JDict :=
  overlayKept summaryKeyKept (asDict (dictGet base "summary"))
    (asDict (dictGet muni "summary"))

/-- `if d: merged[k] = d` (a dict is falsy when empty). -/
def setIfNonEmpty (m : JDict) (k : String) (d : JDict) : JDict :=
  if d.isEmpty then m else dictSet m k (.vdict d)

/-- The five municipality keys copied verbatim when present. -/
def muniCopiedKeys : List String :=
  ["municipality_api", "municipality_address_book",
   "municipality_phase1_input_points", "municipality_post_output_notice",
   "municipality_post_output_warnings"]

/-- `for key in (...): if key in muni: merged[key] = muni[key]`. -/
def copyKeys (keys : List String) (muni m : JDict) : JDict :=
  keys.foldl (fun acc k =>
    match dictGet muni k with
    | some v => dictSet acc k v
    | none => acc) m

/-- `muni.get(k, base.get(k))`. -/
def getWithFallback (muni base : JDict) (k : String) : JVal :=
  match dictGet muni k with
  | some v => v
  | none => dictGetD base k .vnull

/-- `{str(route.get("vehicle")): route for route in routes if isinstance(route,
dict)}.get(key)`: the last matching dict route wins. -/
def lookupLastRoute (routes : List JVal) (key : String) : Option JDict :=
  routes.foldl (fun acc r =>
    match r with
    | .vdict e => if pyStr (dictGetD e "vehicle" .vnull) = key then some e else acc
    | _ => acc) none

/-- `{int(segment.get("segment_index")): segment for segment in segments if
isinstance(segment, dict)}`: `none` models the `int()` call raising. -/
def segIndexEntries : List JVal → Option (List (ℤ × JDict))
  | [] => some []
  | s :: rest =>
      match s with
      | .vdict e =>
          match pyInt (dictGetD e "segment_index" .vnull) with
          | some n => (segIndexEntries rest).map (fun l => (n, e) :: l)
          | none => none
      | _ => segIndexEntries rest

/-- `.get(segment_index)` on the comprehension dict: last entry wins. -/
def lookupLastIdx (l : List (ℤ × JDict)) (n : ℤ) : Option JDict :=
  l.foldl (fun acc p => if p.1 = n then some p.2 else acc) none

/-- `isinstance(x, int)` (a Python `bool` is an `int`). -/
def asIntInstance : JVal → Option ℤ
  | .vint n => some n
  | .vbool b => some (if b then 1 else 0)
  | _ => none

/-- One iteration of the `for base_segment in base_segments` loop: `none`
models the skip of a non-dict entry. -/
def mergeSegment (byIdx : List (ℤ × JDict)) : JVal → Option JVal
  | .vdict es =>
      match asIntInstance (dictGetD es "segment_index" .vnull) with
      | some n =>
          match lookupLastIdx byIdx n with
          | some ms =>
              some (.vdict (dictSet (dictSet (dictSet (dictSet es
                "municipality_trace" (dictGetD ms "municipality_trace" (.vlist [])))
                "municipality_names" (dictGetD ms "municipality_names" (.vlist [])))
                "province_names" (dictGetD ms "province_names" (.vlist [])))
                "province_capital_names"
                  (dictGetD ms "province_capital_names" (.vlist []))))
          | none => some (.vdict es)
      | none => some (.vdict es)
  | _ => none

/-- `if isinstance(muni_route.get(k), list): route[k] = muni_route[k]`. -/
def setIfList (r : JDict) (k : String) (v : Option JVal) : JDict :=
  match v with
  | some (.vlist xs) => dictSet r k (.vlist xs)
  | _ => r

/-- The four list-valued keys copied from the municipality route. -/
def applyVecKeys (mr r : JDict) : JDict :=
  setIfList (setIfList (setIfList (setIfList r
    "stop_municipality_links" (dictGet mr "stop_municipality_links"))
    "province_vector" (dictGet mr "province_vector"))
    "province_capital_vector" (dictGet mr "province_capital_vector"))
    "municipality_vector" (dictGet mr "municipality_vector")

/-- The body of the `for base_route in base_routes` loop for one dict route;
`none` models an `int()` exception from the segment-index comprehension. -/
def mergeOneRoute (muniRoutes : List JVal) (e : JDict) : Option JDict :=
  match lookupLastRoute muniRoutes (pyStr (dictGetD e "vehicle" .vnull)) with
  | none => some e
  | some mr =>
      match segIndexEntries (asList (dictGet mr "segment_context")) with
      | none => none
      | some byIdx =>
          let msegs := (asList (dictGet e "segment_context")).filterMap
            (mergeSegment byIdx)
          some (if msegs.isEmpty then applyVecKeys mr e
            else dictSet (applyVecKeys mr e) "segment_context" (.vlist msegs))

/-- The `merged_routes` loop. -/
def mergeRoutes (muniRoutes : List JVal) : List JVal → Option (List JVal)
  | [] => some []
  | r :: rest =>
      match r with
      | .vdict e =>
          match mergeOneRoute muniRoutes e with
          | none => none
          | some e2 => (mergeRoutes muniRoutes rest).map (fun l => .vdict e2 :: l)
      | _ => mergeRoutes muniRoutes rest

/-- `_merge_municipality_semantic` up to (and including) the `errors`
assignment. -/
def mergePrefix (base muni : JDict) : JDict :=
  dictSet (dictSet (dictSet
    (copyKeys muniCopiedKeys muni
      (setIfNonEmpty (setIfNonEmpty base "config" (mergedConfigOf base muni))
        "summary" (mergedSummaryOf base muni)))
    "version" (getWithFallback muni base "version"))
    "generated_at_utc" (getWithFallback muni base "generated_at_utc"))
    "errors" (.vlist ((asList (dictGet base "errors") ++
      asList (dictGet muni "errors")).take 40))

/-- `_merge_municipality_semantic(base, muni)`; `none` models a raised
exception (only `int(segment.get("segment_index"))` can raise). -/
def mergeMunicipalitySemantic (base muni : JDict) : Option JDict :=
  match mergeRoutes (asList (dictGet muni "routes"))
      (asList (dictGet base "routes")) with
  | none => none
  | some mrs =>
      some (if mrs.isEmpty then mergePrefix base muni
        else dictSet (mergePrefix base muni) "routes" (.vlist mrs))

theorem dictSet_get_self (d : JDict) (k : String) (v : JVal)
    (h : dictGet d k = some v) : dictSet d k v = d := by
  induction d with
  | nil => simp [dictGet] at h
  | cons e rest ih =>
    obtain ⟨k2, v2⟩ := e
    rw [dictGet] at h
    rw [dictSet]
    by_cases h2 : k2 = k
    · rw [if_pos h2] at h
      rw [if_pos h2]
      injection h with h
      rw [h]
    · rw [if_neg h2] at h
      rw [if_neg h2, ih h]

theorem dictGet_none_iff (d : JDict) (k : String) :
    dictGet d k = none ↔ k ∉ keysOf d := by
  induction d with
  | nil => simp [dictGet, keysOf]
  | cons e rest ih =>
    obtain ⟨k2, v2⟩ := e
    rw [dictGet]
    by_cases h2 : k2 = k
    · rw [if_pos h2]
      simp [keysOf, h2]
    · rw [if_neg h2]
      rw [ih]
      simp only [keysOf, List.map_cons, List.mem_cons]
      constructor
      · intro hn hc
        rcases hc with hc | hc
        · exact h2 hc.symm
        · exact hn hc
      · intro hn hc
        exact hn (Or.inr hc)

theorem dictExt : ∀ (d1 d2 : JDict), keysOf d1 = keysOf d2 →
    (∀ k, dictGet d1 k = dictGet d2 k) → (keysOf d1).Nodup → d1 = d2 := by
  intro d1
  induction d1 with
  | nil =>
    intro d2 hk _ _
    cases d2 with
    | nil => rfl
    | cons e r => simp [keysOf] at hk
  | cons e rest ih =>
    obtain ⟨k1, v1⟩ := e
    intro d2 hk hg hnd
    cases d2 with
    | nil => simp [keysOf] at hk
    | cons e2 r2 =>
      obtain ⟨k2, v2⟩ := e2
      simp only [keysOf, List.map_cons, List.cons.injEq] at hk
      obtain ⟨hk12, hkrest⟩ := hk
      have hv : v1 = v2 := by
        have := hg k1
        rw [dictGet, if_pos rfl, dictGet, if_pos hk12.symm] at this
        injection this
      simp only [keysOf, List.map_cons, List.nodup_cons] at hnd
      have hrest : rest = r2 := by
        refine ih r2 hkrest ?_ hnd.2
        intro k
        by_cases hkk : k = k1
        · subst hkk
          have h1 : dictGet rest k = none :=
            (dictGet_none_iff rest k).mpr hnd.1
          have h2 : dictGet r2 k = none := by
            rw [dictGet_none_iff]
            simp only [keysOf]
            rw [← hkrest]
            exact hnd.1
          rw [h1, h2]
        · have := hg k
          rw [dictGet, if_neg (fun he => hkk he.symm), dictGet,
            if_neg (by rw [← hk12]; exact fun he => hkk he.symm)] at this
          exact this
      rw [hk12, hv, hrest]

theorem dictGet_dictSet (d : JDict) (k key : String) (v : JVal) :
    dictGet (dictSet d k v) key =
      if k = key then some v else dictGet d key := by
  by_cases h : k = key
  · rw [if_pos h, h, dictGet_dictSet_self]
  · rw [if_neg h, dictGet_dictSet_ne d k key v (fun he => h he.symm)]

theorem optOr_assoc (a b c : Option JVal) : (a.or b).or c = a.or (b.or c) := by
  cases a <;> rfl

theorem overlay_get (kvs : List (String × JVal)) :
    ∀ (d : JDict) (k : String),
      dictGet (overlay d kvs) k = (lookupLast kvs k).or (dictGet d k) := by
  induction kvs with
  | nil => intro d k; simp [overlay, lookupLast]
  | cons kv rest ih =>
    obtain ⟨k2, v⟩ := kv
    intro d k
    have hstep : overlay d ((k2, v) :: rest) = overlay (dictSet d k2 v) rest := rfl
    rw [hstep, ih, lookupLast, optOr_assoc, dictGet_dictSet]
    congr 1
    split <;> rfl

theorem lookupLast_isSome_of_mem (kvs : List (String × JVal))
    (k : String) (v : JVal) (hp : (k, v) ∈ kvs) :
    (lookupLast kvs k).isSome := by
  induction kvs with
  | nil => simp at hp
  | cons kv rest ih =>
    obtain ⟨k2, v2⟩ := kv
    rw [lookupLast]
    rcases List.mem_cons.mp hp with hp | hp
    · rw [Prod.mk.injEq] at hp
      cases hl : lookupLast rest k with
      | some w => rfl
      | none => rw [Option.none_or, if_pos hp.1.symm]; rfl
    · cases hl : lookupLast rest k with
      | some w => rfl
      | none =>
        have := ih hp
        rw [hl] at this
        simp at this

theorem dictSet_keys_present (d : JDict) (k : String) (v : JVal)
    (h : k ∈ keysOf d) : keysOf (dictSet d k v) = keysOf d := by
  induction d with
  | nil => simp [keysOf] at h
  | cons e rest ih =>
    obtain ⟨k2, v2⟩ := e
    rw [dictSet]
    by_cases h2 : k2 = k
    · rw [if_pos h2]
      simp [keysOf]
    · rw [if_neg h2]
      simp only [keysOf, List.map_cons] at h ⊢
      rcases List.mem_cons.mp h with hc | hc
      · exact absurd hc.symm h2
      · rw [List.cons.injEq]
        exact ⟨rfl, ih hc⟩


theorem dictSet_keys_absent (d : JDict) (k : String) (v : JVal)
    (h : k ∉ keysOf d) : keysOf (dictSet d k v) = keysOf d ++ [k] := by
  induction d with
  | nil => simp [dictSet, keysOf]
  | cons e rest ih =>
    obtain ⟨k2, v2⟩ := e
    simp only [keysOf, List.map_cons, List.mem_cons] at h
    push_neg at h
    rw [dictSet, if_neg (fun he => h.1 he.symm)]
    simp only [keysOf, List.map_cons, List.cons_append, List.cons.injEq]
    exact ⟨trivial, ih h.2⟩

theorem overlay_keys_of_present (kvs : List (String × JVal)) :
    ∀ (d : JDict), (∀ p ∈ kvs, p.1 ∈ keysOf d) →
      keysOf (overlay d kvs) = keysOf d := by
  induction kvs with
  | nil => intro d _; rfl
  | cons kv rest ih =>
    obtain ⟨k2, v⟩ := kv
    intro d h
    have hstep : overlay d ((k2, v) :: rest) = overlay (dictSet d k2 v) rest := rfl
    have hk2 : k2 ∈ keysOf d := h (k2, v) (List.mem_cons_self _ _)
    rw [hstep, ih (dictSet d k2 v) ?_, dictSet_keys_present d k2 v hk2]
    intro p hp
    rw [dictSet_keys_present d k2 v hk2]
    exact h p (List.mem_cons_of_mem _ hp)

theorem overlay_nodup (kvs : List (String × JVal)) :
    ∀ (d : JDict), (keysOf d).Nodup → (keysOf (overlay d kvs)).Nodup := by
  induction kvs with
  | nil => intro d h; exact h
  | cons kv rest ih =>
    obtain ⟨k2, v⟩ := kv
    intro d h
    have hstep : overlay d ((k2, v) :: rest) = overlay (dictSet d k2 v) rest := rfl
    rw [hstep]
    refine ih (dictSet d k2 v) ?_
    by_cases hk : k2 ∈ keysOf d
    · rw [dictSet_keys_present d k2 v hk]; exact h
    · rw [dictSet_keys_absent d k2 v hk]
      simp [List.nodup_append, h, hk]

theorem overlay_idem (d : JDict) (kvs : List (String × JVal))
    (hnd : (keysOf d).Nodup) :
    overlay (overlay d kvs) kvs = overlay d kvs := by
  refine dictExt _ _ ?_ ?_
    (overlay_nodup kvs (overlay d kvs) (overlay_nodup kvs d hnd))
  · refine overlay_keys_of_present kvs (overlay d kvs) ?_
    intro p hp
    have hs := lookupLast_isSome_of_mem kvs p.1 p.2 hp
    by_contra hmem
    have hnone : dictGet (overlay d kvs) p.1 = none :=
      (dictGet_none_iff _ _).mpr hmem
    rw [overlay_get] at hnone
    cases hl : lookupLast kvs p.1 with
    | none => rw [hl] at hs; simp at hs
    | some w =>
      rw [hl] at hnone
      have hred : (some w).or (dictGet d p.1) = some w := rfl
      rw [hred] at hnone
      simp at hnone
  · intro k
    rw [overlay_get, overlay_get]
    cases hl : lookupLast kvs k with
    | none => rfl
    | some w => rfl

theorem overlayKept_eq (pred : String → Bool) (src : List (String × JVal)) :
    ∀ (dst : JDict),
      overlayKept pred dst src = overlay dst (src.filter (fun kv => pred kv.1)) := by
  induction src with
  | nil => intro dst; rfl
  | cons kv rest ih =>
    obtain ⟨k2, v⟩ := kv
    intro dst
    have hstep : overlayKept pred dst ((k2, v) :: rest) =
        overlayKept pred (if pred k2 then dictSet dst k2 v else dst) rest := rfl
    rw [hstep]
    by_cases hp : pred k2
    · rw [if_pos hp, ih]
      have : List.filter (fun kv => pred kv.1) ((k2, v) :: rest) =
          (k2, v) :: List.filter (fun kv => pred kv.1) rest := by
        rw [List.filter_cons, if_pos hp]
      rw [this]
      rfl
    · rw [if_neg hp, ih]
      have : List.filter (fun kv => pred kv.1) ((k2, v) :: rest) =
          List.filter (fun kv => pred kv.1) rest := by
        rw [List.filter_cons, if_neg hp]
      rw [this]

theorem overlayKept_idem (pred : String → Bool) (dst src : JDict)
    (hnd : (keysOf dst).Nodup) :
    overlayKept pred (overlayKept pred dst src) src =
      overlayKept pred dst src := by
  rw [overlayKept_eq, overlayKept_eq, overlay_idem _ _ hnd]

theorem filterMap_id_of_mem {α : Type} (f : α → Option α) :
    ∀ (l : List α), (∀ b ∈ l, f b = some b) → l.filterMap f = l := by
  intro l
  induction l with
  | nil => intro _; rfl
  | cons a rest ih =>
    intro h
    rw [List.filterMap_cons, h a (List.mem_cons_self a rest),
      ih (fun b hb => h b (List.mem_cons_of_mem a hb))]

theorem dictGet_setIfList_ne (r : JDict) (k2 k : String) (v : Option JVal)
    (h : k ≠ k2) : dictGet (setIfList r k2 v) k = dictGet r k := by
  unfold setIfList
  rcases v with _ | jv
  · rfl
  · cases jv <;> first
      | rfl
      | exact dictGet_dictSet_ne r k2 k _ h

theorem setIfList_id (r : JDict) (k : String) (v : Option JVal)
    (h : ∀ xs, v = some (.vlist xs) → dictGet r k = some (.vlist xs)) :
    setIfList r k v = r := by
  unfold setIfList
  rcases v with _ | jv
  · rfl
  · cases jv <;> first
      | rfl
      | exact dictSet_get_self r k _ (h _ rfl)

theorem applyVecKeys_get (mr r : JDict) (k : String) (xs : List JVal)
    (hk : k = "stop_municipality_links" ∨ k = "province_vector" ∨
      k = "province_capital_vector" ∨ k = "municipality_vector")
    (h : dictGet mr k = some (.vlist xs)) :
    dictGet (applyVecKeys mr r) k = some (.vlist xs) := by
  unfold applyVecKeys
  rcases hk with hk | hk | hk | hk
  all_goals subst hk
  · rw [dictGet_setIfList_ne _ _ _ _ (by decide),
      dictGet_setIfList_ne _ _ _ _ (by decide),
      dictGet_setIfList_ne _ _ _ _ (by decide), h]
    exact dictGet_dictSet_self r _ _
  · rw [dictGet_setIfList_ne _ _ _ _ (by decide),
      dictGet_setIfList_ne _ _ _ _ (by decide), h]
    exact dictGet_dictSet_self _ _ _
  · rw [dictGet_setIfList_ne _ _ _ _ (by decide), h]
    exact dictGet_dictSet_self _ _ _
  · rw [h]
    exact dictGet_dictSet_self _ _ _

theorem applyVecKeys_id (mr R : JDict)
    (h : ∀ k, (k = "stop_municipality_links" ∨ k = "province_vector" ∨
        k = "province_capital_vector" ∨ k = "municipality_vector") →
      ∀ xs, dictGet mr k = some (.vlist xs) →
        dictGet R k = some (.vlist xs)) :
    applyVecKeys mr R = R := by
  unfold applyVecKeys
  rw [setIfList_id R "stop_municipality_links" _
      (fun xs hx => h _ (Or.inl rfl) xs hx),
    setIfList_id R "province_vector" _
      (fun xs hx => h _ (Or.inr (Or.inl rfl)) xs hx),
    setIfList_id R "province_capital_vector" _
      (fun xs hx => h _ (Or.inr (Or.inr (Or.inl rfl))) xs hx),
    setIfList_id R "municipality_vector" _
      (fun xs hx => h _ (Or.inr (Or.inr (Or.inr rfl))) xs hx)]

theorem mergeSegment_idem (byIdx : List (ℤ × JDict)) (s t : JVal)
    (h : mergeSegment byIdx s = some t) : mergeSegment byIdx t = some t := by
  cases s with
  | vdict es =>
    rw [mergeSegment] at h
    cases hint : asIntInstance (dictGetD es "segment_index" .vnull) with
    | none =>
      rw [hint] at h
      injection h with h
      subst h
      rw [mergeSegment, hint]
    | some n =>
      rw [hint] at h
      dsimp only at h
      cases hms : lookupLastIdx byIdx n with
      | none =>
        rw [hms] at h
        injection h with h
        subst h
        rw [mergeSegment, hint]
        dsimp only
        rw [hms]
      | some ms =>
        rw [hms] at h
        injection h with h
        subst h
        rw [mergeSegment]
        have hidx : dictGetD (dictSet (dictSet (dictSet (dictSet es
            "municipality_trace" (dictGetD ms "municipality_trace" (.vlist [])))
            "municipality_names" (dictGetD ms "municipality_names" (.vlist [])))
            "province_names" (dictGetD ms "province_names" (.vlist [])))
            "province_capital_names"
              (dictGetD ms "province_capital_names" (.vlist [])))
            "segment_index" .vnull = dictGetD es "segment_index" .vnull := by
          unfold dictGetD
          rw [dictGet_dictSet_ne _ _ _ _ (by decide),
            dictGet_dictSet_ne _ _ _ _ (by decide),
            dictGet_dictSet_ne _ _ _ _ (by decide),
            dictGet_dictSet_ne _ _ _ _ (by decide)]
        rw [hidx, hint]
        dsimp only
        rw [hms]
        dsimp only
        congr 2
        set D := dictSet (dictSet (dictSet (dictSet es
          "municipality_trace" (dictGetD ms "municipality_trace" (.vlist [])))
          "municipality_names" (dictGetD ms "municipality_names" (.vlist [])))
          "province_names" (dictGetD ms "province_names" (.vlist [])))
          "province_capital_names"
            (dictGetD ms "province_capital_names" (.vlist [])) with hD
        have g1 : dictGet D "municipality_trace" =
            some (dictGetD ms "municipality_trace" (.vlist [])) := by
          rw [hD, dictGet_dictSet_ne _ _ _ _ (by decide),
            dictGet_dictSet_ne _ _ _ _ (by decide),
            dictGet_dictSet_ne _ _ _ _ (by decide), dictGet_dictSet_self]
        have g2 : dictGet D "municipality_names" =
            some (dictGetD ms "municipality_names" (.vlist [])) := by
          rw [hD, dictGet_dictSet_ne _ _ _ _ (by decide),
            dictGet_dictSet_ne _ _ _ _ (by decide), dictGet_dictSet_self]
        have g3 : dictGet D "province_names" =
            some (dictGetD ms "province_names" (.vlist [])) := by
          rw [hD, dictGet_dictSet_ne _ _ _ _ (by decide), dictGet_dictSet_self]
        have g4 : dictGet D "province_capital_names" =
            some (dictGetD ms "province_capital_names" (.vlist [])) := by
          rw [hD, dictGet_dictSet_self]
        rw [dictSet_get_self _ _ _ g1, dictSet_get_self _ _ _ g2,
          dictSet_get_self _ _ _ g3, dictSet_get_self _ _ _ g4]
  | vnull => exact Option.noConfusion h
  | vbool b => exact Option.noConfusion h
  | vint n => exact Option.noConfusion h
  | vnum q => exact Option.noConfusion h
  | vstr s2 => exact Option.noConfusion h
  | vlist xs => exact Option.noConfusion h

theorem dictGet_applyVecKeys_ne (mr r : JDict) (k : String)
    (h1 : k ≠ "stop_municipality_links") (h2 : k ≠ "province_vector")
    (h3 : k ≠ "province_capital_vector") (h4 : k ≠ "municipality_vector") :
    dictGet (applyVecKeys mr r) k = dictGet r k := by
  unfold applyVecKeys
  rw [dictGet_setIfList_ne _ _ _ _ h4, dictGet_setIfList_ne _ _ _ _ h3,
    dictGet_setIfList_ne _ _ _ _ h2, dictGet_setIfList_ne _ _ _ _ h1]

theorem mergeOneRoute_idem (muniRoutes : List JVal) (e e2 : JDict)
    (h : mergeOneRoute muniRoutes e = some e2) :
    mergeOneRoute muniRoutes e2 = some e2 := by
  rw [mergeOneRoute] at h
  cases hlr : lookupLastRoute muniRoutes (pyStr (dictGetD e "vehicle" .vnull)) with
  | none =>
    rw [hlr] at h
    injection h with h
    subst h
    rw [mergeOneRoute, hlr]
  | some mr =>
    rw [hlr] at h
    dsimp only at h
    cases hsi : segIndexEntries (asList (dictGet mr "segment_context")) with
    | none =>
      rw [hsi] at h
      exact Option.noConfusion h
    | some byIdx =>
      rw [hsi] at h
      dsimp only at h
      injection h with h
      set msegs := (asList (dictGet e "segment_context")).filterMap
        (mergeSegment byIdx) with hmsegs
      have hveh : dictGet e2 "vehicle" = dictGet e "vehicle" := by
        rw [← h]
        split
        · exact dictGet_applyVecKeys_ne mr e "vehicle" (by decide) (by decide)
            (by decide) (by decide)
        · rw [dictGet_dictSet_ne _ _ _ _ (by decide)]
          exact dictGet_applyVecKeys_ne mr e "vehicle" (by decide) (by decide)
            (by decide) (by decide)
      have hvehD : pyStr (dictGetD e2 "vehicle" .vnull) =
          pyStr (dictGetD e "vehicle" .vnull) := by
        unfold dictGetD
        rw [hveh]
      rw [mergeOneRoute, hvehD, hlr]
      dsimp only
      rw [hsi]
      dsimp only
      by_cases hE : msegs.isEmpty
      · rw [if_pos hE] at h
        have hseg2 : dictGet e2 "segment_context" = dictGet e "segment_context" := by
          rw [← h]
          exact dictGet_applyVecKeys_ne mr e _ (by decide) (by decide)
            (by decide) (by decide)
        rw [hseg2, ← hmsegs, if_pos hE]
        congr 1
        rw [← h]
        exact applyVecKeys_id mr (applyVecKeys mr e)
          (fun k hk xs hx => applyVecKeys_get mr e k xs hk hx)
      · rw [if_neg hE] at h
        have hseg2 : dictGet e2 "segment_context" = some (.vlist msegs) := by
          rw [← h, dictGet_dictSet_self]
        rw [hseg2]
        have hAs : asList (some (.vlist msegs)) = msegs := rfl
        rw [hAs]
        have hidem : msegs.filterMap (mergeSegment byIdx) = msegs := by
          refine filterMap_id_of_mem _ msegs ?_
          intro b hb
          rw [hmsegs] at hb
          obtain ⟨a, ha, hab⟩ := List.mem_filterMap.mp hb
          exact mergeSegment_idem byIdx a b hab
        rw [hidem, if_neg hE]
        congr 1
        have hvec : applyVecKeys mr e2 = e2 := by
          refine applyVecKeys_id mr e2 ?_
          intro k hk xs hx
          have hkk : dictGet e2 k = dictGet (applyVecKeys mr e) k := by
            rw [← h, dictGet_dictSet_ne _ _ _ _ ?_]
            rcases hk with hk | hk | hk | hk <;> subst hk <;> decide
          rw [hkk]
          exact applyVecKeys_get mr e k xs hk hx
        rw [hvec]
        exact dictSet_get_self e2 _ _ hseg2

theorem mergeRoutes_idem (muniRoutes : List JVal) :
    ∀ (l mrs : List JVal), mergeRoutes muniRoutes l = some mrs →
      mergeRoutes muniRoutes mrs = some mrs := by
  intro l
  induction l with
  | nil =>
    intro mrs h
    rw [mergeRoutes] at h
    injection h with h
    subst h
    rfl
  | cons r rest ih =>
    intro mrs h
    cases r with
    | vdict e =>
      rw [mergeRoutes] at h
      cases hmo : mergeOneRoute muniRoutes e with
      | none =>
        rw [hmo] at h
        exact Option.noConfusion h
      | some e2 =>
        rw [hmo] at h
        dsimp only at h
        cases hrest : mergeRoutes muniRoutes rest with
        | none =>
          rw [hrest] at h
          exact Option.noConfusion h
        | some mrs2 =>
          rw [hrest] at h
          dsimp only [Option.map] at h
          injection h with h
          subst h
          rw [mergeRoutes, mergeOneRoute_idem muniRoutes e e2 hmo]
          dsimp only
          rw [ih mrs2 hrest]
          rfl
    | vnull => exact ih mrs h
    | vbool b => exact ih mrs h
    | vint n => exact ih mrs h
    | vnum q => exact ih mrs h
    | vstr s2 => exact ih mrs h
    | vlist xs => exact ih mrs h

theorem copyKeys_step (k : String) (rest : List String) (muni m : JDict) :
    copyKeys (k :: rest) muni m =
      copyKeys rest muni
        (match dictGet muni k with
         | some v => dictSet m k v
         | none => m) := rfl

theorem copyKeys_get_notmem (keys : List String) (muni : JDict) :
    ∀ (m : JDict) (k : String), k ∉ keys →
      dictGet (copyKeys keys muni m) k = dictGet m k := by
  induction keys with
  | nil => intro m k _; rfl
  | cons k2 rest ih =>
    intro m k hk
    simp only [List.mem_cons] at hk
    push_neg at hk
    rw [copyKeys_step, ih _ k hk.2]
    cases dictGet muni k2 with
    | none => rfl
    | some v => exact dictGet_dictSet_ne m k2 k v hk.1

theorem copyKeys_get_mem (keys : List String) (muni : JDict) :
    ∀ (m : JDict) (k : String) (v : JVal), keys.Nodup → k ∈ keys →
      dictGet muni k = some v →
      dictGet (copyKeys keys muni m) k = some v := by
  induction keys with
  | nil => intro m k v _ hk _; simp at hk
  | cons k2 rest ih =>
    intro m k v hnd hk hmu
    rw [List.nodup_cons] at hnd
    rw [copyKeys_step]
    rcases List.mem_cons.mp hk with hk | hk
    · subst hk
      rw [copyKeys_get_notmem rest muni _ k hnd.1, hmu]
      exact dictGet_dictSet_self m k v
    · exact ih _ k v hnd.2 hk hmu

theorem copyKeys_id (keys : List String) (muni : JDict) :
    ∀ (m : JDict), (∀ k ∈ keys, ∀ v, dictGet muni k = some v →
      dictGet m k = some v) → copyKeys keys muni m = m := by
  induction keys with
  | nil => intro m _; rfl
  | cons k2 rest ih =>
    intro m h
    rw [copyKeys_step]
    cases hmu : dictGet muni k2 with
    | none => exact ih m (fun k hk v hv => h k (List.mem_cons_of_mem _ hk) v hv)
    | some v =>
      dsimp only
      rw [dictSet_get_self m k2 v (h k2 (List.mem_cons_self _ _) v hmu)]
      exact ih m (fun k hk v2 hv => h k (List.mem_cons_of_mem _ hk) v2 hv)

theorem setIfNonEmpty_get_self (m : JDict) (k : String) (d : JDict) :
    dictGet (setIfNonEmpty m k d) k =
      if d.isEmpty then dictGet m k else some (.vdict d) := by
  unfold setIfNonEmpty
  split
  · rfl
  · exact dictGet_dictSet_self m k (.vdict d)

theorem setIfNonEmpty_get_ne (m : JDict) (k : String) (d : JDict)
    (k2 : String) (h : k2 ≠ k) :
    dictGet (setIfNonEmpty m k d) k2 = dictGet m k2 := by
  unfold setIfNonEmpty
  split
  · rfl
  · exact dictGet_dictSet_ne m k k2 _ h

theorem mergePrefix_get_errors (base muni : JDict) :
    dictGet (mergePrefix base muni) "errors" =
      some (.vlist ((asList (dictGet base "errors") ++
        asList (dictGet muni "errors")).take 40)) := by
  unfold mergePrefix
  exact dictGet_dictSet_self _ _ _

theorem mergePrefix_get_generated (base muni : JDict) :
    dictGet (mergePrefix base muni) "generated_at_utc" =
      some (getWithFallback muni base "generated_at_utc") := by
  unfold mergePrefix
  rw [dictGet_dictSet_ne _ _ _ _ (by decide)]
  exact dictGet_dictSet_self _ _ _

theorem mergePrefix_get_version (base muni : JDict) :
    dictGet (mergePrefix base muni) "version" =
      some (getWithFallback muni base "version") := by
  unfold mergePrefix
  rw [dictGet_dictSet_ne _ _ _ _ (by decide),
    dictGet_dictSet_ne _ _ _ _ (by decide)]
  exact dictGet_dictSet_self _ _ _

theorem mergePrefix_get_config (base muni : JDict) :
    dictGet (mergePrefix base muni) "config" =
      if (mergedConfigOf base muni).isEmpty then dictGet base "config"
      else some (.vdict (mergedConfigOf base muni)) := by
  unfold mergePrefix
  rw [dictGet_dictSet_ne _ _ _ _ (by decide),
    dictGet_dictSet_ne _ _ _ _ (by decide),
    dictGet_dictSet_ne _ _ _ _ (by decide),
    copyKeys_get_notmem _ _ _ _ (by decide),
    setIfNonEmpty_get_ne _ _ _ _ (by decide),
    setIfNonEmpty_get_self]

theorem mergePrefix_get_summary (base muni : JDict) :
    dictGet (mergePrefix base muni) "summary" =
      if (mergedSummaryOf base muni).isEmpty then dictGet base "summary"
      else some (.vdict (mergedSummaryOf base muni)) := by
  unfold mergePrefix
  rw [dictGet_dictSet_ne _ _ _ _ (by decide),
    dictGet_dictSet_ne _ _ _ _ (by decide),
    dictGet_dictSet_ne _ _ _ _ (by decide),
    copyKeys_get_notmem _ _ _ _ (by decide),
    setIfNonEmpty_get_self]
  split
  · rw [setIfNonEmpty_get_ne _ _ _ _ (by decide)]
  · rfl

theorem mergePrefix_get_routes (base muni : JDict) :
    dictGet (mergePrefix base muni) "routes" = dictGet base "routes" := by
  unfold mergePrefix
  rw [dictGet_dictSet_ne _ _ _ _ (by decide),
    dictGet_dictSet_ne _ _ _ _ (by decide),
    dictGet_dictSet_ne _ _ _ _ (by decide),
    copyKeys_get_notmem _ _ _ _ (by decide),
    setIfNonEmpty_get_ne _ _ _ _ (by decide),
    setIfNonEmpty_get_ne _ _ _ _ (by decide)]

theorem mergePrefix_get_copied (base muni : JDict) (k : String)
    (hk : k ∈ muniCopiedKeys) (v : JVal) (hmu : dictGet muni k = some v) :
    dictGet (mergePrefix base muni) k = some v := by
  unfold mergePrefix
  rw [dictGet_dictSet_ne _ _ _ _ (by fin_cases hk <;> decide),
    dictGet_dictSet_ne _ _ _ _ (by fin_cases hk <;> decide),
    dictGet_dictSet_ne _ _ _ _ (by fin_cases hk <;> decide)]
  exact copyKeys_get_mem _ _ _ _ _ (by decide) hk hmu

theorem getWithFallback_eq (muni M1 base : JDict) (k : String)
    (hM : dictGet M1 k = some (getWithFallback muni base k)) :
    getWithFallback muni M1 k = getWithFallback muni base k := by
  unfold getWithFallback at hM ⊢
  cases hmu : dictGet muni k with
  | some v => rfl
  | none =>
    rw [hmu] at hM
    dsimp only at hM
    unfold dictGetD
    rw [hM]
    rfl

theorem configStep_self (base muni M1 : JDict)
    (hnc : (keysOf (asDict (dictGet base "config"))).Nodup)
    (hM : dictGet M1 "config" = dictGet (mergePrefix base muni) "config") :
    setIfNonEmpty M1 "config" (mergedConfigOf M1 muni) = M1 := by
  rw [mergePrefix_get_config] at hM
  by_cases hE : (mergedConfigOf base muni).isEmpty
  · rw [if_pos hE] at hM
    have hcm : mergedConfigOf M1 muni = mergedConfigOf base muni := by
      unfold mergedConfigOf
      rw [hM]
    unfold setIfNonEmpty
    rw [hcm, if_pos hE]
  · rw [if_neg hE] at hM
    have hcm : mergedConfigOf M1 muni = mergedConfigOf base muni := by
      unfold mergedConfigOf
      rw [hM]
      show overlayKept configKeyKept (mergedConfigOf base muni)
        (asDict (dictGet muni "config")) = mergedConfigOf base muni
      unfold mergedConfigOf
      exact overlayKept_idem _ _ _ hnc
    unfold setIfNonEmpty
    rw [hcm, if_neg hE, dictSet_get_self _ _ _ hM]

theorem summaryStep_self (base muni M1 : JDict)
    (hns : (keysOf (asDict (dictGet base "summary"))).Nodup)
    (hM : dictGet M1 "summary" = dictGet (mergePrefix base muni) "summary") :
    setIfNonEmpty M1 "summary" (mergedSummaryOf M1 muni) = M1 := by
  rw [mergePrefix_get_summary] at hM
  by_cases hE : (mergedSummaryOf base muni).isEmpty
  · rw [if_pos hE] at hM
    have hcm : mergedSummaryOf M1 muni = mergedSummaryOf base muni := by
      unfold mergedSummaryOf
      rw [hM]
    unfold setIfNonEmpty
    rw [hcm, if_pos hE]
  · rw [if_neg hE] at hM
    have hcm : mergedSummaryOf M1 muni = mergedSummaryOf base muni := by
      unfold mergedSummaryOf
      rw [hM]
      show overlayKept summaryKeyKept (mergedSummaryOf base muni)
        (asDict (dictGet muni "summary")) = mergedSummaryOf base muni
      unfold mergedSummaryOf
      exact overlayKept_idem _ _ _ hns
    unfold setIfNonEmpty
    rw [hcm, if_neg hE, dictSet_get_self _ _ _ hM]

theorem mergePrefix_eq_setErrors (muni M1 : JDict)
    (hc : setIfNonEmpty M1 "config" (mergedConfigOf M1 muni) = M1)
    (hs : setIfNonEmpty M1 "summary" (mergedSummaryOf M1 muni) = M1)
    (hcopy : ∀ k ∈ muniCopiedKeys, ∀ v, dictGet muni k = some v →
      dictGet M1 k = some v)
    (hv : dictGet M1 "version" = some (getWithFallback muni M1 "version"))
    (hg : dictGet M1 "generated_at_utc" =
      some (getWithFallback muni M1 "generated_at_utc")) :
    mergePrefix M1 muni = dictSet M1 "errors" (.vlist
      ((asList (dictGet M1 "errors") ++
        asList (dictGet muni "errors")).take 40)) := by
  unfold mergePrefix
  rw [hc, hs, copyKeys_id _ _ _ hcopy, dictSet_get_self _ _ _ hv,
    dictSet_get_self _ _ _ hg]

/-- C9, counterexample: with an empty base layer and a municipality layer
carrying one error, applying the merge a second time duplicates the error
entry: the merge is not idempotent. -/
theorem claim9_counterexample :
    (mergeMunicipalitySemantic [] [("errors", .vlist [.vstr "e"])]).bind
        (fun m1 =>
          mergeMunicipalitySemantic m1 [("errors", .vlist [.vstr "e"])]) ≠
      mergeMunicipalitySemantic [] [("errors", .vlist [.vstr "e"])] := by
  with_unfolding_all decide

/-- C9, amended: the merge is idempotent except in `errors`: when a first
merge of the municipality pass into the base succeeds with result `M1`
(Python dicts have unique keys, whence the two `Nodup` hypotheses), merging
the same municipality pass into `M1` succeeds and returns `M1` with only its
`errors` replaced by the re-concatenation `(M1.errors + muni.errors)[:40]` —
so the errors do change on the second application whenever the municipality
pass carries any error. -/
theorem claim9_merge_second_application (base muni M1 : JDict)
    (hnc : (keysOf (asDict (dictGet base "config"))).Nodup)
    (hns : (keysOf (asDict (dictGet base "summary"))).Nodup)
    (h1 : mergeMunicipalitySemantic base muni = some M1) :
    mergeMunicipalitySemantic M1 muni =
      some (dictSet M1 "errors" (.vlist
        ((asList (dictGet M1 "errors") ++
          asList (dictGet muni "errors")).take 40))) := by
  unfold mergeMunicipalitySemantic at h1
  cases hmr : mergeRoutes (asList (dictGet muni "routes"))
      (asList (dictGet base "routes")) with
  | none =>
    rw [hmr] at h1
    exact Option.noConfusion h1
  | some mrs =>
    rw [hmr] at h1
    dsimp only at h1
    injection h1 with h1
    by_cases hE : mrs.isEmpty
    · rw [if_pos hE] at h1
      have hget : ∀ k, dictGet M1 k = dictGet (mergePrefix base muni) k := by
        intro k
        rw [← h1]
      have hroutes : dictGet M1 "routes" = dictGet base "routes" := by
        rw [hget, mergePrefix_get_routes]
      unfold mergeMunicipalitySemantic
      rw [hroutes, hmr]
      dsimp only
      rw [if_pos hE]
      congr 1
      refine mergePrefix_eq_setErrors muni M1 ?_ ?_ ?_ ?_ ?_
      · exact configStep_self base muni M1 hnc (hget "config")
      · exact summaryStep_self base muni M1 hns (hget "summary")
      · intro k hk v hmu
        rw [hget k]
        exact mergePrefix_get_copied base muni k hk v hmu
      · have h0 : dictGet M1 "version" =
            some (getWithFallback muni base "version") := by
          rw [hget]
          exact mergePrefix_get_version base muni
        rw [getWithFallback_eq muni M1 base "version" h0]
        exact h0
      · have h0 : dictGet M1 "generated_at_utc" =
            some (getWithFallback muni base "generated_at_utc") := by
          rw [hget]
          exact mergePrefix_get_generated base muni
        rw [getWithFallback_eq muni M1 base "generated_at_utc" h0]
        exact h0
    · rw [if_neg hE] at h1
      have hget : ∀ k, k ≠ "routes" →
          dictGet M1 k = dictGet (mergePrefix base muni) k := by
        intro k hk
        rw [← h1, dictGet_dictSet_ne _ _ _ _ hk]
      have hroutes : dictGet M1 "routes" = some (.vlist mrs) := by
        rw [← h1]
        exact dictGet_dictSet_self _ _ _
      unfold mergeMunicipalitySemantic
      rw [hroutes]
      have hAs : asList (some (.vlist mrs)) = mrs := rfl
      rw [hAs, mergeRoutes_idem _ _ mrs hmr]
      dsimp only
      rw [if_neg hE]
      congr 1
      have hpfx := mergePrefix_eq_setErrors muni M1
        (configStep_self base muni M1 hnc (hget "config" (by decide)))
        (summaryStep_self base muni M1 hns (hget "summary" (by decide)))
        (fun k hk v hmu => by
          rw [hget k (by fin_cases hk <;> decide)]
          exact mergePrefix_get_copied base muni k hk v hmu)
        (by
          have h0 : dictGet M1 "version" =
              some (getWithFallback muni base "version") := by
            rw [hget "version" (by decide)]
            exact mergePrefix_get_version base muni
          rw [getWithFallback_eq muni M1 base "version" h0]
          exact h0)
        (by
          have h0 : dictGet M1 "generated_at_utc" =
              some (getWithFallback muni base "generated_at_utc") := by
            rw [hget "generated_at_utc" (by decide)]
            exact mergePrefix_get_generated base muni
          rw [getWithFallback_eq muni M1 base "generated_at_utc" h0]
          exact h0)
      rw [hpfx]
      refine dictSet_get_self _ _ _ ?_
      rw [dictGet_dictSet_ne _ _ _ _ (by decide), hroutes]

/-- C9, witness: the amended theorem at an empty base and a one-error
municipality pass: the second application re-appends the error. -/
theorem claim9_witness :
    mergeMunicipalitySemantic
        [("version", .vnull), ("generated_at_utc", .vnull),
         ("errors", .vlist [.vstr "e"])]
        [("errors", .vlist [.vstr "e"])] =
      some (dictSet
        [("version", .vnull), ("generated_at_utc", .vnull),
         ("errors", .vlist [.vstr "e"])] "errors"
        (.vlist ((asList (dictGet
            [("version", .vnull), ("generated_at_utc", .vnull),
             ("errors", .vlist [.vstr "e"])] "errors") ++
          asList (dictGet [("errors", .vlist [.vstr "e"])] "errors")).take
            40))) :=
  claim9_merge_second_application [] [("errors", .vlist [.vstr "e"])]
    [("version", .vnull), ("generated_at_utc", .vnull),
     ("errors", .vlist [.vstr "e"])]
    (by with_unfolding_all decide) (by with_unfolding_all decide)
    (by with_unfolding_all decide)

/-! ## The VRP solver (`solve_vrp_nearest_neighbor`, `_build_clarke_wright_routes`)

A customer dict is modelled by its `id` and optional `demand` (other fields
only feed the distance matrix, which is a parameter here: the haversine and
OSRM matrices of `_build_distance_matrix_km_with_meta` are abstracted as a
function of the points list returning the matrix and its infinity mask).
Clarke-Wright routes are modelled by the sequence of customer node indices
between the two depot visits: a route's edge list always starts at the depot
when a merge begins, the removed depot edge and conditional `reverse()` of
the source orient the `i` path to end at `i` (a reversal exactly when `i` is
the first customer) and the `j` path to start at `j`, and the appended edges
re-read give the concatenated path. -/

structure Cust where
  id : String
  demand : Option ℚ
deriving DecidableEq

/-- `float(customer.get("demand", 1))`: the demand used for eligibility and
route loads. -/
def demandCW (c : Cust) : ℚ := c.demand.getD 1

/-- `float(stop.get("demand", 0))`: the demand used for the `used` sums. -/
def demandUsed (c : Cust) : ℚ := c.demand.getD 0

/-- One Clarke-Wright route: its customer path and the tracked `demand` and
`cost` accumulators of the `Route` object. -/
structure CWRoute where
  path : List ℕ
  dem : ℚ
  cost : ℚ
deriving DecidableEq

/-- The merge-loop state: the route list and the customers whose
`is_interior` flag has been set. -/
structure CWState where
  routes : List CWRoute
  interior : List ℕ
deriving DecidableEq

/-- `node.in_route` resolved through the route list (each customer node sits
in exactly one route). -/
def findRouteIdx (routes : List CWRoute) (c : ℕ) : Option ℕ :=
  match routes with
  | [] => none
  | r :: rest =>
      if r.path.contains c then some 0 else (findRouteIdx rest c).map (· + 1)

/-- The cost of the edges `c1 → c2 → … → ck → depot`. -/
def chainCost (M : ℕ → ℕ → ℚ) : List ℕ → ℚ
  | [] => 0
  | [c] => M c 0
  | c1 :: c2 :: rest => M c1 c2 + chainCost M (c2 :: rest)

/-- One iteration of the `while savings_list` loop for the popped edge
`(i, j)`: the checks of `_check_merging_conditions` and the merge itself. -/
def mergeStep (M : ℕ → ℕ → ℚ) (dIdx : ℕ → ℚ) (cap : ℚ) (st : CWState)
    (ij : ℕ × ℕ) : CWState :=
  match findRouteIdx st.routes ij.1, findRouteIdx st.routes ij.2 with
  | some ii, some ji =>
      if ii = ji then st
      else if st.interior.contains ij.1 || st.interior.contains ij.2 then st
      else
        let pi := st.routes.getD ii ⟨[], 0, 0⟩
        let pj := st.routes.getD ji ⟨[], 0, 0⟩
        if cap < pi.dem + pj.dem then st
        else
          let pi2 := if pi.path.head? = some ij.1 then pi.path.reverse
            else pi.path
          let pj2 := if pj.path.head? = some ij.2 then pj.path
            else pj.path.reverse
          let iEdgeCost := if pi.path.head? = some ij.1 then
            M 0 (pi.path.headD 0) else M (pi.path.getLastD 0) 0
          let merged : CWRoute :=
            { path := pi2 ++ pj2
              dem := pi.dem + dIdx ij.2 + ((pj2.drop 1).map dIdx).sum
              cost := pi.cost - iEdgeCost + M ij.1 ij.2 + chainCost M pj2 }
          { routes := (st.routes.set ii merged).eraseIdx ji
            interior :=
              (if 2 ≤ pi.path.length then [ij.1] else []) ++
              (if 2 ≤ pj.path.length then [ij.2] else []) ++ st.interior }
  | _, _ => st

/-- The initial one-customer routes (`for node in nodes[1:]`). -/
def initCWState (n : ℕ) (dIdx : ℕ → ℚ) (M : ℕ → ℕ → ℚ) : CWState :=
  { routes := (List.range' 1 n).map (fun c =>
      { path := [c], dem := dIdx c, cost := M 0 c + M c 0 })
    interior := [] }

/-- `edge.savings` of the ordered pair `(i, j)`. -/
def savingsOf (M : ℕ → ℕ → ℚ) (p : ℕ × ℕ) : ℚ :=
  M p.1 0 + M 0 p.2 - M p.1 p.2

/-- The double loop collecting `(i_node, j_node)` and `(j_node, i_node)`. -/
def rawPairs (n : ℕ) : List (ℕ × ℕ) :=
  (List.range' 1 (n - 1)).flatMap (fun i =>
    (List.range' (i + 1) (n - i)).flatMap (fun j => [(i, j), (j, i)]))

/-- `savings_list.sort(key=..., reverse=True)`: stable, savings descending. -/
def savingsPairs (n : ℕ) (M : ℕ → ℕ → ℚ) : List (ℕ × ℕ) :=
  (rawPairs n).mergeSort (fun a b => decide (savingsOf M b ≤ savingsOf M a))

/-- `_build_clarke_wright_routes` (returned route list). -/
def buildClarkeWrightRoutes (n : ℕ) (dIdx : ℕ → ℚ) (M : ℕ → ℕ → ℚ)
    (cap : ℚ) : List CWRoute :=
  ((savingsPairs n M).foldl (mergeStep M dIdx cap) (initCWState n dIdx M)).routes

/-- The selection sort key `(-customer_count, -demand, cost)`, as a total
Boolean order for the stable sort. -/
def routeKeyLE (a b : CWRoute) : Bool :=
  decide (b.path.length < a.path.length) ||
    (a.path.length == b.path.length &&
      (decide (b.dem < a.dem) ||
        (a.dem == b.dem && decide (a.cost ≤ b.cost))))

/-- `selected_routes`: all routes, or the best `vehicles` under the key. -/
def selectRoutes (vehicles : ℕ) (l : List CWRoute) : List CWRoute :=
  if vehicles < l.length then (l.mergeSort routeKeyLE).take vehicles else l

/-- One emitted route record (the fields the claims read). -/
structure OutRoute where
  vehicle : ℕ
  used : ℚ
  stopIds : List String
  servedIds : List String
deriving DecidableEq

/-- `int(used) if float(used).is_integer() else round(used, 3)`. -/
def emitUsed (u : ℚ) : ℚ := if u.den = 1 then u else pyRound 3 u

/-- The `for vehicle_id in range(vehicles)` output loop. -/
def outputRoutes (depotId : String) (idOf : ℕ → String) (dUsedIdx : ℕ → ℚ)
    (vehicles : ℕ) (selected : List CWRoute) : List OutRoute :=
  (List.range vehicles).map (fun v =>
    if v < selected.length then
      let r := selected.getD v ⟨[], 0, 0⟩
      let stops := depotId :: r.path.map idOf ++ [depotId]
      { vehicle := v + 1
        used := emitUsed ((r.path.map dUsedIdx).sum)
        stopIds := stops
        servedIds := stops.filter (fun s => s ≠ depotId) }
    else
      { vehicle := v + 1, used := 0, stopIds := [depotId, depotId],
        servedIds := [] })

/-- The final response (the fields the claims read). -/
structure SolveResult where
  routes : List OutRoute
  unservedIds : List String
  summaryVehicles : ℕ
  summaryCustomers : ℕ
  summaryServed : ℕ
  summaryUnserved : ℕ
deriving DecidableEq

/-- `idx_by_id` built over a points list (a later duplicate id wins, as in a
Python dict comprehension). -/
def idxById (points : List Cust) (i : String) : ℕ :=
  (points.foldl (fun (acc : ℕ × ℕ) c =>
    (if c.id = i then acc.2 else acc.1, acc.2 + 1)) (0, 0)).1

/-- `eligible_customers`. -/
def eligibleOf (customers : List Cust) (capacity : ℕ) : List Cust :=
  customers.filter (fun c => decide (demandCW c ≤ (capacity : ℚ)))

/-- `reachable_customers`: eligible customers with finite row and column
entries against the depot in the first matrix. -/
def reachOf (depot : Cust) (customers : List Cust) (capacity : ℕ)
    (mat : List Cust → (ℕ → ℕ → ℚ) × (ℕ → ℕ → Bool)) : List Cust :=
  let eligible := eligibleOf customers capacity
  let points1 := depot :: eligible
  let inf1 := (mat points1).2
  eligible.filter (fun c =>
    !inf1 0 (idxById points1 c.id) && !inf1 (idxById points1 c.id) 0)

/-- The node id of a Clarke-Wright node index (0 = the depot). -/
def nodeIdOf (depot : Cust) (reach : List Cust) : ℕ → String
  | 0 => depot.id
  | k + 1 => (reach.getD k ⟨"", none⟩).id

/-- The node demand (`float(customer.get("demand", 1))`) by node index. -/
def nodeDemCW (reach : List Cust) : ℕ → ℚ
  | 0 => 0
  | k + 1 => demandCW (reach.getD k ⟨"", none⟩)

/-- The stop demand (`float(stop.get("demand", 0))`) by node index. -/
def nodeDemUsed (reach : List Cust) : ℕ → ℚ
  | 0 => 0
  | k + 1 => demandUsed (reach.getD k ⟨"", none⟩)

/-- The Clarke-Wright route list of the solve (`cw_routes`), with the node
matrix read through `idx_by_id` over the current points list. -/
def cwListOf (depot : Cust) (customers : List Cust) (capacity : ℕ)
    (mat : List Cust → (ℕ → ℕ → ℚ) × (ℕ → ℕ → Bool)) : List CWRoute :=
  let eligible := eligibleOf customers capacity
  let reach := reachOf depot customers capacity mat
  let points := if reach.length ≠ eligible.length then depot :: reach
    else depot :: eligible
  let M := (mat points).1
  let Mn : ℕ → ℕ → ℚ := fun a b =>
    M (idxById points (nodeIdOf depot reach a))
      (idxById points (nodeIdOf depot reach b))
  if reach.isEmpty then []
  else buildClarkeWrightRoutes reach.length (nodeDemCW reach) Mn
    (capacity : ℚ)

/-- `solve_vrp_nearest_neighbor`, to the fields the claims read. -/
def solveVRP (depot : Cust) (customers : List Cust)
    (vehicles capacity : ℕ)
    (mat : List Cust → (ℕ → ℕ → ℚ) × (ℕ → ℕ → Bool)) : SolveResult :=
  let reach := reachOf depot customers capacity mat
  let selected := selectRoutes vehicles (cwListOf depot customers capacity mat)
  let outs := outputRoutes depot.id (nodeIdOf depot reach)
    (nodeDemUsed reach) vehicles selected
  let servedSet := outs.flatMap (fun r => r.servedIds)
  let unserved := (customers.filter
    (fun c => !servedSet.contains c.id)).map (fun c => c.id)
  { routes := outs
    unservedIds := unserved
    summaryVehicles := vehicles
    summaryCustomers := customers.length
    summaryServed := customers.length - unserved.length
    summaryUnserved := unserved.length }

/-- The multiset of customers over all route paths. -/
def pathsMs (rs : List CWRoute) : Multiset ℕ :=
  (rs.map (fun r => (r.path : Multiset ℕ))).sum

theorem pathsMs_nil : pathsMs [] = 0 := rfl

theorem pathsMs_cons (r : CWRoute) (rs : List CWRoute) :
    pathsMs (r :: rs) = (r.path : Multiset ℕ) + pathsMs rs := by
  simp [pathsMs]

theorem findRouteIdx_lt (c : ℕ) :
    ∀ (l : List CWRoute) (i : ℕ), findRouteIdx l c = some i → i < l.length := by
  intro l
  induction l with
  | nil => intro i h; simp [findRouteIdx] at h
  | cons r rest ih =>
    intro i h
    rw [findRouteIdx] at h
    split at h
    · injection h with h
      rw [← h]
      simp
    · cases hf : findRouteIdx rest c with
      | none => rw [hf] at h; simp at h
      | some m =>
        rw [hf] at h
        dsimp only [Option.map] at h
        injection h with h
        have := ih m hf
        simp only [List.length_cons]
        omega

theorem pathsMs_set (x : CWRoute) :
    ∀ (l : List CWRoute) (i : ℕ) (h : i < l.length),
      pathsMs (l.set i x) + ((l.get ⟨i, h⟩).path : Multiset ℕ) =
        pathsMs l + (x.path : Multiset ℕ) := by
  intro l
  induction l with
  | nil => intro i h; simp at h
  | cons a t ih =>
    intro i h
    cases i with
    | zero =>
      rw [List.set_cons_zero, pathsMs_cons, pathsMs_cons]
      have : (a :: t).get ⟨0, h⟩ = a := rfl
      rw [this]
      abel
    | succ m =>
      rw [List.set_cons_succ, pathsMs_cons, pathsMs_cons]
      have hm : m < t.length := by simp only [List.length_cons] at h; omega
      have : (a :: t).get ⟨m + 1, h⟩ = t.get ⟨m, hm⟩ := rfl
      rw [this]
      have := ih m hm
      have goal : (a.path : Multiset ℕ) + pathsMs (t.set m x) +
          ((t.get ⟨m, hm⟩).path : Multiset ℕ) =
          (a.path : Multiset ℕ) + pathsMs t + (x.path : Multiset ℕ) := by
        rw [add_assoc, this, add_assoc]
      exact goal

theorem pathsMs_eraseIdx :
    ∀ (l : List CWRoute) (i : ℕ) (h : i < l.length),
      pathsMs (l.eraseIdx i) + ((l.get ⟨i, h⟩).path : Multiset ℕ) =
        pathsMs l := by
  intro l
  induction l with
  | nil => intro i h; simp at h
  | cons a t ih =>
    intro i h
    cases i with
    | zero =>
      rw [List.eraseIdx_cons_zero, pathsMs_cons]
      have : (a :: t).get ⟨0, h⟩ = a := rfl
      rw [this]
      abel
    | succ m =>
      rw [List.eraseIdx_cons_succ, pathsMs_cons, pathsMs_cons]
      have hm : m < t.length := by simp only [List.length_cons] at h; omega
      have : (a :: t).get ⟨m + 1, h⟩ = t.get ⟨m, hm⟩ := rfl
      rw [this, add_assoc, ih m hm]

/-- The merge-loop invariant: the route paths partition the customer indices
`1..n`, and no route is empty. -/
def CWInv (n : ℕ) (st : CWState) : Prop :=
  pathsMs st.routes = ((List.range' 1 n : List ℕ) : Multiset ℕ) ∧
  ∀ r ∈ st.routes, r.path ≠ []

theorem pathsMs_surgery (l : List CWRoute) (ii ji : ℕ) (x : CWRoute)
    (hii : ii < l.length) (hji : ji < l.length) (hne : ¬ii = ji)
    (hx : (x.path : Multiset ℕ) =
      ((l.get ⟨ii, hii⟩).path : Multiset ℕ) +
        ((l.get ⟨ji, hji⟩).path : Multiset ℕ)) :
    pathsMs ((l.set ii x).eraseIdx ji) = pathsMs l := by
  have hlen2 : ji < (l.set ii x).length := by
    rw [List.length_set]
    exact hji
  have e1 := pathsMs_eraseIdx (l.set ii x) ji hlen2
  have hgetji : (l.set ii x).get ⟨ji, hlen2⟩ = l.get ⟨ji, hji⟩ := by
    rw [List.get_eq_getElem, List.get_eq_getElem]
    exact List.getElem_set_ne hne _
  rw [hgetji] at e1
  have e2 := pathsMs_set x l ii hii
  have key : pathsMs ((l.set ii x).eraseIdx ji) +
      (((l.get ⟨ji, hji⟩).path : Multiset ℕ) +
        ((l.get ⟨ii, hii⟩).path : Multiset ℕ)) =
      pathsMs l +
      (((l.get ⟨ji, hji⟩).path : Multiset ℕ) +
        ((l.get ⟨ii, hii⟩).path : Multiset ℕ)) := by
    rw [← add_assoc, e1, e2, hx]
    abel
  exact add_right_cancel key

theorem mergeStep_inv (M : ℕ → ℕ → ℚ) (dIdx : ℕ → ℚ) (cap : ℚ) (n : ℕ)
    (st : CWState) (ij : ℕ × ℕ) (hinv : CWInv n st) :
    CWInv n (mergeStep M dIdx cap st ij) := by
  unfold mergeStep
  cases h1 : findRouteIdx st.routes ij.1 with
  | none => exact hinv
  | some ii =>
    cases h2 : findRouteIdx st.routes ij.2 with
    | none => exact hinv
    | some ji =>
      dsimp only
      split
      · exact hinv
      rename_i hne
      split
      · exact hinv
      split
      · exact hinv
      have hii : ii < st.routes.length := findRouteIdx_lt ij.1 st.routes ii h1
      have hji : ji < st.routes.length := findRouteIdx_lt ij.2 st.routes ji h2
      have hpiget : st.routes.getD ii ⟨[], 0, 0⟩ = st.routes.get ⟨ii, hii⟩ := by
        rw [List.getD_eq_getElem st.routes _ hii, List.get_eq_getElem]
      have hpjget : st.routes.getD ji ⟨[], 0, 0⟩ = st.routes.get ⟨ji, hji⟩ := by
        rw [List.getD_eq_getElem st.routes _ hji, List.get_eq_getElem]
      have hpine : (st.routes.getD ii ⟨[], 0, 0⟩).path ≠ [] := by
        rw [hpiget]
        rw [List.get_eq_getElem]
        exact hinv.2 _ (List.getElem_mem hii)
      constructor
      · refine Eq.trans (pathsMs_surgery st.routes ii ji _ hii hji hne ?_)
          hinv.1
        dsimp only
        rw [← Multiset.coe_add]
        have hcoe2 : ((if (st.routes.getD ii ⟨[], 0, 0⟩).path.head? =
              some ij.1 then (st.routes.getD ii ⟨[], 0, 0⟩).path.reverse
            else (st.routes.getD ii ⟨[], 0, 0⟩).path : List ℕ) : Multiset ℕ) =
            ((st.routes.get ⟨ii, hii⟩).path : Multiset ℕ) := by
          split
          · rw [← hpiget]
            exact Multiset.coe_reverse _
          · rw [hpiget]
        have hcoe3 : ((if (st.routes.getD ji ⟨[], 0, 0⟩).path.head? =
              some ij.2 then (st.routes.getD ji ⟨[], 0, 0⟩).path
            else (st.routes.getD ji ⟨[], 0, 0⟩).path.reverse : List ℕ) :
              Multiset ℕ) =
            ((st.routes.get ⟨ji, hji⟩).path : Multiset ℕ) := by
          split
          · rw [hpjget]
          · rw [← hpjget]
            exact Multiset.coe_reverse _
        rw [hcoe2, hcoe3]
      · intro r hr
        have hsub := (List.eraseIdx_sublist _ ji).subset hr
        rcases List.mem_or_eq_of_mem_set hsub with hr3 | hr3
        · exact hinv.2 r hr3
        · rw [hr3]
          dsimp only
          intro hcon
          rcases List.append_eq_nil.mp hcon with ⟨hA, _⟩
          revert hA
          split
          · intro hA
            exact hpine (List.reverse_eq_nil_iff.mp hA)
          · intro hA
            exact hpine hA

theorem pathsMs_map_singleton (f : ℕ → CWRoute) (hf : ∀ c, (f c).path = [c]) :
    ∀ l : List ℕ, pathsMs (l.map f) = (l : Multiset ℕ) := by
  intro l
  induction l with
  | nil => rfl
  | cons a t ih =>
    rw [List.map_cons, pathsMs_cons, hf, ih, Multiset.coe_add]
    rfl

theorem initCWState_inv (n : ℕ) (dIdx : ℕ → ℚ) (M : ℕ → ℕ → ℚ) :
    CWInv n (initCWState n dIdx M) := by
  constructor
  · exact pathsMs_map_singleton _ (fun c => rfl) (List.range' 1 n)
  · intro r hr
    obtain ⟨c, _, hc⟩ := List.mem_map.mp hr
    rw [← hc]
    exact List.cons_ne_nil c []

theorem foldl_mergeStep_inv (M : ℕ → ℕ → ℚ) (dIdx : ℕ → ℚ) (cap : ℚ)
    (n : ℕ) (pairs : List (ℕ × ℕ)) :
    ∀ (st : CWState), CWInv n st →
      CWInv n (pairs.foldl (mergeStep M dIdx cap) st) := by
  induction pairs with
  | nil => intro st h; exact h
  | cons p rest ih =>
    intro st h
    rw [List.foldl_cons]
    exact ih _ (mergeStep_inv M dIdx cap n st p h)

theorem pathsMs_eq_flatten (rs : List CWRoute) :
    pathsMs rs = (((rs.map (fun r => r.path)).flatten : List ℕ) : Multiset ℕ) := by
  induction rs with
  | nil => rfl
  | cons r rest ih =>
    rw [pathsMs_cons, ih, List.map_cons, List.flatten_cons, Multiset.coe_add]

theorem buildCW_flatten_perm (n : ℕ) (dIdx : ℕ → ℚ) (M : ℕ → ℕ → ℚ)
    (cap : ℚ) :
    List.Perm
      (((buildClarkeWrightRoutes n dIdx M cap).map (fun r => r.path)).flatten)
      (List.range' 1 n) := by
  have h := (foldl_mergeStep_inv M dIdx cap n (savingsPairs n M)
    (initCWState n dIdx M) (initCWState_inv n dIdx M)).1
  rw [pathsMs_eq_flatten] at h
  exact Multiset.coe_eq_coe.mp h

theorem selectRoutes_flatten_perm_facts (vehicles : ℕ) (l : List CWRoute)
    (n : ℕ)
    (hperm : List.Perm ((l.map (fun r => r.path)).flatten)
      (List.range' 1 n)) :
    (((selectRoutes vehicles l).map (fun r => r.path)).flatten).Nodup ∧
    ∀ k ∈ ((selectRoutes vehicles l).map (fun r => r.path)).flatten,
      k ∈ List.range' 1 n := by
  have hnod : (List.range' 1 n).Nodup := List.nodup_range' _ _
  unfold selectRoutes
  split
  · have hperm2 : List.Perm
        (((l.mergeSort routeKeyLE).map (fun r => r.path)).flatten)
        (List.range' 1 n) :=
      (((List.mergeSort_perm l routeKeyLE).map (fun r => r.path)).flatten).trans
        hperm
    have hsub : List.Sublist
        ((((l.mergeSort routeKeyLE).take vehicles).map
          (fun r => r.path)).flatten)
        (((l.mergeSort routeKeyLE).map (fun r => r.path)).flatten) := by
      have htd : l.mergeSort routeKeyLE =
          (l.mergeSort routeKeyLE).take vehicles ++
            (l.mergeSort routeKeyLE).drop vehicles :=
        (List.take_append_drop vehicles _).symm
      have hstep : List.Sublist
          ((((l.mergeSort routeKeyLE).take vehicles).map
            (fun r => r.path)).flatten)
          ((((l.mergeSort routeKeyLE).take vehicles).map
            (fun r => r.path)).flatten ++
          (((l.mergeSort routeKeyLE).drop vehicles).map
            (fun r => r.path)).flatten) := List.sublist_append_left _ _
      have heq : (((l.mergeSort routeKeyLE).take vehicles).map
            (fun r => r.path)).flatten ++
          (((l.mergeSort routeKeyLE).drop vehicles).map
            (fun r => r.path)).flatten =
          ((l.mergeSort routeKeyLE).map (fun r => r.path)).flatten := by
        rw [← List.flatten_append, ← List.map_append, ← htd]
      rw [heq] at hstep
      exact hstep
    constructor
    · exact hsub.nodup (hperm2.nodup_iff.mpr hnod)
    · intro k hk
      exact hperm2.mem_iff.mp (hsub.subset hk)
  · constructor
    · exact hperm.nodup_iff.mpr hnod
    · intro k hk
      exact hperm.mem_iff.mp hk

theorem range_map_getD {α β : Type} (d : α) (g : α → β) :
    ∀ (l : List α),
      (List.range l.length).map (fun v => g (l.getD v d)) = l.map g := by
  intro l
  induction l with
  | nil => rfl
  | cons a t ih =>
    simp only [List.length_cons, List.range_succ_eq_map, List.map_cons,
      List.map_map, List.getD_cons_zero]
    congr 1

theorem den_one_add (a b : ℚ) (ha : a.den = 1) (hb : b.den = 1) :
    (a + b).den = 1 := by
  have h1 := (Rat.den_eq_one_iff a).mp ha
  have h2 := (Rat.den_eq_one_iff b).mp hb
  have hab : a + b = ((a.num + b.num : ℤ) : ℚ) := by
    push_cast
    rw [h1, h2]
  rw [hab]
  exact Rat.den_intCast _

theorem den_one_sum (l : List ℚ) (h : ∀ x ∈ l, x.den = 1) : l.sum.den = 1 := by
  induction l with
  | nil => rfl
  | cons a t ih =>
    rw [List.sum_cons]
    exact den_one_add a t.sum (h a (List.mem_cons_self a t))
      (ih (fun x hx => h x (List.mem_cons_of_mem a hx)))

theorem outputRoutes_length (depotId : String) (idOf : ℕ → String)
    (dUsedIdx : ℕ → ℚ) (vehicles : ℕ) (selected : List CWRoute) :
    (outputRoutes depotId idOf dUsedIdx vehicles selected).length = vehicles := by
  unfold outputRoutes
  rw [List.length_map, List.length_range]

theorem selectRoutes_length_le (vehicles : ℕ) (l : List CWRoute) :
    (selectRoutes vehicles l).length ≤ vehicles ∨
      selectRoutes vehicles l = l := by
  unfold selectRoutes
  split
  · left
    rw [List.length_take]
    exact min_le_left _ _
  · right
    rfl

theorem selectRoutes_length_le_of (vehicles : ℕ) (l : List CWRoute)
    (h : l.length ≤ vehicles) : (selectRoutes vehicles l).length ≤ vehicles := by
  rcases selectRoutes_length_le vehicles l with h2 | h2
  · exact h2
  · rw [h2]
    exact h

theorem selectRoutes_len_le (vehicles : ℕ) (l : List CWRoute) :
    (selectRoutes vehicles l).length ≤ max vehicles l.length := by
  rcases selectRoutes_length_le vehicles l with h2 | h2
  · exact le_trans h2 (le_max_left _ _)
  · rw [h2]
    exact le_max_right _ _

theorem selectRoutes_length_le_vehicles (vehicles : ℕ) (l : List CWRoute) :
    (selectRoutes vehicles l).length ≤ vehicles := by
  unfold selectRoutes
  split
  · rw [List.length_take]
    exact min_le_left _ _
  · rename_i h
    omega

theorem outputRoutes_used_sum (depotId : String) (idOf : ℕ → String)
    (dUsedIdx : ℕ → ℚ) (vehicles : ℕ) (selected : List CWRoute)
    (hlen : selected.length ≤ vehicles)
    (hden : ∀ r ∈ selected, ((r.path.map dUsedIdx).sum).den = 1) :
    ((outputRoutes depotId idOf dUsedIdx vehicles selected).map
      (fun r => r.used)).sum =
      (selected.map (fun r => (r.path.map dUsedIdx).sum)).sum := by
  unfold outputRoutes
  rw [List.map_map]
  obtain ⟨m, hm⟩ : ∃ m, vehicles = selected.length + m :=
    ⟨vehicles - selected.length, by omega⟩
  subst hm
  rw [List.range_add, List.map_append, List.sum_append]
  have h2 : ((List.map (fun x => selected.length + x) (List.range m)).map
      ((fun r => OutRoute.used r) ∘ (fun v =>
        if v < selected.length then
          { vehicle := v + 1
            used := emitUsed (((selected.getD v ⟨[], 0, 0⟩).path.map
              dUsedIdx).sum)
            stopIds := depotId :: (selected.getD v ⟨[], 0, 0⟩).path.map idOf
              ++ [depotId]
            servedIds := (depotId :: (selected.getD v ⟨[], 0, 0⟩).path.map
              idOf ++ [depotId]).filter (fun s => s ≠ depotId) }
        else
          { vehicle := v + 1, used := 0, stopIds := [depotId, depotId],
            servedIds := [] }))).sum = 0 := by
    apply List.sum_eq_zero
    intro x hx
    obtain ⟨w, hw, hxeq⟩ := List.mem_map.mp hx
    obtain ⟨v, _, hweq⟩ := List.mem_map.mp hw
    rw [← hxeq, ← hweq]
    simp only [Function.comp_apply]
    rw [if_neg (by omega)]
  rw [h2, add_zero]
  have h1 : (List.range selected.length).map
      ((fun r => OutRoute.used r) ∘ (fun v =>
        if v < selected.length then
          { vehicle := v + 1
            used := emitUsed (((selected.getD v ⟨[], 0, 0⟩).path.map
              dUsedIdx).sum)
            stopIds := depotId :: (selected.getD v ⟨[], 0, 0⟩).path.map idOf
              ++ [depotId]
            servedIds := (depotId :: (selected.getD v ⟨[], 0, 0⟩).path.map
              idOf ++ [depotId]).filter (fun s => s ≠ depotId) }
        else
          { vehicle := v + 1, used := 0, stopIds := [depotId, depotId],
            servedIds := [] })) =
      (List.range selected.length).map (fun v =>
        ((selected.getD v ⟨[], 0, 0⟩).path.map dUsedIdx).sum) := by
    refine List.map_congr_left ?_
    intro v hv
    have hvlt : v < selected.length := List.mem_range.mp hv
    simp only [Function.comp]
    rw [if_pos hvlt]
    show emitUsed _ = _
    unfold emitUsed
    rw [if_pos]
    refine hden _ ?_
    rw [List.getD_eq_getElem selected _ hvlt]
    exact List.getElem_mem hvlt
  rw [h1, range_map_getD ⟨[], 0, 0⟩
    (fun r => (r.path.map dUsedIdx).sum) selected]

theorem filter_strip (depotId : String) (l : List String)
    (h : ∀ x ∈ l, x ≠ depotId) :
    (depotId :: l ++ [depotId]).filter (fun s => decide (s ≠ depotId)) = l := by
  have hall : ∀ x ∈ l, (fun s => decide (s ≠ depotId)) x = true :=
    fun x hx => by simpa using h x hx
  simp only [List.filter_cons, List.filter_append, List.filter_nil,
    List.filter_eq_self.mpr hall]
  simp

theorem outputRoutes_served_eq (depotId : String) (idOf : ℕ → String)
    (dUsedIdx : ℕ → ℚ) (vehicles : ℕ) (selected : List CWRoute)
    (hlen : selected.length ≤ vehicles)
    (hneq : ∀ r ∈ selected, ∀ k ∈ r.path, idOf k ≠ depotId) :
    (outputRoutes depotId idOf dUsedIdx vehicles selected).flatMap
      (fun r => r.servedIds) =
    (((selected.map (fun r => r.path)).flatten).map idOf) := by
  unfold outputRoutes
  rw [List.flatMap_def, List.map_map]
  obtain ⟨m, hm⟩ : ∃ m, vehicles = selected.length + m :=
    ⟨vehicles - selected.length, by omega⟩
  subst hm
  rw [List.range_add, List.map_append, List.flatten_append]
  have h2 : ((List.map (fun x => selected.length + x) (List.range m)).map
      ((fun r => OutRoute.servedIds r) ∘ (fun v =>
        if v < selected.length then
          { vehicle := v + 1
            used := emitUsed (((selected.getD v ⟨[], 0, 0⟩).path.map
              dUsedIdx).sum)
            stopIds := depotId :: (selected.getD v ⟨[], 0, 0⟩).path.map idOf
              ++ [depotId]
            servedIds := (depotId :: (selected.getD v ⟨[], 0, 0⟩).path.map
              idOf ++ [depotId]).filter (fun s => s ≠ depotId) }
        else
          { vehicle := v + 1, used := 0, stopIds := [depotId, depotId],
            servedIds := [] }))).flatten = ([] : List String) := by
    apply List.flatten_eq_nil_iff.mpr
    intro xs hxs
    obtain ⟨w, hw, hxeq⟩ := List.mem_map.mp hxs
    obtain ⟨v, _, hweq⟩ := List.mem_map.mp hw
    rw [← hxeq, ← hweq]
    simp only [Function.comp_apply]
    rw [if_neg (by omega)]
  rw [h2, List.append_nil]
  have h1 : (List.range selected.length).map
      ((fun r => OutRoute.servedIds r) ∘ (fun v =>
        if v < selected.length then
          { vehicle := v + 1
            used := emitUsed (((selected.getD v ⟨[], 0, 0⟩).path.map
              dUsedIdx).sum)
            stopIds := depotId :: (selected.getD v ⟨[], 0, 0⟩).path.map idOf
              ++ [depotId]
            servedIds := (depotId :: (selected.getD v ⟨[], 0, 0⟩).path.map
              idOf ++ [depotId]).filter (fun s => s ≠ depotId) }
        else
          { vehicle := v + 1, used := 0, stopIds := [depotId, depotId],
            servedIds := [] })) =
      (List.range selected.length).map (fun v =>
        (selected.getD v ⟨[], 0, 0⟩).path.map idOf) := by
    refine List.map_congr_left ?_
    intro v hv
    have hvlt : v < selected.length := List.mem_range.mp hv
    simp only [Function.comp_apply]
    rw [if_pos hvlt]
    refine filter_strip depotId _ ?_
    intro x hx
    obtain ⟨k, hk, hkeq⟩ := List.mem_map.mp hx
    rw [← hkeq]
    refine hneq _ ?_ k hk
    rw [List.getD_eq_getElem selected _ hvlt]
    exact List.getElem_mem hvlt
  rw [h1, range_map_getD ⟨[], 0, 0⟩
    (fun r => r.path.map idOf) selected]
  have hmm2 : selected.map (fun r => r.path.map idOf) =
      (selected.map (fun r => r.path)).map (List.map idOf) := by
    rw [List.map_map]
    rfl
  rw [hmm2, ← List.map_flatten]

theorem outputRoutes_stopIds_mem (depotId : String) (idOf : ℕ → String)
    (dUsedIdx : ℕ → ℚ) (vehicles : ℕ) (selected : List CWRoute)
    (o : OutRoute)
    (ho : o ∈ outputRoutes depotId idOf dUsedIdx vehicles selected)
    (x : String) (hx : x ∈ o.stopIds) :
    x = depotId ∨ ∃ r ∈ selected, ∃ k ∈ r.path, x = idOf k := by
  unfold outputRoutes at ho
  obtain ⟨v, _, hvo⟩ := List.mem_map.mp ho
  rw [← hvo] at hx
  have hsel : v < selected.length → selected.getD v ⟨[], 0, 0⟩ ∈ selected := by
    intro hvl
    rw [List.getD_eq_getElem selected _ hvl]
    exact List.getElem_mem hvl
  by_cases hvl : v < selected.length
  · rw [if_pos hvl] at hx
    have hx2 : x ∈ depotId ::
        ((selected.getD v ⟨[], 0, 0⟩).path.map idOf ++ [depotId]) := hx
    rcases List.mem_cons.mp hx2 with hy | hy
    · exact Or.inl hy
    rcases List.mem_append.mp hy with hy | hy
    · obtain ⟨k, hk, hkeq⟩ := List.mem_map.mp hy
      exact Or.inr ⟨selected.getD v ⟨[], 0, 0⟩, hsel hvl, k, hk, hkeq.symm⟩
    · rw [List.mem_singleton] at hy
      exact Or.inl hy
  · rw [if_neg hvl] at hx
    rcases List.mem_cons.mp hx with hy | hy
    · exact Or.inl hy
    rcases List.mem_cons.mp hy with hy | hy
    · exact Or.inl hy
    · exact absurd hy (List.not_mem_nil x)

theorem outputRoutes_served_sub_stops (depotId : String) (idOf : ℕ → String)
    (dUsedIdx : ℕ → ℚ) (vehicles : ℕ) (selected : List CWRoute)
    (o : OutRoute)
    (ho : o ∈ outputRoutes depotId idOf dUsedIdx vehicles selected) :
    ∀ x ∈ o.servedIds, x ∈ o.stopIds := by
  unfold outputRoutes at ho
  obtain ⟨v, _, hvo⟩ := List.mem_map.mp ho
  intro x hx
  rw [← hvo] at hx ⊢
  by_cases hvl : v < selected.length
  · rw [if_pos hvl] at hx ⊢
    have hx2 : x ∈ (depotId ::
        ((selected.getD v ⟨[], 0, 0⟩).path.map idOf ++ [depotId])).filter
          (fun s => decide (s ≠ depotId)) := hx
    exact (List.filter_sublist _).subset hx2
  · rw [if_neg hvl] at hx
    exact absurd hx (List.not_mem_nil x)

theorem reachOf_sublist (depot : Cust) (customers : List Cust)
    (capacity : ℕ) (mat : List Cust → (ℕ → ℕ → ℚ) × (ℕ → ℕ → Bool)) :
    List.Sublist (reachOf depot customers capacity mat) customers := by
  unfold reachOf eligibleOf
  exact (List.filter_sublist _).trans (List.filter_sublist _)

theorem cwListOf_perm (depot : Cust) (customers : List Cust) (capacity : ℕ)
    (mat : List Cust → (ℕ → ℕ → ℚ) × (ℕ → ℕ → Bool)) :
    List.Perm (((cwListOf depot customers capacity mat).map
        (fun r => r.path)).flatten)
      (List.range' 1 (reachOf depot customers capacity mat).length) := by
  unfold cwListOf
  dsimp only
  split
  · rename_i h
    rw [List.isEmpty_iff] at h
    rw [h]
    exact List.Perm.refl _
  · exact buildCW_flatten_perm _ _ _ _

theorem nodeDemUsed_den (reach customers : List Cust)
    (hsub : ∀ c ∈ reach, c ∈ customers)
    (hden : ∀ c ∈ customers, ∀ q, c.demand = some q → q.den = 1) :
    ∀ k, (nodeDemUsed reach k).den = 1 := by
  intro k
  cases k with
  | zero => rfl
  | succ m =>
    show (demandUsed (reach.getD m ⟨"", none⟩)).den = 1
    by_cases hm : m < reach.length
    · have hmem : reach.getD m ⟨"", none⟩ ∈ reach := by
        rw [List.getD_eq_getElem reach _ hm]
        exact List.getElem_mem hm
      have hc := hsub _ hmem
      unfold demandUsed
      cases hd : (reach.getD m ⟨"", none⟩).demand with
      | none => rfl
      | some q => exact hden _ hc q hd
    · rw [List.getD_eq_default reach _ (by omega)]
      rfl

theorem sum_over_flatten (f : ℕ → ℚ) (selected : List CWRoute) :
    (selected.map (fun r => (r.path.map f).sum)).sum =
      ((((selected.map (fun r => r.path)).flatten).map f)).sum := by
  rw [List.map_flatten, List.map_map, List.sum_flatten, List.map_map]
  rfl

theorem served_sum_eq (depot : Cust) (customers reach : List Cust)
    (F : List ℕ)
    (hsubset : ∀ c ∈ reach, c ∈ customers)
    (hids : (customers.map (fun c => c.id)).Nodup)
    (hreachids : (reach.map (fun c => c.id)).Nodup)
    (hFnodup : F.Nodup)
    (hFrange : ∀ k ∈ F, 1 ≤ k ∧ k - 1 < reach.length) :
    (F.map (nodeDemUsed reach)).sum =
      ((customers.filter (fun c =>
        (F.map (nodeIdOf depot reach)).contains c.id)).map demandUsed).sum ∧
    (∀ i ∈ F.map (nodeIdOf depot reach), i ∈ customers.map (fun c => c.id)) := by
  have hmemT : ∀ t ∈ F.map (fun k => reach.getD (k - 1) ⟨"", none⟩),
      t ∈ reach := by
    intro t ht
    obtain ⟨k, hk, hkeq⟩ := List.mem_map.mp ht
    obtain ⟨h1, h2⟩ := hFrange k hk
    rw [← hkeq, List.getD_eq_getElem _ _ h2]
    exact List.getElem_mem h2
  have hidmap : F.map (nodeIdOf depot reach) =
      (F.map (fun k => reach.getD (k - 1) ⟨"", none⟩)).map
        (fun c => c.id) := by
    rw [List.map_map]
    refine List.map_congr_left ?_
    intro k hk
    obtain ⟨h1, h2⟩ := hFrange k hk
    obtain ⟨m, rfl⟩ : ∃ m, k = m + 1 := ⟨k - 1, by omega⟩
    rfl
  have hTnodup : (F.map (fun k => reach.getD (k - 1) ⟨"", none⟩)).Nodup := by
    refine List.Nodup.map_on ?_ hFnodup
    intro k1 hk1 k2 hk2 heq
    obtain ⟨h11, h12⟩ := hFrange k1 hk1
    obtain ⟨h21, h22⟩ := hFrange k2 hk2
    have hnd : reach.Nodup := hreachids.of_map
    rw [List.getD_eq_getElem _ _ h12, List.getD_eq_getElem _ _ h22] at heq
    rw [← List.get_eq_getElem reach ⟨k1 - 1, h12⟩,
      ← List.get_eq_getElem reach ⟨k2 - 1, h22⟩] at heq
    have := (List.Nodup.get_inj_iff hnd).mp heq
    have hval : k1 - 1 = k2 - 1 := congrArg Fin.val this
    omega
  have hTsub : ∀ t ∈ F.map (fun k => reach.getD (k - 1) ⟨"", none⟩),
      t ∈ customers := fun t ht => hsubset t (hmemT t ht)
  have hfilterperm : List.Perm (customers.filter (fun c =>
      ((F.map (fun k => reach.getD (k - 1) ⟨"", none⟩)).map
        (fun c => c.id)).contains c.id))
      (F.map (fun k => reach.getD (k - 1) ⟨"", none⟩)) := by
    refine (List.perm_ext_iff_of_nodup ((hids.of_map).filter _) hTnodup).mpr ?_
    intro c
    rw [List.mem_filter]
    constructor
    · rintro ⟨hcc, hcid⟩
      have hcm : c.id ∈ (F.map (fun k => reach.getD (k - 1) ⟨"", none⟩)).map
          (fun c => c.id) := List.elem_iff.mp hcid
      obtain ⟨t, ht, htid⟩ := List.mem_map.mp hcm
      have hct : c = t :=
        List.inj_on_of_nodup_map hids hcc (hTsub t ht) htid.symm
      rw [hct]
      exact ht
    · intro hcT
      refine ⟨hTsub c hcT, ?_⟩
      exact List.elem_iff.mpr (List.mem_map_of_mem _ hcT)
  constructor
  · rw [hidmap]
    have hs1 : ((customers.filter (fun c =>
        ((F.map (fun k => reach.getD (k - 1) ⟨"", none⟩)).map
          (fun c => c.id)).contains c.id)).map demandUsed).sum =
        ((F.map (fun k => reach.getD (k - 1) ⟨"", none⟩)).map
          demandUsed).sum :=
      (hfilterperm.map demandUsed).sum_eq
    rw [hs1, List.map_map]
    refine congrArg List.sum ?_
    refine List.map_congr_left ?_
    intro k hk
    obtain ⟨h1, h2⟩ := hFrange k hk
    obtain ⟨m, rfl⟩ : ∃ m, k = m + 1 := ⟨k - 1, by omega⟩
    rfl
  · intro i hi
    rw [hidmap] at hi
    obtain ⟨t, ht, hti⟩ := List.mem_map.mp hi
    exact List.mem_map.mpr ⟨t, hTsub t ht, hti⟩

theorem partition_generic (customers : List Cust) (served : List String) :
    ∀ i ∈ customers.map (fun c => c.id),
      (i ∈ served ↔
        i ∉ (customers.filter (fun c => !served.contains c.id)).map
          (fun c => c.id)) := by
  intro i hi
  constructor
  · intro hiS hiU
    obtain ⟨c, hc, hci⟩ := List.mem_map.mp hiU
    rw [List.mem_filter] at hc
    have hfalse : served.contains c.id = false := by simpa using hc.2
    have hnm : c.id ∉ served := by
      intro hm
      have htrue : served.contains c.id = true := List.elem_iff.mpr hm
      rw [htrue] at hfalse
      cases hfalse
    rw [hci] at hnm
    exact hnm hiS
  · intro hiU
    by_contra hiS
    obtain ⟨c, hc, hci⟩ := List.mem_map.mp hi
    refine hiU (List.mem_map.mpr ⟨c, ?_, hci⟩)
    rw [List.mem_filter]
    refine ⟨hc, ?_⟩
    have hnm : c.id ∉ served := by
      rw [hci]
      exact hiS
    cases hcc : served.contains c.id with
    | false => rfl
    | true => exact absurd (List.elem_iff.mp hcc) hnm

/-- C5: every response carries exactly `vehicles` route entries; the emitted
`used` values sum to the total demand of the served customers (stated with
integral demands, so that `int(used)`/`round(used, 3)` emits the exact sum,
and with unique customer ids and a fresh depot id, so that "the served
customers" are well defined); and the `served_customer_ids` over all routes
together with `unserved_customer_ids` partition the request's customer
ids. -/
theorem claim5_solver_invariants (depot : Cust) (customers : List Cust)
    (vehicles capacity : ℕ)
    (mat : List Cust → (ℕ → ℕ → ℚ) × (ℕ → ℕ → Bool))
    (hids : (customers.map (fun c => c.id)).Nodup)
    (hdep : depot.id ∉ customers.map (fun c => c.id))
    (hden : ∀ c ∈ customers, ∀ q, c.demand = some q → q.den = 1) :
    (solveVRP depot customers vehicles capacity mat).routes.length =
      vehicles ∧
    ((solveVRP depot customers vehicles capacity mat).routes.map
        (fun r => r.used)).sum =
      ((customers.filter (fun c =>
        ((solveVRP depot customers vehicles capacity mat).routes.flatMap
          (fun r => r.servedIds)).contains c.id)).map demandUsed).sum ∧
    (∀ i ∈ (solveVRP depot customers vehicles capacity mat).routes.flatMap
        (fun r => r.servedIds), i ∈ customers.map (fun c => c.id)) ∧
    (∀ i ∈ customers.map (fun c => c.id),
      (i ∈ (solveVRP depot customers vehicles capacity mat).routes.flatMap
        (fun r => r.servedIds) ↔
      i ∉ (solveVRP depot customers vehicles capacity mat).unservedIds)) := by
  have hsubl := reachOf_sublist depot customers capacity mat
  have hsubset : ∀ c ∈ reachOf depot customers capacity mat, c ∈ customers :=
    fun c hc => hsubl.subset hc
  have hreachids : ((reachOf depot customers capacity mat).map
      (fun c => c.id)).Nodup := (hsubl.map _).nodup hids
  obtain ⟨hFnodup, hFmem⟩ := selectRoutes_flatten_perm_facts vehicles
    (cwListOf depot customers capacity mat)
    (reachOf depot customers capacity mat).length
    (cwListOf_perm depot customers capacity mat)
  have hFrange : ∀ k ∈ ((selectRoutes vehicles
      (cwListOf depot customers capacity mat)).map (fun r => r.path)).flatten,
      1 ≤ k ∧ k - 1 < (reachOf depot customers capacity mat).length := by
    intro k hk
    obtain ⟨i, hi, hk2⟩ := List.mem_range'.mp (hFmem k hk)
    omega
  have hlen := selectRoutes_length_le_vehicles vehicles
    (cwListOf depot customers capacity mat)
  have hneq : ∀ r ∈ selectRoutes vehicles
      (cwListOf depot customers capacity mat), ∀ k ∈ r.path,
      nodeIdOf depot (reachOf depot customers capacity mat) k ≠ depot.id := by
    intro r hr k hk
    have hkF : k ∈ ((selectRoutes vehicles
        (cwListOf depot customers capacity mat)).map
          (fun r => r.path)).flatten :=
      List.mem_flatten.mpr ⟨r.path, List.mem_map.mpr ⟨r, hr, rfl⟩, hk⟩
    obtain ⟨h1k, h2k⟩ := hFrange k hkF
    obtain ⟨m2, rfl⟩ : ∃ m2, k = m2 + 1 := ⟨k - 1, by omega⟩
    have hm2 : m2 < (reachOf depot customers capacity mat).length := by omega
    have hmem : (reachOf depot customers capacity mat).getD m2 ⟨"", none⟩ ∈
        reachOf depot customers capacity mat := by
      rw [List.getD_eq_getElem _ _ hm2]
      exact List.getElem_mem hm2
    have hidmem : ((reachOf depot customers capacity mat).getD m2
        ⟨"", none⟩).id ∈ customers.map (fun c => c.id) :=
      List.mem_map.mpr ⟨_, hsubset _ hmem, rfl⟩
    intro hcon
    have hcon2 : ((reachOf depot customers capacity mat).getD m2
        ⟨"", none⟩).id = depot.id := hcon
    rw [hcon2] at hidmem
    exact hdep hidmem
  have hservedEq : (outputRoutes depot.id
      (nodeIdOf depot (reachOf depot customers capacity mat))
      (nodeDemUsed (reachOf depot customers capacity mat)) vehicles
      (selectRoutes vehicles (cwListOf depot customers capacity
        mat))).flatMap (fun r => r.servedIds) =
      (((selectRoutes vehicles (cwListOf depot customers capacity mat)).map
        (fun r => r.path)).flatten).map
        (nodeIdOf depot (reachOf depot customers capacity mat)) :=
    outputRoutes_served_eq depot.id
      (nodeIdOf depot (reachOf depot customers capacity mat))
      (nodeDemUsed (reachOf depot customers capacity mat)) vehicles
      (selectRoutes vehicles (cwListOf depot customers capacity mat))
      hlen hneq
  obtain ⟨hsum0, hsub0⟩ := served_sum_eq depot customers
    (reachOf depot customers capacity mat)
    (((selectRoutes vehicles (cwListOf depot customers capacity mat)).map
      (fun r => r.path)).flatten)
    hsubset hids hreachids hFnodup hFrange
  have hdens : ∀ r ∈ selectRoutes vehicles
      (cwListOf depot customers capacity mat),
      ((r.path.map (nodeDemUsed (reachOf depot customers capacity
        mat))).sum).den = 1 := by
    intro r hr
    refine den_one_sum _ ?_
    intro x hx
    obtain ⟨k, hk, hkeq⟩ := List.mem_map.mp hx
    rw [← hkeq]
    exact nodeDemUsed_den _ customers hsubset hden k
  refine ⟨?_, ?_, ?_, ?_⟩
  · exact outputRoutes_length depot.id
      (nodeIdOf depot (reachOf depot customers capacity mat))
      (nodeDemUsed (reachOf depot customers capacity mat)) vehicles
      (selectRoutes vehicles (cwListOf depot customers capacity mat))
  · show ((outputRoutes depot.id
        (nodeIdOf depot (reachOf depot customers capacity mat))
        (nodeDemUsed (reachOf depot customers capacity mat)) vehicles
        (selectRoutes vehicles (cwListOf depot customers capacity mat))).map
          (fun r => r.used)).sum =
      ((customers.filter (fun c =>
        ((outputRoutes depot.id
          (nodeIdOf depot (reachOf depot customers capacity mat))
          (nodeDemUsed (reachOf depot customers capacity mat)) vehicles
          (selectRoutes vehicles (cwListOf depot customers capacity
            mat))).flatMap
          (fun r => r.servedIds)).contains c.id)).map demandUsed).sum
    rw [outputRoutes_used_sum depot.id
      (nodeIdOf depot (reachOf depot customers capacity mat))
      (nodeDemUsed (reachOf depot customers capacity mat)) vehicles
      (selectRoutes vehicles (cwListOf depot customers capacity mat))
      hlen hdens, sum_over_flatten, hservedEq]
    exact hsum0
  · intro i hi
    have hi2 : i ∈ (outputRoutes depot.id
        (nodeIdOf depot (reachOf depot customers capacity mat))
        (nodeDemUsed (reachOf depot customers capacity mat)) vehicles
        (selectRoutes vehicles (cwListOf depot customers capacity
          mat))).flatMap (fun r => r.servedIds) := hi
    rw [hservedEq] at hi2
    exact hsub0 i hi2
  · intro i hi
    exact partition_generic customers
      ((solveVRP depot customers vehicles capacity mat).routes.flatMap
        (fun r => r.servedIds)) i hi

theorem reachOf_subset_eligible (depot : Cust) (customers : List Cust)
    (capacity : ℕ) (mat : List Cust → (ℕ → ℕ → ℚ) × (ℕ → ℕ → Bool)) :
    ∀ c2 ∈ reachOf depot customers capacity mat,
      c2 ∈ eligibleOf customers capacity := by
  intro c2 hc2
  unfold reachOf at hc2
  exact (List.mem_filter.mp hc2).1

/-- C10: a customer whose demand (default 1) exceeds the vehicle capacity is
dropped by the eligibility filter before the distance matrix is built: its id
appears in no route's stops and in no route's `served_customer_ids`, and it
is listed among the `unserved_customer_ids` (unique customer ids and a fresh
depot id keep the ids unambiguous). -/
theorem claim10_capacity_filter (depot : Cust) (customers : List Cust)
    (vehicles capacity : ℕ)
    (mat : List Cust → (ℕ → ℕ → ℚ) × (ℕ → ℕ → Bool))
    (hids : (customers.map (fun c => c.id)).Nodup)
    (hdep : depot.id ∉ customers.map (fun c => c.id))
    (c : Cust) (hc : c ∈ customers)
    (hheavy : (capacity : ℚ) < demandCW c) :
    (∀ r ∈ (solveVRP depot customers vehicles capacity mat).routes,
      c.id ∉ r.stopIds) ∧
    (∀ r ∈ (solveVRP depot customers vehicles capacity mat).routes,
      c.id ∉ r.servedIds) ∧
    c.id ∈ (solveVRP depot customers vehicles capacity mat).unservedIds := by
  have hsubl := reachOf_sublist depot customers capacity mat
  have hsubset : ∀ c2 ∈ reachOf depot customers capacity mat,
      c2 ∈ customers := fun c2 hc2 => hsubl.subset hc2
  have hciddep : c.id ≠ depot.id := by
    intro hcon
    rw [← hcon] at hdep
    exact hdep (List.mem_map.mpr ⟨c, hc, rfl⟩)
  have hnr : ∀ c2 ∈ reachOf depot customers capacity mat, c2.id ≠ c.id := by
    intro c2 hc2 hcon
    have hc2el := reachOf_subset_eligible depot customers capacity mat c2 hc2
    have hc2memfilter := List.mem_filter.mp hc2el
    have hc2dem : demandCW c2 ≤ (capacity : ℚ) := by simpa using hc2memfilter.2
    have hc2c : c2 = c :=
      List.inj_on_of_nodup_map hids hc2memfilter.1 hc hcon
    rw [hc2c] at hc2dem
    exact absurd hc2dem (not_le.mpr hheavy)
  obtain ⟨_, hFmem⟩ := selectRoutes_flatten_perm_facts vehicles
    (cwListOf depot customers capacity mat)
    (reachOf depot customers capacity mat).length
    (cwListOf_perm depot customers capacity mat)
  have hstops : ∀ r ∈ (solveVRP depot customers vehicles capacity mat).routes,
      c.id ∉ r.stopIds := by
    intro r hr hmem
    have hr2 : r ∈ outputRoutes depot.id
        (nodeIdOf depot (reachOf depot customers capacity mat))
        (nodeDemUsed (reachOf depot customers capacity mat)) vehicles
        (selectRoutes vehicles (cwListOf depot customers capacity mat)) := hr
    rcases outputRoutes_stopIds_mem depot.id
        (nodeIdOf depot (reachOf depot customers capacity mat))
        (nodeDemUsed (reachOf depot customers capacity mat)) vehicles
        (selectRoutes vehicles (cwListOf depot customers capacity mat))
        r hr2 c.id hmem with hx | ⟨r2, hrr2, k, hk, hkeq⟩
    · exact hciddep hx
    · have hkF : k ∈ ((selectRoutes vehicles
          (cwListOf depot customers capacity mat)).map
            (fun r => r.path)).flatten :=
        List.mem_flatten.mpr ⟨r2.path, List.mem_map.mpr ⟨r2, hrr2, rfl⟩, hk⟩
      obtain ⟨i, hi, hk2⟩ := List.mem_range'.mp (hFmem k hkF)
      obtain ⟨m2, rfl⟩ : ∃ m2, k = m2 + 1 := ⟨k - 1, by omega⟩
      have hm2 : m2 < (reachOf depot customers capacity mat).length := by
        omega
      have hmem2 : (reachOf depot customers capacity mat).getD m2
          ⟨"", none⟩ ∈ reachOf depot customers capacity mat := by
        rw [List.getD_eq_getElem _ _ hm2]
        exact List.getElem_mem hm2
      have hkeq2 : c.id = ((reachOf depot customers capacity mat).getD m2
          ⟨"", none⟩).id := hkeq
      exact hnr _ hmem2 hkeq2.symm
  have hserved : ∀ r ∈ (solveVRP depot customers vehicles capacity
      mat).routes, c.id ∉ r.servedIds := by
    intro r hr hmem
    have hr2 : r ∈ outputRoutes depot.id
        (nodeIdOf depot (reachOf depot customers capacity mat))
        (nodeDemUsed (reachOf depot customers capacity mat)) vehicles
        (selectRoutes vehicles (cwListOf depot customers capacity mat)) := hr
    exact hstops r hr (outputRoutes_served_sub_stops depot.id
      (nodeIdOf depot (reachOf depot customers capacity mat))
      (nodeDemUsed (reachOf depot customers capacity mat)) vehicles
      (selectRoutes vehicles (cwListOf depot customers capacity mat))
      r hr2 c.id hmem)
  refine ⟨hstops, hserved, ?_⟩
  have hnotserved : c.id ∉
      (solveVRP depot customers vehicles capacity mat).routes.flatMap
        (fun r => r.servedIds) := by
    intro hm
    obtain ⟨r, hr, hmm⟩ := List.mem_flatMap.mp hm
    exact hserved r hr hmm
  show c.id ∈ (customers.filter (fun c2 =>
      !((solveVRP depot customers vehicles capacity mat).routes.flatMap
        (fun r => r.servedIds)).contains c2.id)).map (fun c2 => c2.id)
  refine List.mem_map.mpr ⟨c, ?_, rfl⟩
  rw [List.mem_filter]
  refine ⟨hc, ?_⟩
  cases hcc : ((solveVRP depot customers vehicles capacity mat).routes.flatMap
      (fun r => r.servedIds)).contains c.id with
  | false => rfl
  | true => exact absurd (List.elem_iff.mp hcc) hnotserved

/-- C5, witness: a concrete solve with two customers and two vehicles has
exactly two route entries. -/
theorem claim5_witness :
    (solveVRP ⟨"D", none⟩ [⟨"A", some 1⟩, ⟨"B", some 5⟩] 2 3
      (fun _ => (fun _ _ => 1, fun _ _ => false))).routes.length = 2 :=
  (claim5_solver_invariants ⟨"D", none⟩ [⟨"A", some 1⟩, ⟨"B", some 5⟩] 2 3
    (fun _ => (fun _ _ => 1, fun _ _ => false))
    (by with_unfolding_all decide) (by with_unfolding_all decide)
    (by
      intro c hc q hq
      rcases List.mem_cons.mp hc with h | h
      · rw [h] at hq
        have hq2 : some (1 : ℚ) = some q := hq
        injection hq2 with hq2
        rw [← hq2]
        with_unfolding_all decide
      rcases List.mem_cons.mp h with h | h
      · rw [h] at hq
        have hq2 : some (5 : ℚ) = some q := hq
        injection hq2 with hq2
        rw [← hq2]
        with_unfolding_all decide
      · simp at h)).1

/-- C10, witness: in the same concrete solve with capacity 3, the customer
of demand 5 lands in `unserved_customer_ids`. -/
theorem claim10_witness :
    "B" ∈ (solveVRP ⟨"D", none⟩ [⟨"A", some 1⟩, ⟨"B", some 5⟩] 2 3
      (fun _ => (fun _ _ => 1, fun _ _ => false))).unservedIds :=
  (claim10_capacity_filter ⟨"D", none⟩ [⟨"A", some 1⟩, ⟨"B", some 5⟩] 2 3
    (fun _ => (fun _ _ => 1, fun _ _ => false))
    (by with_unfolding_all decide) (by with_unfolding_all decide)
    ⟨"B", some 5⟩ (by with_unfolding_all decide)
    (by with_unfolding_all decide)).2.2

end VRP